import Mathlib

/-!
WWVB simulator: GPS sentence parser and time-code frame.

A shallow embedding of `Core/Src/UnixTimeWWVB.cpp` and of the inline parts of
`Core/Inc/UnixTime.h`.  The file `UnixTime.cpp` is not part of the sources at
hand: its constants, tables and the functions `TimeComponents` and
`DateComponents` are modelled from the specification, and each such definition
says so.

Conventions of the embedding.

* `uint32_t`, `uint16_t` and `uint8_t` values are natural numbers; every
  operation that can leave the range of its C type is followed by an explicit
  reduction modulo `2^32`, `2^16` or `2^8`.
* A C string is the list of the bytes that precede its terminating NUL.  The
  readable bytes of a string `s` are the indices `0 .. s.length` (the last one
  being the terminator); the scanning loop also stops at a zero byte inside the
  list, as the C loop does.
* Whether plain `char` is signed is implementation defined (unsigned on the
  ARM target, signed on the desktop build), so the parser takes it as the
  parameter `charSigned`.
* A read outside the string or outside a table has no defined result: the
  embedded function then returns `none`.
* `timeSubfieldIndex` and `dateSubfieldIndex` stop at 6, so their increments
  carry no reduction; `nmeaFieldIndex` is reduced modulo `2^32`.
-/

namespace UnixTime

/-- Modelled from the spec: the constant `kOneMinute`, defined in the absent
`UnixTime.cpp`; seconds in a minute. -/
def kOneMinute : Nat := 60

/-- Modelled from the spec: the constant `kOneHour`, defined in the absent
`UnixTime.cpp`; seconds in an hour. -/
def kOneHour : Nat := 3600

/-- Modelled from the spec: the constant `kOneDay`, defined in the absent
`UnixTime.cpp`; seconds in a day. -/
def kOneDay : Nat := 86400

/-- Modelled from the spec: the constant `kYear2000`, defined in the absent
`UnixTime.cpp`; seconds from 1970-01-01 to 2000-01-01. -/
def kYear2000 : Nat := 946684800

/-- Modelled from the spec: the 12-entry table `kDaysTo`, defined in the absent
`UnixTime.cpp`; days of a non-leap year that precede each month. -/
def kDaysTo : List Nat := [0, 31, 59, 90, 120, 151, 181, 212, 243, 273, 304, 334]

/-- Modelled from the spec: the 12-entry table `kDaysToLY`, defined in the
absent `UnixTime.cpp`; days of a leap year that precede each month. -/
def kDaysToLY : List Nat := [0, 31, 60, 91, 121, 152, 182, 213, 244, 274, 305, 335]

/-- `UnixTime::DayOfWeek` (UnixTime.h:74): `((inTime/kOneDay)+4)%7`. -/
def DayOfWeek (inTime : Nat) : Nat := ((inTime / kOneDay) + 4) % 7

/-- Modelled from the spec: `UnixTime::TimeComponents`, declared at
UnixTime.h:58 and defined in the absent `UnixTime.cpp`.  The spec: "decompose
the sub-day remainder of `t` (seconds since epoch) using fixed divisors (60,
3600); inputs accept any value of the counter type".  The result is
`(hour, minute, second)`. -/
def TimeComponents (inTime : Nat) : Nat × Nat × Nat :=
  let r := inTime % kOneDay
  (r / kOneHour, (r % kOneHour) / kOneMinute, r % kOneMinute)

/-- Modelled from the spec: the year-length table walked by `DateComponents`;
"every 4th year" is a leap year. -/
def daysInYear (year : Nat) : Nat := if year % 4 = 0 then 366 else 365

/-- Modelled from the spec: the walk of `DateComponents` "forward from the
epoch to locate the year containing `t`".  `days` counts the days left from the
first day of `year`; the first argument bounds the number of years walked. -/
def yearWalk : Nat → Nat → Nat → Nat × Nat
  | 0, year, days => (year, days)
  | fuel + 1, year, days =>
    if daysInYear year ≤ days then yearWalk fuel (year + 1) (days - daysInYear year)
    else (year, days)

/-- Modelled from the spec: the search of `DateComponents` in a cumulative-days
table; the month is the number of table entries not above the zero-based day of
the year. -/
def monthOf (table : List Nat) (dayInYear : Nat) : Nat :=
  (table.filter (fun daysTo => decide (daysTo ≤ dayInYear))).length

/-- Modelled from the spec: `UnixTime::DateComponents`, declared at
UnixTime.h:63 and defined in the absent `UnixTime.cpp`.  The spec:
"`DateComponents(t) -> (year, month, day)` plus returns the truncated start of
day counter value: walks a precomputed year-length/leap-year table forward from
the epoch to locate the year containing `t`, then a 12-entry cumulative-days
table (two variants, leap and non-leap) to locate the month and day."  The
result is `(returned value, year, month, day)`.  A year never takes fewer than
365 days, so `inTime / kOneDay` steps are enough for the walk. -/
def DateComponents (inTime : Nat) : Nat × Nat × Nat × Nat :=
  let days := inTime / kOneDay
  let yd := yearWalk days 1970 days
  let table := if yd.1 % 4 = 0 then kDaysToLY else kDaysTo
  let month := monthOf table yd.2
  let day := yd.2 - table.getD (month - 1) 0 + 1
  (inTime - inTime % kOneDay, yd.1, month, day)

/-- The struct `UnixTime::SComponents` (UnixTime.h:147-155): five `uint8_t`
members and the `uint16_t` year. -/
structure SComponents where
  /-- Member `uint8_t second`. -/
  second : Nat
  /-- Member `uint8_t minute`. -/
  minute : Nat
  /-- Member `uint8_t hour`. -/
  hour : Nat
  /-- Member `uint8_t day`. -/
  day : Nat
  /-- Member `uint8_t month`. -/
  month : Nat
  /-- Member `uint16_t year`. -/
  year : Nat
deriving DecidableEq, Repr

/-- Modelled from the spec: the days from the epoch to the first day of `year`
in the calendar of `DateComponents`, the sum of the year lengths it walks
("every 4th year" has 366 days). -/
def daysToYear (year : Nat) : Nat :=
  ((List.range (year - 1970)).map (fun i => daysInYear (1970 + i))).sum

/-- Modelled from the spec: `UnixTime::ToComponents`, declared at
UnixTime.h:156 and defined in the absent `UnixTime.cpp`.  The spec:
"CalendarComponents: {second, minute, hour, day, month, year} - a decomposed,
non-owning view derived from a counter value"; the decomposition is the one of
`TimeComponents` and `DateComponents`, each value stored in the member of
`SComponents` of its width. -/
def ToComponents (inTime : Nat) : SComponents :=
  let tc := TimeComponents inTime
  let dc := DateComponents inTime
  { second := tc.2.2 % 256, minute := tc.2.1 % 256, hour := tc.1 % 256,
    day := dc.2.2.2 % 256, month := dc.2.2.1 % 256, year := dc.2.1 % 65536 }

/-- Modelled from the spec: `UnixTime::FromComponents`, declared at
UnixTime.h:159 and defined in the absent `UnixTime.cpp`.  The spec gives its
contract only ("always reconstructible from and losslessly convertible to the
counter value", "fixed civil calendar anchored at epoch year 1970"); the model
is the counter value of the civil instant in the calendar of `DateComponents`
(the year lengths it walks and its cumulative-days tables), as a `time32_t`. -/
def FromComponents (inComponents : SComponents) : Nat :=
  let table := if inComponents.year % 4 = 0 then kDaysToLY else kDaysTo
  ((daysToYear inComponents.year + table.getD (inComponents.month - 1) 0
      + (inComponents.day - 1)) * kOneDay
    + inComponents.hour * kOneHour + inComponents.minute * kOneMinute
    + inComponents.second) % 4294967296

end UnixTime

namespace UnixTimeWWVB

open UnixTime

/-- Bytes of an ASCII string literal. -/
def bytes (s : String) : List Nat := s.toList.map Char.toNat

/-- Local variables of `UnixTimeFromRMCString` that live across loop
iterations.  `inBounds` is not a C variable: it becomes `false` when
`kDaysTo[month-1]` is evaluated with an index outside the table. -/
structure RMCState where
  unixTime : Nat
  timeValue : Nat
  timeSubfieldIndex : Nat
  month : Nat
  dateSubfieldIndex : Nat
  nmeaFieldIndex : Nat
  crc : Nat
  expectedCRC : Nat
  crcAsteriskHit : Bool
  inBounds : Bool
deriving DecidableEq, Repr

/-- Values of the locals before the loop (UnixTimeWWVB.cpp:172, 185-194). -/
def initState : RMCState :=
  { unixTime := 0, timeValue := 0, timeSubfieldIndex := 0, month := 0,
    dateSubfieldIndex := 0, nmeaFieldIndex := 0, crc := 0, expectedCRC := 0,
    crcAsteriskHit := false, inBounds := true }

/-- The `uint32_t` value of the `int` expression `thisChar-'0'`, for the byte
`thisChar` read as a signed or an unsigned `char`. -/
def charMinusZero (charSigned : Bool) (thisChar : Nat) : Nat :=
  if charSigned && decide (128 ≤ thisChar) then (thisChar + 4294967296 - 304) % 4294967296
  else (thisChar + 4294967296 - 48) % 4294967296

/-- Lines 289-302: `thisChar -= '0'; if (thisChar > 9) thisChar -= 7;`, the
result taken modulo 256 (it is only used in a sum stored to a `uint8_t`). -/
def hexDigitOf (charSigned : Bool) (thisChar : Nat) : Nat :=
  let u := (thisChar + 208) % 256
  if decide (9 < u) && (!charSigned || decide (u < 128)) then u - 7 else u

/-- Lines 216-239: one character of field 1 (`hhmmss.ss`). -/
def timeField (charSigned : Bool) (st : RMCState) (thisChar : Nat) : RMCState :=
  if st.timeSubfieldIndex < 6 then
    if st.timeSubfieldIndex &&& 1 ≠ 0 then
      let timeValue := (st.timeValue + charMinusZero charSigned thisChar) % 4294967296
      let unixTime :=
        if st.timeSubfieldIndex = 1 then (st.unixTime + timeValue * kOneHour) % 4294967296
        else if st.timeSubfieldIndex = 3 then (st.unixTime + timeValue * kOneMinute) % 4294967296
        else if st.timeSubfieldIndex = 5 then (st.unixTime + timeValue) % 4294967296
        else st.unixTime
      { st with unixTime := unixTime, timeValue := 0,
                timeSubfieldIndex := st.timeSubfieldIndex + 1 }
    else
      { st with timeValue := (charMinusZero charSigned thisChar * 10) % 4294967296,
                timeSubfieldIndex := st.timeSubfieldIndex + 1 }
  else st

/-- Lines 254-276: the `switch(dateSubfieldIndex)` of field 9, entered with the
completed two-digit value `timeValue`. -/
def dateSubfield (st : RMCState) (timeValue : Nat) : RMCState :=
  if st.dateSubfieldIndex = 1 then
    { st with unixTime := (st.unixTime + timeValue * kOneDay) % 4294967296 }
  else if st.dateSubfieldIndex = 3 then
    match kDaysTo[(timeValue + 4294967296 - 1) % 4294967296]? with
    | some daysTo =>
      { st with month := timeValue,
                unixTime := (st.unixTime + daysTo * kOneDay) % 4294967296 }
    | none => { st with month := timeValue, inBounds := false }
  else if st.dateSubfieldIndex = 5 then
    let u1 := (st.unixTime + timeValue * 31536000) % 4294967296
    let u2 := if decide (st.month > 2) && decide (timeValue % 4 = 0)
              then (u1 + kOneDay) % 4294967296 else u1
    let leapDays := ((timeValue + 3) % 4294967296 / 4 + 4294967296 - 1) % 4294967296
    { st with unixTime := (u2 + leapDays * kOneDay) % 4294967296 }
  else st

/-- Lines 247-284: one character of field 9 (`ddmmyy`). -/
def dateField (charSigned : Bool) (st : RMCState) (thisChar : Nat) : RMCState :=
  if st.dateSubfieldIndex < 6 then
    if st.dateSubfieldIndex &&& 1 ≠ 0 then
      let timeValue := (st.timeValue + charMinusZero charSigned thisChar) % 4294967296
      let st1 := dateSubfield st timeValue
      { st1 with timeValue := 0, dateSubfieldIndex := st.dateSubfieldIndex + 1 }
    else
      { st with timeValue := (charMinusZero charSigned thisChar * 10) % 4294967296,
                dateSubfieldIndex := st.dateSubfieldIndex + 1 }
  else st

/-- Lines 200-306: the body of the loop for one non-zero character
(44 is a comma, 42 an asterisk). -/
def step (charSigned : Bool) (st : RMCState) (thisChar : Nat) : RMCState :=
  if thisChar = 44 then
    { st with crc := st.crc ^^^ 44,
              nmeaFieldIndex := (st.nmeaFieldIndex + 1) % 4294967296 }
  else if thisChar = 42 then
    { st with crcAsteriskHit := true }
  else if st.crcAsteriskHit = false then
    let st1 := { st with crc := st.crc ^^^ (thisChar % 256) }
    if st1.nmeaFieldIndex = 1 then timeField charSigned st1 thisChar
    else if st1.nmeaFieldIndex = 9 then dateField charSigned st1 thisChar
    else st1
  else
    { st with expectedCRC := (st.expectedCRC * 16 + hexDigitOf charSigned thisChar) % 256 }

/-- Line 198: `while ((thisChar = *(stringPtr++)) != 0)`. -/
def scan (charSigned : Bool) : RMCState → List Nat → RMCState
  | st, [] => st
  | st, thisChar :: rest =>
    if thisChar = 0 then st else scan charSigned (step charSigned st thisChar) rest

/-- Lines 313-337: the value returned once the loop has ended. -/
def finish (st : RMCState) : Nat :=
  if st.crcAsteriskHit = true ∧ st.crc = st.expectedCRC then
    if st.unixTime ≠ 0 then
      if st.timeSubfieldIndex > 5 ∧ st.dateSubfieldIndex > 5 then
        (st.unixTime + kYear2000) % 4294967296
      else 0
    else st.unixTime
  else 0

/-- The byte `inString[i]`: defined for the characters of the string and for
its terminating NUL, undefined (`none`) beyond the terminator. -/
def readChar (inString : List Nat) (i : Nat) : Option Nat :=
  if i < inString.length then inString[i]?
  else if i = inString.length then some 0
  else none

/-- `UnixTimeWWVB::UnixTimeFromRMCString` (UnixTimeWWVB.cpp:169-340).  The
argument is `none` for a null pointer.  The result is `none` when the run reads
outside the string or outside `kDaysTo`. -/
def UnixTimeFromRMCString (charSigned : Bool) (inString : Option (List Nat)) : Option Nat :=
  match inString with
  | none => some 0
  | some s =>
    if readChar s 0 = some 36 then
      match readChar s 5 with
      | none => none
      | some c5 =>
        if c5 = 67 then
          let st := scan charSigned initState (s.drop 1)
          if st.inBounds then some (finish st) else none
        else some 0
    else some 0

/-- The locals of `UnixTimeFromRMCString` that only the time and date fields
write, with the bounds flag. -/
def RMCState.clock (st : RMCState) : Nat × Nat × Nat × Nat × Nat × Bool :=
  (st.unixTime, st.timeValue, st.timeSubfieldIndex, st.month, st.dateSubfieldIndex, st.inBounds)

/-- The two ASCII decimal digits of `n` (48 is the character 0). -/
def twoDigits (n : Nat) : List Nat := [48 + n / 10, 48 + n % 10]

/-- A six-digit field `aabbcc`, as in `hhmmss` and `ddmmyy`. -/
def sixDigits (a b c : Nat) : List Nat := twoDigits a ++ (twoDigits b ++ twoDigits c)

/-- The characters of a sentence after its first one: an address `pre`, the
time field `hhmmss` followed by `frac`, the fields 2 to 8 `mid`, the date field
`ddmmyy`, and whatever follows it (44 is a comma). -/
def rmcBody (pre frac mid tail : List Nat) (hh mm ss dd mo yy : Nat) : List Nat :=
  pre ++ (44 :: (sixDigits hh mm ss ++ (frac ++ (44 :: (mid ++ (44 :: (sixDigits dd mo yy ++ tail)))))))

/-- The value `UnixTimeFromRMCString` holds in `unixTime` when the loop ends,
for a time field `hhmmss` and a date field `ddmmyy` (lines 224-230 and
255-274, each sum reduced modulo `2^32`). -/
def codeSeconds (hh mm ss dd mo yy : Nat) : Nat :=
  let u1 := (((0 + hh * 3600) % 4294967296 + mm * 60) % 4294967296 + ss * 1) % 4294967296
  let u2 := (u1 + dd * 86400) % 4294967296
  let u3 := (u2 + kDaysTo.getD (mo - 1) 0 * 86400) % 4294967296
  ((if decide (mo > 2) && decide (yy % 4 = 0)
      then ((u3 + yy * 31536000) % 4294967296 + 86400) % 4294967296
      else (u3 + yy * 31536000) % 4294967296)
    + ((yy + 3) / 4 + 4294967296 - 1) % 4294967296 * 86400) % 4294967296

/-- A state between two fields: field index, no asterisk yet, clock locals. -/
def Ready (st : RMCState) (f : Nat) (clk : Nat × Nat × Nat × Nat × Nat × Bool) : Prop :=
  st.nmeaFieldIndex = f ∧ st.crcAsteriskHit = false ∧ st.clock = clk

/-- Gregorian leap years. -/
def isLeapYear (year : Nat) : Bool :=
  decide (year % 4 = 0) && (decide (year % 100 ≠ 0) || decide (year % 400 = 0))

/-- Days of month `month` (1 to 12) of `year` in the Gregorian calendar. -/
def daysInMonth (year month : Nat) : Nat :=
  if month = 2 then (if isLeapYear year then 29 else 28)
  else if month = 4 ∨ month = 6 ∨ month = 9 ∨ month = 11 then 30
  else 31

/-- Days from 1970-01-01 to the first day of `year`. -/
def daysBeforeYear (year : Nat) : Nat :=
  ((List.range (year - 1970)).map (fun i => if isLeapYear (1970 + i) then 366 else 365)).sum

/-- Days from the first day of `year` to the first day of its month `month`. -/
def daysBeforeMonth (year month : Nat) : Nat :=
  ((List.range (month - 1)).map (fun i => daysInMonth year (i + 1))).sum

/-- Unix time of a calendar instant: the seconds from 1970-01-01 00:00:00 to
`year-month-day hh:mm:ss` in the Gregorian calendar. -/
def unixTimeOf (year month day hh mm ss : Nat) : Nat :=
  (daysBeforeYear year + daysBeforeMonth year month + (day - 1)) * 86400
    + hh * 3600 + mm * 60 + ss

/-- The exclusive-or of a list of bytes. -/
def xorAll (l : List Nat) : Nat := l.foldl (fun acc c => acc ^^^ c) 0

/-- The uppercase hexadecimal digit of `d < 16` as an ASCII character. -/
def hexChar (d : Nat) : Nat := if d < 10 then 48 + d else 55 + d

/-- A character allowed inside a field: a byte other than NUL, the comma and the
asterisk. -/
def fieldChar (c : Nat) : Prop := c ≠ 0 ∧ c ≠ 44 ∧ c ≠ 42 ∧ c < 256

instance fieldChar_decidable (c : Nat) : Decidable (fieldChar c) := by
  unfold fieldChar
  exact inferInstance

/-- A complete sentence: the dollar sign, the characters `rmcBody`, the
asterisk and the two uppercase hexadecimal digits of the exclusive-or of the
characters between the dollar sign and the asterisk. -/
def rmcSentence (pre frac mid tail : List Nat) (hh mm ss dd mo yy : Nat) : List Nat :=
  36 :: (rmcBody pre frac mid tail hh mm ss dd mo yy ++
    [42, hexChar (xorAll (rmcBody pre frac mid tail hh mm ss dd mo yy) / 16),
         hexChar (xorAll (rmcBody pre frac mid tail hh mm ss dd mo yy) % 16)])

/-- Day `s` of a month is a Sunday, when day `d` of that month falls on the
weekday `w` (0 is Sunday, 6 is Saturday). -/
def isSunday (d w s : Nat) : Bool := (s + w) % 7 == d % 7

/-- The number of Sundays among the days `1 .. d` of a month whose day `d`
falls on the weekday `w`. -/
def sundaysUpTo (d w : Nat) : Nat :=
  ((List.range d).filter (fun i => isSunday d w (i + 1))).length

/-- The day of the month of the first Sunday of a month whose day `d` falls on
the weekday `w`. -/
def firstSunday (d w : Nat) : Nat :=
  (((List.range 7).map (fun i => i + 1)).find? (fun s => isSunday d w s)).getD 0

/-- A `uint8_t[4]` member of `SWWVBTimeCode`. -/
structure Arr4 where
  e0 : Nat
  e1 : Nat
  e2 : Nat
  e3 : Nat
deriving DecidableEq, Repr

/-- A `uint8_t[2]` member of `SWWVBTimeCode`. -/
structure Arr2 where
  e0 : Nat
  e1 : Nat
deriving DecidableEq, Repr

/-- `struct SWWVBTimeCode` (UnixTimeWWVB.h:35-63), members in declaration
order. -/
structure SWWVBTimeCode where
  minutes10 : Arr4
  z0 : Nat
  minutes1 : Arr4
  p1 : Nat
  hours10 : Arr4
  z1 : Nat
  hours1 : Arr4
  p2 : Nat
  dayOfYear100 : Arr4
  z2 : Nat
  dayOfYear10 : Arr4
  p3 : Nat
  dayOfYear1 : Arr4
  z3 : Nat
  dutSign : Arr4
  p4 : Nat
  dutValue : Arr4
  z4 : Nat
  year10 : Arr4
  p5 : Nat
  year1 : Arr4
  z5 : Nat
  leapYearIndicator : Nat
  leapSecondAtEOM : Nat
  dstStatus : Arr2
  p0 : Nat
deriving DecidableEq, Repr

/-- The 60 bytes of a `SWWVBTimeCode` in memory order: entry `i` is the byte the
tick handler reads as `sWWVBTimeCode.minutes10[i]`. -/
def SWWVBTimeCode.slots (tc : SWWVBTimeCode) : List Nat :=
  [tc.minutes10.e0, tc.minutes10.e1, tc.minutes10.e2, tc.minutes10.e3, tc.z0,
   tc.minutes1.e0, tc.minutes1.e1, tc.minutes1.e2, tc.minutes1.e3, tc.p1,
   tc.hours10.e0, tc.hours10.e1, tc.hours10.e2, tc.hours10.e3, tc.z1,
   tc.hours1.e0, tc.hours1.e1, tc.hours1.e2, tc.hours1.e3, tc.p2,
   tc.dayOfYear100.e0, tc.dayOfYear100.e1, tc.dayOfYear100.e2, tc.dayOfYear100.e3, tc.z2,
   tc.dayOfYear10.e0, tc.dayOfYear10.e1, tc.dayOfYear10.e2, tc.dayOfYear10.e3, tc.p3,
   tc.dayOfYear1.e0, tc.dayOfYear1.e1, tc.dayOfYear1.e2, tc.dayOfYear1.e3, tc.z3,
   tc.dutSign.e0, tc.dutSign.e1, tc.dutSign.e2, tc.dutSign.e3, tc.p4,
   tc.dutValue.e0, tc.dutValue.e1, tc.dutValue.e2, tc.dutValue.e3, tc.z4,
   tc.year10.e0, tc.year10.e1, tc.year10.e2, tc.year10.e3, tc.p5,
   tc.year1.e0, tc.year1.e1, tc.year1.e2, tc.year1.e3, tc.z5,
   tc.leapYearIndicator, tc.leapSecondAtEOM, tc.dstStatus.e0, tc.dstStatus.e1, tc.p0]

/-- Slot `i` of a frame (0 outside the 60 slots). -/
def SWWVBTimeCode.slot (tc : SWWVBTimeCode) (i : Nat) : Nat := tc.slots.getD i 0

/-- `enum eDST` (UnixTimeWWVB.h:94-100). -/
def eDST_NotInEffect : Nat := 0

/-- `enum eDST`: bit 58 only. -/
def eDST_EndsToday : Nat := 1

/-- `enum eDST`: bit 57 only. -/
def eDST_BeginsToday : Nat := 2

/-- `enum eDST`: bits 57 and 58. -/
def eDST_InEffect : Nat := 3

/-- `enum eDUT` (UnixTimeWWVB.h:101-105). -/
def eDUT_Negative : Nat := 2

/-- `UnixTimeWWVB::To8421` (UnixTimeWWVB.cpp:465-473); `inValue` is a
`uint8_t`. -/
def To8421 (inValue : Nat) : Arr4 :=
  { e0 := (inValue &&& 8) >>> 3, e1 := (inValue &&& 4) >>> 2,
    e2 := (inValue &&& 2) >>> 1, e3 := inValue &&& 1 }

/-- `UnixTimeWWVB::ToTimeCode8421` (UnixTimeWWVB.cpp:476-489).  `inValue` is a
`uint16_t`; `out8421_100` is `none` for a null pointer.  The result holds the
new contents of the three output arrays.  Each argument of `To8421` is
converted to `uint8_t`. -/
def ToTimeCode8421 (inValue : Nat) (out8421_100 : Option Arr4) : Option Arr4 × Arr4 × Arr4 :=
  match out8421_100 with
  | some _ =>
    (some (To8421 ((inValue / 100) % 256)),
     To8421 (((inValue % 100) / 10) % 256),
     To8421 (((inValue % 100) % 10) % 256))
  | none =>
    (none, To8421 ((inValue / 10) % 256), To8421 ((inValue % 10) % 256))

/-- Lines 374-449 of `LoadTimeCodeStruct`: the value of `dstStatus` after the
`switch (month)`.  `DayOfWeek` is at most 6, so `day + 6 - dow` is not
negative. -/
def dstStatusFor (inTime month day : Nat) : Nat :=
  if month = 3 then
    let dow := DayOfWeek inTime
    let elaspsedSundays := ((day + 6 - dow) / 7) % 256
    if dow = 0 ∧ elaspsedSundays = 2 then eDST_BeginsToday
    else if elaspsedSundays ≥ 2 then eDST_InEffect
    else eDST_NotInEffect
  else if 4 ≤ month ∧ month ≤ 10 then eDST_InEffect
  else if month = 11 then
    let dow := DayOfWeek inTime
    let elaspsedSundays := ((day + 6 - dow) / 7) % 256
    if dow = 0 ∧ elaspsedSundays = 1 then eDST_EndsToday
    else if elaspsedSundays < 1 then eDST_InEffect
    else eDST_NotInEffect
  else eDST_NotInEffect

/-- The table element `table[i]` for an `int` index: undefined (`none`) when
the index is negative or not below the table length. -/
def tableAt (table : List Nat) (i : Int) : Option Nat :=
  if 0 ≤ i then table[i.toNat]? else none

/-- `UnixTimeWWVB::LoadTimeCodeStruct` (UnixTimeWWVB.cpp:351-462).  `outTCS` is
the content of the output structure on entry; the result is its content on
return, or `none` when the cumulative-days table is indexed outside its
entries. -/
def LoadTimeCodeStruct (inTime : Nat) (outTCS : SWWVBTimeCode) : Option SWWVBTimeCode :=
  let dc := DateComponents inTime
  let year := dc.2.1
  let month := dc.2.2.1
  let day := dc.2.2.2
  let tc := TimeComponents dc.1
  let hour := tc.1
  let minute := tc.2.1
  let isLY := decide (year % 4 = 0)
  match tableAt (if isLY then kDaysToLY else kDaysTo) ((month : Int) - 1) with
  | none => none
  | some daysTo =>
    let dayOfYear := (daysTo + day) % 65536
    let m := ToTimeCode8421 minute none
    let h := ToTimeCode8421 hour none
    let d := ToTimeCode8421 dayOfYear (some outTCS.dayOfYear100)
    let y := ToTimeCode8421 (year % 100) none
    let dstStatus := dstStatusFor inTime month day
    let t1 : SWWVBTimeCode :=
      { outTCS with
        minutes10 := m.2.1, minutes1 := m.2.2,
        hours10 := h.2.1, hours1 := h.2.2,
        dayOfYear100 := d.1.getD outTCS.dayOfYear100,
        dayOfYear10 := d.2.1, dayOfYear1 := d.2.2,
        year10 := y.2.1, year1 := y.2.2,
        dutSign := To8421 eDUT_Negative, dutValue := To8421 3,
        dstStatus := { e0 := dstStatus >>> 1, e1 := dstStatus &&& 1 },
        leapYearIndicator := if isLY then 1 else 0,
        leapSecondAtEOM := 0 }
    let t2 : SWWVBTimeCode :=
      { t1 with
        minutes10 := { t1.minutes10 with e0 := 2 },
        p1 := 2, p2 := 2, p3 := 2, p4 := 2, p5 := 2, p0 := 2 }
    some { t2 with z0 := 0, z1 := 0, z2 := 0, z3 := 0, z4 := 0, z5 := 0 }

/-- Four zero bytes. -/
def zeroArr4 : Arr4 := { e0 := 0, e1 := 0, e2 := 0, e3 := 0 }

/-- The frame `sWWVBTimeCode` as zero-initialised static storage. -/
def zeroTimeCode : SWWVBTimeCode :=
  { minutes10 := zeroArr4, z0 := 0, minutes1 := zeroArr4, p1 := 0, hours10 := zeroArr4,
    z1 := 0, hours1 := zeroArr4, p2 := 0, dayOfYear100 := zeroArr4, z2 := 0,
    dayOfYear10 := zeroArr4, p3 := 0, dayOfYear1 := zeroArr4, z3 := 0,
    dutSign := zeroArr4, p4 := 0, dutValue := zeroArr4, z4 := 0, year10 := zeroArr4,
    p5 := 0, year1 := zeroArr4, z5 := 0, leapYearIndicator := 0, leapSecondAtEOM := 0,
    dstStatus := { e0 := 0, e1 := 0 }, p0 := 0 }


/-- `#define HIGH_OUTPUT 66` (UnixTimeWWVB.cpp:40). -/
def HIGH_OUTPUT : Nat := 66

/-- `#define LOW_OUTPUT 0` (UnixTimeWWVB.cpp:41). -/
def LOW_OUTPUT : Nat := 0

/-- The static storage of `UnixTimeWWVB.cpp` and of the class `UnixTime`, with
the registers and pins the callbacks drive.  Not part of the state: the debug
pins PB0 and PB1, the timer count of TIM2, and `sByteReceived`, which the byte
event carries as its argument. -/
structure WWVBState where
  /-- `UnixTime::sTime`. -/
  sTime : Nat
  /-- `UnixTime::sTimeChanged`. -/
  sTimeChanged : Bool
  sDuration : Nat
  sTenthsCount : Nat
  sTimeCodeBitCount : Nat
  sTimeToNextGPSUpdate : Nat
  sWWVBTimeCode : SWWVBTimeCode
  /-- `sNMEAStrBuf[128]`. -/
  sNMEAStrBuf : List Nat
  sNMEAStrIdx : Nat
  /-- `TIM3->CCR1`, the output level. -/
  ccr1 : Nat
  /-- Pin PB10, the power of the GPS module. -/
  gpsPower : Bool
  /-- Pin PB2, the status LED. -/
  statusLED : Bool
  /-- A byte reception is pending on the UART (`HAL_UART_Receive_IT`). -/
  uartReceiving : Bool
deriving DecidableEq, Repr

/-- The reads and writes of the callbacks that can leave their object. -/
inductive Fault where
  /-- A store outside `sNMEAStrBuf`. -/
  | bufferIndex
  /-- A read `sWWVBTimeCode.minutes10[sTimeCodeBitCount]` outside the 60 bytes
  of the frame. -/
  | frameIndex
  /-- A read outside `kBitDurations`. -/
  | durationIndex
  /-- An undefined read inside `UnixTimeFromRMCString`. -/
  | parserRead
  /-- A read outside the cumulative-days table inside `LoadTimeCodeStruct`. -/
  | daysTableIndex
deriving DecidableEq, Repr

/-- `UnixTime::Tick` (UnixTime.h:122-126). -/
def Tick (s : WWVBState) : WWVBState :=
  { s with sTime := (s.sTime + 1) % 4294967296, sTimeChanged := true }

/-- `UnixTime::Time` (UnixTime.h:127). -/
def Time (s : WWVBState) : Nat := s.sTime

/-- Modelled from the spec: `UnixTime::SetTime(time32_t)`, declared at
UnixTime.h:114 and defined in the absent `UnixTime.cpp`.  The spec: "overwrite
ClockState's counter with the parsed timestamp". -/
def SetTime (inTime : Nat) (s : WWVBState) : WWVBState :=
  { s with sTime := inTime }

/-- `UnixTimeWWVB::WakeUpGPSModule` (UnixTimeWWVB.cpp:118-135). -/
def WakeUpGPSModule (s : WWVBState) : WWVBState :=
  { s with gpsPower := true, statusLED := false, sTimeToNextGPSUpdate := 0,
           uartReceiving := true }

/-- `UnixTimeWWVB::PutGPSModuleToSleep` (UnixTimeWWVB.cpp:143-163).  The local
`time` is a `time32_t`; `(minute * 60) + second` is an `int`. -/
def PutGPSModuleToSleep (s : WWVBState) : WWVBState :=
  let time := Time s
  let tc := TimeComponents time
  let minute := tc.2.1
  let second := tc.2.2
  let time1 := (time + 4294967296 - ((minute * 60) + second) % 4294967296) % 4294967296
  let time2 := (time1 + (if minute ≥ 30 then 90 * 60 else 30 * 60)) % 4294967296
  { s with gpsPower := false, sTimeToNextGPSUpdate := time2, uartReceiving := false }

/-- `kBitDurations` (UnixTimeWWVB.cpp:565): 0.2s, 0.5s, 0.8s for 0, 1, marker. -/
def kBitDurations : List Nat := [2, 5, 8]

/-- `HAL_TIM_PeriodElapsedCallback` (UnixTimeWWVB.cpp:498-514), the sub-tick
event. -/
def HAL_TIM_PeriodElapsedCallback (s : WWVBState) : WWVBState :=
  let s1 := if s.sDuration = s.sTenthsCount then { s with ccr1 := HIGH_OUTPUT } else s
  { s1 with sTenthsCount := (s1.sTenthsCount + 1) % 4294967296 }

/-- Lines 530-564 of `HAL_RTCEx_RTCEventCallback`: the bit cursor, the new
frame and the wake-up of the GPS module, after `Tick`. -/
def advanceFrame (s : WWVBState) : Except Fault WWVBState :=
  if s.sTimeCodeBitCount < 59 then
    .ok { s with sTimeCodeBitCount := s.sTimeCodeBitCount + 1 }
  else
    let thisTime := Time s
    let built : Except Fault WWVBState :=
      if thisTime % 60 = 0 then
        match LoadTimeCodeStruct thisTime s.sWWVBTimeCode with
        | some tcs => .ok { s with sWWVBTimeCode := tcs, sTimeCodeBitCount := 0 }
        | none => .error Fault.daysTableIndex
      else .ok s
    match built with
    | .error e => .error e
    | .ok s2 =>
      if s2.sTimeToNextGPSUpdate ≠ 0 ∧ s2.sTimeToNextGPSUpdate ≤ thisTime then
        .ok (WakeUpGPSModule s2)
      else .ok s2

/-- Lines 565-578 of `HAL_RTCEx_RTCEventCallback`: the duration of the bit at
the cursor, the low output and the sub-tick count of the new second. -/
def startBit (s : WWVBState) : Except Fault WWVBState :=
  match s.sWWVBTimeCode.slots[s.sTimeCodeBitCount]? with
  | none => .error Fault.frameIndex
  | some bit =>
    match kBitDurations[bit]? with
    | none => .error Fault.durationIndex
    | some duration =>
      .ok { s with sDuration := duration, ccr1 := LOW_OUTPUT, sTenthsCount := 0 }

/-- `HAL_RTCEx_RTCEventCallback` (UnixTimeWWVB.cpp:523-582), the per-second
tick event. -/
def HAL_RTCEx_RTCEventCallback (s : WWVBState) : Except Fault WWVBState :=
  match advanceFrame (Tick s) with
  | .error e => .error e
  | .ok s1 => startBit s1

/-- `HAL_UART_RxCpltCallback` (UnixTimeWWVB.cpp:591-640), the byte event, for
the received byte `sByteReceived` (10 is the line feed, 13 the carriage
return).  The parser is given the whole buffer, which holds the terminator
just written. -/
def HAL_UART_RxCpltCallback (charSigned : Bool) (s : WWVBState) (sByteReceived : Nat) :
    Except Fault WWVBState :=
  if s.sTimeToNextGPSUpdate = 0 then
    if sByteReceived = 10 then
      .ok { s with uartReceiving := true }
    else if sByteReceived = 13 then
      if s.sNMEAStrIdx < s.sNMEAStrBuf.length then
        let s1 := { s with sNMEAStrBuf := s.sNMEAStrBuf.set s.sNMEAStrIdx 0, sNMEAStrIdx := 0 }
        match UnixTimeFromRMCString charSigned (some s1.sNMEAStrBuf) with
        | none => .error Fault.parserRead
        | some timeRxd =>
          if timeRxd ≠ 0 then
            .ok (PutGPSModuleToSleep { SetTime timeRxd s1 with statusLED := true })
          else .ok { s1 with uartReceiving := true }
      else .error Fault.bufferIndex
    else if s.sNMEAStrIdx < 128 - 2 then
      if s.sNMEAStrIdx < s.sNMEAStrBuf.length then
        .ok { s with sNMEAStrBuf := s.sNMEAStrBuf.set s.sNMEAStrIdx sByteReceived,
                     sNMEAStrIdx := s.sNMEAStrIdx + 1, uartReceiving := true }
      else .error Fault.bufferIndex
    else .ok { s with uartReceiving := true }
  else .ok s

/-- The three events of the sequencer. -/
inductive Event where
  | tick
  | subTick
  | byte (sByteReceived : Nat)
deriving DecidableEq, Repr

/-- One event handled by its callback. -/
def handle (charSigned : Bool) (s : WWVBState) : Event → Except Fault WWVBState
  | .tick => HAL_RTCEx_RTCEventCallback s
  | .subTick => .ok (HAL_TIM_PeriodElapsedCallback s)
  | .byte b => HAL_UART_RxCpltCallback charSigned s b

/-- A sequence of events handled in order; the run ends at the first fault. -/
def run (charSigned : Bool) : WWVBState → List Event → Except Fault WWVBState
  | s, [] => .ok s
  | s, e :: es =>
    match handle charSigned s e with
    | .error f => .error f
    | .ok s1 => run charSigned s1 es

/-- The state after `n` sub-tick events. -/
def subTicks : Nat → WWVBState → WWVBState
  | 0, s => s
  | n + 1, s => subTicks n (HAL_TIM_PeriodElapsedCallback s)


/-- The static storage before `InitWWVB`: zero-initialised. -/
def zeroState : WWVBState :=
  { sTime := 0, sTimeChanged := false, sDuration := 0, sTenthsCount := 0,
    sTimeCodeBitCount := 0, sTimeToNextGPSUpdate := 0, sWWVBTimeCode := zeroTimeCode,
    sNMEAStrBuf := List.replicate 128 0, sNMEAStrIdx := 0, ccr1 := 0,
    gpsPower := false, statusLED := false, uartReceiving := false }

/-- The number a four-slot group spells, read most-significant-first with the
weights 8, 4, 2, 1. -/
def dec8421 (group : Arr4) : Nat :=
  8 * group.e0 + 4 * group.e1 + 2 * group.e2 + group.e3

/-- `UnixTimeWWVB::InitWWVB` (UnixTimeWWVB.cpp:57-96), on the state of the
static storage at entry: output low, `sDuration = 2`, both counters 0, the
clock and the frame set for 0x6423FFF0, the bit cursor at
`sizeof(SWWVBTimeCode)-1 = 59`, then `WakeUpGPSModule`. -/
def InitWWVB (s : WWVBState) : Except Fault WWVBState :=
  let s1 := { s with ccr1 := LOW_OUTPUT, sDuration := 2, sTenthsCount := 0, sNMEAStrIdx := 0 }
  let s2 := SetTime 1680080880 s1
  match LoadTimeCodeStruct 1680080880 s2.sWWVBTimeCode with
  | none => .error Fault.daysTableIndex
  | some tcs => .ok (WakeUpGPSModule { s2 with sWWVBTimeCode := tcs, sTimeCodeBitCount := 59 })

/-- The invariant of the reachable states of the sequencer: the bit cursor is
inside the frame, every slot of the frame holds a symbol 0, 1 or 2, the line
buffer has its 128 bytes, the byte index is at most 126, and the byte index is
0 whenever the wake deadline is non-zero. -/
def SequencerInv (s : WWVBState) : Prop :=
  s.sTimeCodeBitCount ≤ 59 ∧ (∀ i, i < 60 → s.sWWVBTimeCode.slot i ≤ 2) ∧
  s.sNMEAStrBuf.length = 128 ∧ s.sNMEAStrIdx ≤ 126 ∧
  (s.sTimeToNextGPSUpdate ≠ 0 → s.sNMEAStrIdx = 0)

end UnixTimeWWVB


namespace UnixTimeWWVB

open UnixTime

/-! ## The scanning loop: components that a character cannot change -/

theorem timeField_crc (sc : Bool) (st : RMCState) (c : Nat) :
    (timeField sc st c).crc = st.crc ∧ (timeField sc st c).expectedCRC = st.expectedCRC ∧
    (timeField sc st c).crcAsteriskHit = st.crcAsteriskHit ∧
    (timeField sc st c).nmeaFieldIndex = st.nmeaFieldIndex ∧
    (timeField sc st c).dateSubfieldIndex = st.dateSubfieldIndex ∧
    (timeField sc st c).month = st.month ∧
    (timeField sc st c).inBounds = st.inBounds := by
  unfold timeField
  split_ifs <;> simp

theorem dateSubfield_frame (st : RMCState) (v : Nat) :
    (dateSubfield st v).crc = st.crc ∧ (dateSubfield st v).expectedCRC = st.expectedCRC ∧
    (dateSubfield st v).crcAsteriskHit = st.crcAsteriskHit ∧
    (dateSubfield st v).nmeaFieldIndex = st.nmeaFieldIndex ∧
    (dateSubfield st v).timeSubfieldIndex = st.timeSubfieldIndex := by
  unfold dateSubfield
  split_ifs <;> first | (simp; done) | (split <;> simp)

theorem dateField_crc (sc : Bool) (st : RMCState) (c : Nat) :
    (dateField sc st c).crc = st.crc ∧ (dateField sc st c).expectedCRC = st.expectedCRC ∧
    (dateField sc st c).crcAsteriskHit = st.crcAsteriskHit ∧
    (dateField sc st c).nmeaFieldIndex = st.nmeaFieldIndex ∧
    (dateField sc st c).timeSubfieldIndex = st.timeSubfieldIndex := by
  unfold dateField
  have h := dateSubfield_frame st ((st.timeValue + charMinusZero sc c) % 4294967296)
  split_ifs <;> simp [h]

/-- The asterisk flag after one character. -/
theorem step_crcAsteriskHit (sc : Bool) (st : RMCState) (c : Nat) :
    (step sc st c).crcAsteriskHit = (st.crcAsteriskHit || decide (c = 42)) := by
  unfold step
  have ht := timeField_crc sc { st with crc := st.crc ^^^ (c % 256) } c
  have hd := dateField_crc sc { st with crc := st.crc ^^^ (c % 256) } c
  by_cases h44 : c = 44
  · simp [h44]
  · by_cases h42 : c = 42
    · simp [h42]
    · cases hast : st.crcAsteriskHit
      · simp only [h44, h42, hast, if_false, if_true]
        split_ifs <;> simp_all
      · simp [h44, h42, hast]

theorem step_crc (sc : Bool) (st : RMCState) (c : Nat) :
    (step sc st c).crc =
      if c = 42 then st.crc
      else if c = 44 ∨ st.crcAsteriskHit = false then st.crc ^^^ (c % 256) else st.crc := by
  unfold step
  have ht := timeField_crc sc { st with crc := st.crc ^^^ (c % 256) } c
  have hd := dateField_crc sc { st with crc := st.crc ^^^ (c % 256) } c
  by_cases h44 : c = 44
  · simp [h44]
  · by_cases h42 : c = 42
    · simp [h42]
    · cases hast : st.crcAsteriskHit
      · simp only [h44, h42, hast, if_false, if_true]
        split_ifs <;> simp_all
      · simp [h44, h42, hast]

theorem step_expectedCRC (sc : Bool) (st : RMCState) (c : Nat) :
    (step sc st c).expectedCRC =
      if c ≠ 44 ∧ c ≠ 42 ∧ st.crcAsteriskHit = true
      then (st.expectedCRC * 16 + hexDigitOf sc c) % 256 else st.expectedCRC := by
  unfold step
  have ht := timeField_crc sc { st with crc := st.crc ^^^ (c % 256) } c
  have hd := dateField_crc sc { st with crc := st.crc ^^^ (c % 256) } c
  by_cases h44 : c = 44
  · simp [h44]
  · by_cases h42 : c = 42
    · simp [h42]
    · cases hast : st.crcAsteriskHit
      · simp only [h44, h42, hast, if_false, if_true]
        split_ifs <;> simp_all
      · simp [h44, h42, hast]

theorem step_nmeaFieldIndex (sc : Bool) (st : RMCState) (c : Nat) :
    (step sc st c).nmeaFieldIndex =
      if c = 44 then (st.nmeaFieldIndex + 1) % 4294967296 else st.nmeaFieldIndex := by
  unfold step
  have ht := timeField_crc sc { st with crc := st.crc ^^^ (c % 256) } c
  have hd := dateField_crc sc { st with crc := st.crc ^^^ (c % 256) } c
  by_cases h44 : c = 44
  · simp [h44]
  · by_cases h42 : c = 42
    · simp [h42]
    · cases hast : st.crcAsteriskHit
      · simp only [h44, h42, hast, if_false, if_true]
        split_ifs <;> simp_all
      · simp [h44, h42, hast]

/-- A character leaves the clock locals alone unless it is a character of a
live time or date field read before the asterisk. -/
theorem step_clock (sc : Bool) (st : RMCState) (c : Nat)
    (h : st.crcAsteriskHit = true ∨ c = 44 ∨ c = 42 ∨
      ((st.nmeaFieldIndex ≠ 1 ∨ 6 ≤ st.timeSubfieldIndex) ∧
       (st.nmeaFieldIndex ≠ 9 ∨ 6 ≤ st.dateSubfieldIndex))) :
    (step sc st c).clock = st.clock := by
  unfold step
  by_cases h44 : c = 44
  · simp [h44, RMCState.clock]
  · by_cases h42 : c = 42
    · simp [h42, RMCState.clock]
    · cases hast : st.crcAsteriskHit
      · simp only [h44, h42, hast, if_false, if_true]
        rcases h with h | h | h | ⟨h1, h9⟩
        · simp [hast] at h
        · exact absurd h h44
        · exact absurd h h42
        · by_cases hf1 : st.nmeaFieldIndex = 1
          · have h6 : ¬ st.timeSubfieldIndex < 6 := by
              rcases h1 with h1 | h1
              · exact absurd hf1 h1
              · omega
            simp [hf1, timeField, h6, RMCState.clock]
          · by_cases hf9 : st.nmeaFieldIndex = 9
            · have h6 : ¬ st.dateSubfieldIndex < 6 := by
                rcases h9 with h9 | h9
                · exact absurd hf9 h9
                · omega
              simp [hf9, dateField, h6, RMCState.clock]
            · simp [hf1, hf9, RMCState.clock]
      · simp [h44, h42, hast, RMCState.clock]


/-! ## The scanning loop over a whole list -/

theorem scan_cons (sc : Bool) (st : RMCState) (c : Nat) (l : List Nat) (h : c ≠ 0) :
    scan sc st (c :: l) = scan sc (step sc st c) l := by
  simp [scan, h]

theorem scan_append (sc : Bool) (a b : List Nat) (h : ∀ c ∈ a, c ≠ 0) (st : RMCState) :
    scan sc st (a ++ b) = scan sc (scan sc st a) b := by
  induction a generalizing st with
  | nil => simp [scan]
  | cons c a ih =>
    have hc : c ≠ 0 := h c (by simp)
    have ha : ∀ x ∈ a, x ≠ 0 := fun x hx => h x (by simp [hx])
    simp [scan, hc, ih ha]

theorem scan_append_stop (sc : Bool) (a b : List Nat) (h : 0 ∈ a) (st : RMCState) :
    scan sc st (a ++ b) = scan sc st a := by
  induction a generalizing st with
  | nil => simp at h
  | cons c a ih =>
    by_cases hc : c = 0
    · simp [scan, hc]
    · have ha : 0 ∈ a := by
        rcases List.mem_cons.mp h with h | h
        · exact absurd h.symm hc
        · exact h
      simp [scan, hc, ih ha]

/-- Once the asterisk has been seen, or once both fields are complete, the
clock locals never change again. -/
theorem scan_clock_frozen (sc : Bool) (l : List Nat) (st : RMCState)
    (h : st.crcAsteriskHit = true ∨ (6 ≤ st.timeSubfieldIndex ∧ 6 ≤ st.dateSubfieldIndex)) :
    (scan sc st l).clock = st.clock := by
  induction l generalizing st with
  | nil => rfl
  | cons c l ih =>
    by_cases hc : c = 0
    · simp [scan, hc]
    · have hs : (step sc st c).clock = st.clock := by
        apply step_clock
        rcases h with h | ⟨h1, h2⟩
        · exact Or.inl h
        · exact Or.inr (Or.inr (Or.inr ⟨Or.inr h1, Or.inr h2⟩))
      rw [scan_cons sc st c l hc, ih, hs]
      rcases h with h | ⟨h1, h2⟩
      · left
        rw [step_crcAsteriskHit, h]
        rfl
      · right
        simp only [RMCState.clock, Prod.mk.injEq] at hs
        omega

theorem scan_crcAsteriskHit_of_true (sc : Bool) (l : List Nat) (st : RMCState)
    (h : st.crcAsteriskHit = true) : (scan sc st l).crcAsteriskHit = true := by
  induction l generalizing st with
  | nil => exact h
  | cons c l ih =>
    by_cases hc : c = 0
    · simp [scan, hc, h]
    · rw [scan_cons sc st c l hc]
      apply ih
      rw [step_crcAsteriskHit, h]
      rfl

theorem scan_crcAsteriskHit_mem (sc : Bool) (l : List Nat) (st : RMCState)
    (h : (scan sc st l).crcAsteriskHit = true) : st.crcAsteriskHit = true ∨ 42 ∈ l := by
  induction l generalizing st with
  | nil => exact Or.inl h
  | cons c l ih =>
    by_cases hc : c = 0
    · simp [scan, hc] at h
      exact Or.inl h
    · rw [scan_cons sc st c l hc] at h
      rcases ih _ h with h1 | h1
      · rw [step_crcAsteriskHit] at h1
        by_cases h42 : c = 42
        · right; simp [h42]
        · left; simpa [h42] using h1
      · right; simp [h1]

theorem scan_crcAsteriskHit_of_mem (sc : Bool) (l : List Nat) (st : RMCState)
    (h0 : ∀ c ∈ l, c ≠ 0) (h : 42 ∈ l) : (scan sc st l).crcAsteriskHit = true := by
  induction l generalizing st with
  | nil => simp at h
  | cons c l ih =>
    have hc : c ≠ 0 := h0 c (by simp)
    have hl : ∀ x ∈ l, x ≠ 0 := fun x hx => h0 x (by simp [hx])
    rw [scan_cons sc st c l hc]
    by_cases h42 : c = 42
    · apply scan_crcAsteriskHit_of_true
      rw [step_crcAsteriskHit]
      simp [h42]
    · apply ih _ hl
      rcases List.mem_cons.mp h with h | h
      · exact absurd h.symm h42
      · exact h


theorem step_dateSubfieldIndex (sc : Bool) (st : RMCState) (c : Nat)
    (h : st.nmeaFieldIndex ≠ 9) :
    (step sc st c).dateSubfieldIndex = st.dateSubfieldIndex := by
  unfold step
  have ht := timeField_crc sc { st with crc := st.crc ^^^ (c % 256) } c
  by_cases h44 : c = 44
  · simp [h44]
  · by_cases h42 : c = 42
    · simp [h42]
    · rw [if_neg h44, if_neg h42]
      by_cases hast : st.crcAsteriskHit = false
      · rw [if_pos hast]
        simp only []
        by_cases hf1 : st.nmeaFieldIndex = 1
        · rw [if_pos hf1]
          exact ht.2.2.2.2.1
        · rw [if_neg hf1, if_neg h]
      · rw [if_neg hast]

theorem charMinusZero_digit (sc : Bool) (d : Nat) (h : d ≤ 9) : charMinusZero sc (48 + d) = d := by
  unfold charMinusZero
  have h1 : ¬ (128 ≤ 48 + d) := by omega
  simp only [h1, decide_False, Bool.and_false]
  simp only [Bool.false_eq_true, if_false]
  omega

/-- One character of the time field, read before the asterisk. -/
theorem step_timeField (sc : Bool) (st : RMCState) (c : Nat) (h44 : c ≠ 44) (h42 : c ≠ 42)
    (hast : st.crcAsteriskHit = false) (hf : st.nmeaFieldIndex = 1) :
    step sc st c = timeField sc { st with crc := st.crc ^^^ (c % 256) } c := by
  simp [step, h44, h42, hast, hf]

theorem step_dateField (sc : Bool) (st : RMCState) (c : Nat) (h44 : c ≠ 44) (h42 : c ≠ 42)
    (hast : st.crcAsteriskHit = false) (hf : st.nmeaFieldIndex = 9) :
    step sc st c = dateField sc { st with crc := st.crc ^^^ (c % 256) } c := by
  simp [step, h44, h42, hast, hf]

/-- Two digits of the time field: the value `n` is added with the weight of the
subfield. -/
theorem scan_time_pair (sc : Bool) (st : RMCState) (n k : Nat) (hn : n < 100)
    (hk : k = 0 ∨ k = 2 ∨ k = 4)
    (hast : st.crcAsteriskHit = false) (hf : st.nmeaFieldIndex = 1)
    (hi : st.timeSubfieldIndex = k) :
    (scan sc st (twoDigits n)).clock =
      ((st.unixTime + n * (if k = 0 then 3600 else if k = 2 then 60 else 1)) % 4294967296,
       0, k + 2, st.month, st.dateSubfieldIndex, st.inBounds) := by
  have h1 : 48 + n / 10 ≠ 0 := by omega
  have h2 : 48 + n % 10 ≠ 0 := by omega
  have h3 : 48 + n / 10 ≠ 44 := by omega
  have h4 : 48 + n % 10 ≠ 44 := by omega
  have h5 : 48 + n / 10 ≠ 42 := by omega
  have h6 : 48 + n % 10 ≠ 42 := by omega
  have d1 := charMinusZero_digit sc (n / 10) (by omega)
  have d2 := charMinusZero_digit sc (n % 10) (by omega)
  unfold twoDigits
  rw [scan_cons _ _ _ _ h1, scan_cons _ _ _ _ h2, step_timeField sc st _ h3 h5 hast hf]
  rcases hk with hk | hk | hk <;> subst hk
  · rw [step_timeField _ _ _ h4 h6 (by simp [timeField, hi, hast]) (by simp [timeField, hi, hf])]
    simp [scan, timeField, hi, d1, d2, RMCState.clock, kOneHour]
    omega
  · rw [step_timeField _ _ _ h4 h6 (by simp [timeField, hi, hast]) (by simp [timeField, hi, hf])]
    simp [scan, timeField, hi, d1, d2, RMCState.clock, kOneMinute]
    omega
  · rw [step_timeField _ _ _ h4 h6 (by simp [timeField, hi, hast]) (by simp [timeField, hi, hf])]
    simp [scan, timeField, hi, d1, d2, RMCState.clock]
    omega


theorem scan_date_day (sc : Bool) (st : RMCState) (n : Nat) (hn : n < 100)
    (hast : st.crcAsteriskHit = false) (hf : st.nmeaFieldIndex = 9)
    (hi : st.dateSubfieldIndex = 0) :
    (scan sc st (twoDigits n)).clock =
      ((st.unixTime + n * 86400) % 4294967296, 0, st.timeSubfieldIndex, st.month, 2,
       st.inBounds) := by
  have h1 : 48 + n / 10 ≠ 0 := by omega
  have h2 : 48 + n % 10 ≠ 0 := by omega
  have h3 : 48 + n / 10 ≠ 44 := by omega
  have h4 : 48 + n % 10 ≠ 44 := by omega
  have h5 : 48 + n / 10 ≠ 42 := by omega
  have h6 : 48 + n % 10 ≠ 42 := by omega
  have d1 := charMinusZero_digit sc (n / 10) (by omega)
  have d2 := charMinusZero_digit sc (n % 10) (by omega)
  unfold twoDigits
  rw [scan_cons _ _ _ _ h1, scan_cons _ _ _ _ h2, step_dateField sc st _ h3 h5 hast hf]
  rw [step_dateField _ _ _ h4 h6 (by simp [dateField, hi, hast]) (by simp [dateField, hi, hf])]
  simp [scan, dateField, dateSubfield, hi, d1, d2, RMCState.clock, kOneDay]
  omega

theorem kDaysTo_month (n : Nat) (h1 : 1 ≤ n) (h12 : n ≤ 12) :
    kDaysTo[(n + 4294967296 - 1) % 4294967296]? = some (kDaysTo.getD (n - 1) 0) := by
  have : (n + 4294967296 - 1) % 4294967296 = n - 1 := by omega
  rw [this]
  interval_cases n <;> rfl

theorem dateSubfield_month (st : RMCState) (n : Nat) (hi : st.dateSubfieldIndex = 3)
    (h1 : 1 ≤ n) (h12 : n ≤ 12) :
    dateSubfield st n =
      { st with month := n,
                unixTime := (st.unixTime + kDaysTo.getD (n - 1) 0 * 86400) % 4294967296 } := by
  unfold dateSubfield
  rw [if_neg (by omega), if_pos hi, kDaysTo_month n h1 h12]
  rfl

theorem scan_date_month (sc : Bool) (st : RMCState) (n : Nat) (h1 : 1 ≤ n) (h12 : n ≤ 12)
    (hast : st.crcAsteriskHit = false) (hf : st.nmeaFieldIndex = 9)
    (hi : st.dateSubfieldIndex = 2) :
    (scan sc st (twoDigits n)).clock =
      ((st.unixTime + kDaysTo.getD (n - 1) 0 * 86400) % 4294967296, 0, st.timeSubfieldIndex,
       n, 4, st.inBounds) := by
  have g1 : 48 + n / 10 ≠ 0 := by omega
  have g2 : 48 + n % 10 ≠ 0 := by omega
  have g3 : 48 + n / 10 ≠ 44 := by omega
  have g4 : 48 + n % 10 ≠ 44 := by omega
  have g5 : 48 + n / 10 ≠ 42 := by omega
  have g6 : 48 + n % 10 ≠ 42 := by omega
  have d1 := charMinusZero_digit sc (n / 10) (by omega)
  have d2 := charMinusZero_digit sc (n % 10) (by omega)
  have hv : (n / 10 * 10 % 4294967296 + n % 10) % 4294967296 = n := by omega
  unfold twoDigits
  rw [scan_cons _ _ _ _ g1, scan_cons _ _ _ _ g2, step_dateField sc st _ g3 g5 hast hf]
  rw [step_dateField _ _ _ g4 g6 (by simp [dateField, hi, hast]) (by simp [dateField, hi, hf])]
  have e1 : dateField sc { st with crc := st.crc ^^^ ((48 + n / 10) % 256) } (48 + n / 10) =
      { st with crc := st.crc ^^^ ((48 + n / 10) % 256),
                timeValue := (n / 10 * 10) % 4294967296, dateSubfieldIndex := 3 } := by
    simp [dateField, hi, d1]
  rw [e1]
  simp only [scan, dateField]
  rw [if_pos (by simp), if_pos (by simp)]
  simp only [d2, hv]
  rw [dateSubfield_month _ n rfl h1 h12]
  simp [RMCState.clock]
theorem scan_date_year (sc : Bool) (st : RMCState) (n : Nat) (hn : n < 100)
    (hast : st.crcAsteriskHit = false) (hf : st.nmeaFieldIndex = 9)
    (hi : st.dateSubfieldIndex = 4) :
    (scan sc st (twoDigits n)).clock =
      (((if decide (st.month > 2) && decide (n % 4 = 0)
          then ((st.unixTime + n * 31536000) % 4294967296 + 86400) % 4294967296
          else (st.unixTime + n * 31536000) % 4294967296)
        + ((n + 3) / 4 + 4294967296 - 1) % 4294967296 * 86400) % 4294967296,
       0, st.timeSubfieldIndex, st.month, 6, st.inBounds) := by
  have h1 : 48 + n / 10 ≠ 0 := by omega
  have h2 : 48 + n % 10 ≠ 0 := by omega
  have h3 : 48 + n / 10 ≠ 44 := by omega
  have h4 : 48 + n % 10 ≠ 44 := by omega
  have h5 : 48 + n / 10 ≠ 42 := by omega
  have h6 : 48 + n % 10 ≠ 42 := by omega
  have d1 := charMinusZero_digit sc (n / 10) (by omega)
  have d2 := charMinusZero_digit sc (n % 10) (by omega)
  have hv : (n / 10 * 10 % 4294967296 + n % 10) % 4294967296 = n := by omega
  have hw : (n + 3) % 4294967296 = n + 3 := by omega
  unfold twoDigits
  rw [scan_cons _ _ _ _ h1, scan_cons _ _ _ _ h2, step_dateField sc st _ h3 h5 hast hf]
  rw [step_dateField _ _ _ h4 h6 (by simp [dateField, hi, hast]) (by simp [dateField, hi, hf])]
  simp [scan, dateField, dateSubfield, hi, d1, d2, RMCState.clock, kOneDay, hv, hw]

/-- Characters other than a comma and an asterisk change neither the field
index nor the asterisk flag. -/
theorem scan_plain (sc : Bool) (l : List Nat) (st : RMCState)
    (h : ∀ c ∈ l, c ≠ 44 ∧ c ≠ 42) :
    (scan sc st l).nmeaFieldIndex = st.nmeaFieldIndex ∧
    (scan sc st l).crcAsteriskHit = st.crcAsteriskHit := by
  induction l generalizing st with
  | nil => exact ⟨rfl, rfl⟩
  | cons c l ih =>
    by_cases hc : c = 0
    · simp [scan, hc]
    · have hcc := h c (by simp)
      have hl : ∀ x ∈ l, x ≠ 44 ∧ x ≠ 42 := fun x hx => h x (by simp [hx])
      rw [scan_cons sc st c l hc, (ih _ hl).1, (ih _ hl).2, step_nmeaFieldIndex,
        step_crcAsteriskHit]
      simp [hcc.1, hcc.2]

theorem twoDigits_plain (n : Nat) (hn : n < 100) :
    ∀ c ∈ twoDigits n, c ≠ 0 ∧ c ≠ 44 ∧ c ≠ 42 ∧ c < 256 := by
  intro c hc
  simp only [twoDigits, List.mem_cons, List.mem_singleton, List.not_mem_nil, or_false] at hc
  rcases hc with hc | hc <;> subst hc <;> omega

/-- Outside a live time or date field, characters other than a comma leave the
clock locals alone. -/
theorem scan_clock_quiet (sc : Bool) (l : List Nat) (st : RMCState) (h44 : 44 ∉ l)
    (h1 : st.nmeaFieldIndex ≠ 1 ∨ 6 ≤ st.timeSubfieldIndex)
    (h9 : st.nmeaFieldIndex ≠ 9 ∨ 6 ≤ st.dateSubfieldIndex) :
    (scan sc st l).clock = st.clock := by
  induction l generalizing st with
  | nil => rfl
  | cons c l ih =>
    by_cases hc : c = 0
    · simp [scan, hc]
    · have hc44 : c ≠ 44 := fun h => h44 (by simp [h])
      have hl : 44 ∉ l := fun h => h44 (by simp [h])
      have hs := step_clock sc st c (Or.inr (Or.inr (Or.inr ⟨h1, h9⟩)))
      have hf : (step sc st c).nmeaFieldIndex = st.nmeaFieldIndex := by
        rw [step_nmeaFieldIndex, if_neg hc44]
      rw [scan_cons sc st c l hc, ih _ hl, hs]
      · rw [hf]
        simp only [RMCState.clock, Prod.mk.injEq] at hs
        omega
      · rw [hf]
        simp only [RMCState.clock, Prod.mk.injEq] at hs
        omega

/-- With the time field complete and fewer than nine commas read, the clock
locals stay as they are. -/
theorem scan_clock_mid (sc : Bool) (l : List Nat) (st : RMCState)
    (ht : 6 ≤ st.timeSubfieldIndex) (h : st.nmeaFieldIndex + l.count 44 ≤ 8) :
    (scan sc st l).clock = st.clock := by
  induction l generalizing st with
  | nil => rfl
  | cons c l ih =>
    by_cases hc : c = 0
    · simp [scan, hc]
    · have hs := step_clock sc st c
        (Or.inr (Or.inr (Or.inr ⟨Or.inr ht, Or.inl (by omega)⟩)))
      have hs2 := hs
      simp only [RMCState.clock, Prod.mk.injEq] at hs2
      rw [scan_cons sc st c l hc, ih, hs]
      · omega
      · rw [step_nmeaFieldIndex]
        by_cases h44 : c = 44
        · subst h44
          simp only [List.count_cons_self] at h
          simp only [if_true]
          omega
        · have hcount : (c :: l).count 44 = l.count 44 :=
            List.count_cons_of_ne (fun h => h44 h.symm) l
          rw [hcount] at h
          rw [if_neg h44]
          exact h

/-- The field index after a list without NUL: one more per comma. -/
theorem scan_nmeaFieldIndex (sc : Bool) (l : List Nat) (st : RMCState)
    (h0 : ∀ c ∈ l, c ≠ 0) (h : st.nmeaFieldIndex + l.count 44 < 4294967296) :
    (scan sc st l).nmeaFieldIndex = st.nmeaFieldIndex + l.count 44 := by
  induction l generalizing st with
  | nil => rfl
  | cons c l ih =>
    have hc : c ≠ 0 := h0 c (by simp)
    have hl : ∀ x ∈ l, x ≠ 0 := fun x hx => h0 x (by simp [hx])
    rw [scan_cons sc st c l hc]
    by_cases h44 : c = 44
    · subst h44
      simp only [List.count_cons_self] at h ⊢
      have hf : (step sc st 44).nmeaFieldIndex = st.nmeaFieldIndex + 1 := by
        rw [step_nmeaFieldIndex]
        simp only [if_true]
        omega
      rw [ih _ hl (by omega), hf]
      omega
    · have hcount : (c :: l).count 44 = l.count 44 :=
        List.count_cons_of_ne (fun h => h44 h.symm) l
      rw [hcount] at h ⊢
      have hf : (step sc st c).nmeaFieldIndex = st.nmeaFieldIndex := by
        rw [step_nmeaFieldIndex, if_neg h44]
      rw [ih _ hl (by omega), hf]

/-- Before the ninth comma no character of the date field is consumed. -/
theorem scan_dateSubfieldIndex (sc : Bool) (l : List Nat) (st : RMCState)
    (h : st.nmeaFieldIndex + l.count 44 ≤ 8) :
    (scan sc st l).dateSubfieldIndex = st.dateSubfieldIndex := by
  induction l generalizing st with
  | nil => rfl
  | cons c l ih =>
    by_cases hc : c = 0
    · simp [scan, hc]
    · have hs := step_dateSubfieldIndex sc st c (by omega)
      rw [scan_cons sc st c l hc, ih, hs]
      rw [step_nmeaFieldIndex]
      by_cases h44 : c = 44
      · subst h44
        simp only [List.count_cons_self] at h
        simp only [if_true]
        omega
      · have hcount : (c :: l).count 44 = l.count 44 :=
          List.count_cons_of_ne (fun h => h44 h.symm) l
        rw [hcount] at h
        rw [if_neg h44]
        exact h


theorem scan_crcAsteriskHit_false (sc : Bool) (l : List Nat) (st : RMCState)
    (h : st.crcAsteriskHit = false) (h42 : 42 ∉ l) : (scan sc st l).crcAsteriskHit = false := by
  cases hs : (scan sc st l).crcAsteriskHit
  · rfl
  · rcases scan_crcAsteriskHit_mem sc l st hs with h1 | h1
    · rw [h] at h1; cases h1
    · exact absurd h1 h42

theorem ready_quiet (sc : Bool) (l : List Nat) (st : RMCState) (f u tv ti mo di : Nat) (ib : Bool)
    (h : Ready st f (u, tv, ti, mo, di, ib)) (hl : ∀ c ∈ l, c ≠ 44 ∧ c ≠ 42)
    (h1 : f ≠ 1 ∨ 6 ≤ ti) (h9 : f ≠ 9 ∨ 6 ≤ di) :
    Ready (scan sc st l) f (u, tv, ti, mo, di, ib) := by
  obtain ⟨hf, hast, hclk⟩ := h
  have hc := hclk
  simp only [RMCState.clock, Prod.mk.injEq] at hc
  have hp := scan_plain sc l st hl
  refine ⟨by rw [hp.1, hf], by rw [hp.2, hast], ?_⟩
  rw [scan_clock_quiet sc l st (fun h => (hl 44 h).1 rfl), hclk]
  · rcases h1 with h1 | h1
    · left; rw [hf]; exact h1
    · right; omega
  · rcases h9 with h9 | h9
    · left; rw [hf]; exact h9
    · right; omega

theorem ready_comma (sc : Bool) (st : RMCState) (f : Nat) (clk : Nat × Nat × Nat × Nat × Nat × Bool)
    (h : Ready st f clk) (hf : f < 100) : Ready (step sc st 44) (f + 1) clk := by
  obtain ⟨hfi, hast, hclk⟩ := h
  refine ⟨?_, ?_, ?_⟩
  · rw [step_nmeaFieldIndex, if_pos rfl, hfi]
    omega
  · rw [step_crcAsteriskHit, hast]
    rfl
  · rw [step_clock sc st 44 (Or.inr (Or.inl rfl)), hclk]

theorem ready_mid (sc : Bool) (l : List Nat) (st : RMCState) (f u tv ti mo di : Nat) (ib : Bool)
    (h : Ready st f (u, tv, ti, mo, di, ib)) (hl : ∀ c ∈ l, c ≠ 0 ∧ c ≠ 42)
    (ht : 6 ≤ ti) (hc : f + l.count 44 ≤ 8) :
    Ready (scan sc st l) (f + l.count 44) (u, tv, ti, mo, di, ib) := by
  obtain ⟨hf, hast, hclk⟩ := h
  have hc2 := hclk
  simp only [RMCState.clock, Prod.mk.injEq] at hc2
  refine ⟨?_, ?_, ?_⟩
  · rw [scan_nmeaFieldIndex sc l st (fun c hc => (hl c hc).1) (by omega), hf]
  · exact scan_crcAsteriskHit_false sc l st hast (fun h => (hl 42 h).2 rfl)
  · rw [scan_clock_mid sc l st (by omega) (by omega), hclk]

theorem ready_time_pair (sc : Bool) (st : RMCState) (n k u tv mo di : Nat) (ib : Bool)
    (hn : n < 100) (hk : k = 0 ∨ k = 2 ∨ k = 4)
    (h : Ready st 1 (u, tv, k, mo, di, ib)) :
    Ready (scan sc st (twoDigits n)) 1
      ((u + n * (if k = 0 then 3600 else if k = 2 then 60 else 1)) % 4294967296,
        0, k + 2, mo, di, ib) := by
  obtain ⟨hf, hast, hclk⟩ := h
  simp only [RMCState.clock, Prod.mk.injEq] at hclk
  have hp := scan_plain sc (twoDigits n) st
    (fun c hc => ⟨(twoDigits_plain n hn c hc).2.1, (twoDigits_plain n hn c hc).2.2.1⟩)
  refine ⟨by rw [hp.1, hf], by rw [hp.2, hast], ?_⟩
  rw [scan_time_pair sc st n k hn hk hast hf hclk.2.2.1, hclk.1, hclk.2.2.2.1,
    hclk.2.2.2.2.1, hclk.2.2.2.2.2]

theorem ready_date (sc : Bool) (st : RMCState) (dd mn yy u tv ti mo : Nat) (ib : Bool)
    (hdd : dd < 100) (h1 : 1 ≤ mn) (h12 : mn ≤ 12) (hyy : yy < 100)
    (h : Ready st 9 (u, tv, ti, mo, 0, ib)) :
    (scan sc st (sixDigits dd mn yy)).clock =
      (((if decide (mn > 2) && decide (yy % 4 = 0)
          then ((((u + dd * 86400) % 4294967296 + kDaysTo.getD (mn - 1) 0 * 86400) % 4294967296
                  + yy * 31536000) % 4294967296 + 86400) % 4294967296
          else (((u + dd * 86400) % 4294967296 + kDaysTo.getD (mn - 1) 0 * 86400) % 4294967296
                  + yy * 31536000) % 4294967296)
        + ((yy + 3) / 4 + 4294967296 - 1) % 4294967296 * 86400) % 4294967296,
       0, ti, mn, 6, ib) := by
  obtain ⟨hf, hast, hclk⟩ := h
  simp only [RMCState.clock, Prod.mk.injEq] at hclk
  have p1 := twoDigits_plain dd hdd
  have p2 := twoDigits_plain mn (by omega)
  have q1 := scan_plain sc (twoDigits dd) st (fun c hc => ⟨(p1 c hc).2.1, (p1 c hc).2.2.1⟩)
  have q2 := scan_plain sc (twoDigits mn) (scan sc st (twoDigits dd))
    (fun c hc => ⟨(p2 c hc).2.1, (p2 c hc).2.2.1⟩)
  have c1 := scan_date_day sc st dd hdd hast hf hclk.2.2.2.2.1
  have c1' := c1
  simp only [RMCState.clock, Prod.mk.injEq] at c1'
  have c2 := scan_date_month sc (scan sc st (twoDigits dd)) mn h1 h12
    (by rw [q1.2, hast]) (by rw [q1.1, hf]) c1'.2.2.2.2.1
  have c2' := c2
  simp only [RMCState.clock, Prod.mk.injEq] at c2'
  have c3 := scan_date_year sc (scan sc (scan sc st (twoDigits dd)) (twoDigits mn)) yy hyy
    (by rw [q2.2, q1.2, hast]) (by rw [q2.1, q1.1, hf]) c2'.2.2.2.2.1
  unfold sixDigits
  rw [scan_append sc _ _ (fun c hc => (p1 c hc).1), scan_append sc _ _ (fun c hc => (p2 c hc).1),
    c3, c2'.1, c2'.2.2.1, c2'.2.2.2.1, c2'.2.2.2.2.2, c1'.1, c1'.2.2.1, c1'.2.2.2.2.2,
    hclk.1, hclk.2.2.1, hclk.2.2.2.2.2]


/-- The clock locals at the end of the loop, for a sentence with a six-digit
time field and a six-digit date field and neither NUL nor asterisk before the
date field. -/
theorem scan_rmcBody_clock (sc : Bool) (pre frac mid tail : List Nat)
    (hh mm ss dd mo yy : Nat)
    (hpre : 44 ∉ pre) (hfrac : 44 ∉ frac) (hmid : mid.count 44 = 6)
    (hclean : ∀ c ∈ pre ++ (frac ++ mid), c ≠ 0 ∧ c ≠ 42)
    (hhh : hh < 100) (hmm : mm < 100) (hss : ss < 100) (hdd : dd < 100)
    (hmo1 : 1 ≤ mo) (hmo : mo ≤ 12) (hyy : yy < 100) :
    (scan sc initState (rmcBody pre frac mid tail hh mm ss dd mo yy)).clock =
      (codeSeconds hh mm ss dd mo yy, 0, 6, mo, 6, true) := by
  have cpre : ∀ c ∈ pre, c ≠ 0 ∧ c ≠ 42 := fun c hc => hclean c (by simp [hc])
  have cfrac : ∀ c ∈ frac, c ≠ 0 ∧ c ≠ 42 := fun c hc => hclean c (by simp [hc])
  have cmid : ∀ c ∈ mid, c ≠ 0 ∧ c ≠ 42 := fun c hc => hclean c (by simp [hc])
  have phh := twoDigits_plain hh hhh
  have pmm := twoDigits_plain mm hmm
  have pss := twoDigits_plain ss hss
  have pdd := twoDigits_plain dd hdd
  have pmo := twoDigits_plain mo (by omega)
  have pyy := twoDigits_plain yy hyy
  have r0 : Ready initState 0 (0, 0, 0, 0, 0, true) := ⟨rfl, rfl, rfl⟩
  have r1 := ready_quiet sc pre _ _ _ _ _ _ _ _ r0
    (fun c hc => ⟨fun h => hpre (h ▸ hc), (cpre c hc).2⟩) (Or.inl (by omega)) (Or.inl (by omega))
  have r2 := ready_comma sc _ _ _ r1 (by omega)
  have r3 := ready_time_pair sc _ hh 0 _ _ _ _ _ hhh (Or.inl rfl) r2
  have r4 := ready_time_pair sc _ mm 2 _ _ _ _ _ hmm (Or.inr (Or.inl rfl)) r3
  have r5 := ready_time_pair sc _ ss 4 _ _ _ _ _ hss (Or.inr (Or.inr rfl)) r4
  have r6 := ready_quiet sc frac _ _ _ _ _ _ _ _ r5
    (fun c hc => ⟨fun h => hfrac (h ▸ hc), (cfrac c hc).2⟩) (Or.inr (by omega))
    (Or.inl (by omega))
  have r7 := ready_comma sc _ _ _ r6 (by omega)
  have r8 := ready_mid sc mid _ _ _ _ _ _ _ _ r7 cmid (by omega) (by omega)
  rw [hmid] at r8
  have r9 := ready_comma sc _ _ _ r8 (by omega)
  have r10 := ready_date sc _ dd mo yy _ _ _ _ _ hdd hmo1 hmo hyy r9
  have e : scan sc initState (rmcBody pre frac mid tail hh mm ss dd mo yy) =
      scan sc (scan sc (step sc (scan sc (step sc (scan sc (scan sc (scan sc (scan sc
        (step sc (scan sc initState pre) 44) (twoDigits hh)) (twoDigits mm)) (twoDigits ss))
        frac) 44) mid) 44) (sixDigits dd mo yy)) tail := by
    unfold rmcBody
    rw [show sixDigits hh mm ss = twoDigits hh ++ (twoDigits mm ++ twoDigits ss) from rfl]
    simp only [List.append_assoc]
    rw [scan_append sc pre _ (fun c hc => (cpre c hc).1), scan_cons _ _ _ _ (by omega),
      scan_append sc _ _ (fun c hc => (phh c hc).1),
      scan_append sc _ _ (fun c hc => (pmm c hc).1),
      scan_append sc _ _ (fun c hc => (pss c hc).1),
      scan_append sc frac _ (fun c hc => (cfrac c hc).1), scan_cons _ _ _ _ (by omega),
      scan_append sc mid _ (fun c hc => (cmid c hc).1), scan_cons _ _ _ _ (by omega),
      scan_append sc _ tail]
    intro c hc
    simp only [sixDigits, List.mem_append] at hc
    rcases hc with hc | hc | hc
    · exact (pdd c hc).1
    · exact (pmo c hc).1
    · exact (pyy c hc).1
  rw [e, scan_clock_frozen sc tail _ (Or.inr (by
    simp only [RMCState.clock, Prod.mk.injEq] at r10
    omega)), r10]
  simp [codeSeconds]


set_option maxRecDepth 100000 in
theorem daysBeforeYear_2000 : ∀ yy, yy < 100 →
    daysBeforeYear (2000 + yy) = 10957 + 365 * yy + (yy + 3) / 4 := by
  decide

set_option maxRecDepth 100000 in
theorem daysBeforeMonth_2000 : ∀ yy, yy < 100 → ∀ mo, mo < 13 → 1 ≤ mo →
    daysBeforeMonth (2000 + yy) mo =
      kDaysTo.getD (mo - 1) 0 + (if decide (mo > 2) && decide (yy % 4 = 0) then 1 else 0) := by
  decide

set_option maxRecDepth 100000 in
theorem daysInMonth_le : ∀ yy, yy < 100 → ∀ mo, mo < 13 → daysInMonth (2000 + yy) mo ≤ 31 := by
  decide

/-- For a valid time of day and a valid date of 2000..2099 the sums of the
parser never wrap, and with the offset of the year 2000 they give the Unix time
of the instant. -/
theorem codeSeconds_eq (hh mm ss dd mo yy : Nat) (hhh : hh < 24) (hmm : mm < 60) (hss : ss < 60)
    (hyy : yy < 100) (hmo1 : 1 ≤ mo) (hmo : mo ≤ 12) (hdd1 : 1 ≤ dd)
    (hdd : dd ≤ daysInMonth (2000 + yy) mo) :
    codeSeconds hh mm ss dd mo yy + 946684800 = unixTimeOf (2000 + yy) mo dd hh mm ss ∧
    codeSeconds hh mm ss dd mo yy + 946684800 < 4294967296 := by
  have hy := daysBeforeYear_2000 yy hyy
  have hm := daysBeforeMonth_2000 yy hyy mo (by omega) hmo1
  have hd := daysInMonth_le yy hyy mo (by omega)
  have hk : kDaysTo.getD (mo - 1) 0 ≤ 334 := by
    interval_cases mo <;> simp [kDaysTo]
  unfold unixTimeOf
  rw [hy, hm]
  unfold codeSeconds
  simp only []
  generalize kDaysTo.getD (mo - 1) 0 = k at hk ⊢
  clear hy hm
  have e1 : (((0 + hh * 3600) % 4294967296 + mm * 60) % 4294967296 + ss * 1) % 4294967296
      = hh * 3600 + mm * 60 + ss := by omega
  have e2 : (hh * 3600 + mm * 60 + ss + dd * 86400) % 4294967296
      = hh * 3600 + mm * 60 + ss + dd * 86400 := by omega
  have e3 : (hh * 3600 + mm * 60 + ss + dd * 86400 + k * 86400) % 4294967296
      = hh * 3600 + mm * 60 + ss + dd * 86400 + k * 86400 := by omega
  have e4 : (hh * 3600 + mm * 60 + ss + dd * 86400 + k * 86400 + yy * 31536000) % 4294967296
      = hh * 3600 + mm * 60 + ss + dd * 86400 + k * 86400 + yy * 31536000 := by omega
  have e5 : (hh * 3600 + mm * 60 + ss + dd * 86400 + k * 86400 + yy * 31536000 + 86400)
      % 4294967296
      = hh * 3600 + mm * 60 + ss + dd * 86400 + k * 86400 + yy * 31536000 + 86400 := by omega
  rw [e1, e2, e3, e4, e5]
  clear e1 e2 e3 e4 e5
  generalize hu : hh * 3600 + mm * 60 + ss + dd * 86400 + k * 86400 + yy * 31536000 = u
  have hu1 : 86400 ≤ u := by omega
  have hu2 : u ≤ 86399 + 365 * 86400 + yy * 31536000 := by omega
  have hleapDays : (u + ((yy + 3) / 4 + 4294967296 - 1) % 4294967296 * 86400) % 4294967296
      = u + (yy + 3) / 4 * 86400 - 86400 ∧
      (u + 86400 + ((yy + 3) / 4 + 4294967296 - 1) % 4294967296 * 86400) % 4294967296
      = u + 86400 + (yy + 3) / 4 * 86400 - 86400 := by
    by_cases h0 : yy = 0
    · subst h0
      norm_num
      omega
    · have : ((yy + 3) / 4 + 4294967296 - 1) % 4294967296 = (yy + 3) / 4 - 1 := by omega
      rw [this]
      omega
  have hq : (yy + 3) / 4 ≤ 25 := by omega
  cases hleap : (decide (mo > 2) && decide (yy % 4 = 0))
  · simp only [Bool.false_eq_true, if_false]
    rw [hleapDays.1]
    clear hleapDays hleap
    generalize (yy + 3) / 4 = q at hq ⊢
    omega
  · simp only [if_true]
    rw [hleapDays.2]
    clear hleapDays hleap
    generalize (yy + 3) / 4 = q at hq ⊢
    omega


/-! ## The checksum locals -/

/-- Before the asterisk every character is folded into `crc`. -/
theorem scan_crc_clean (sc : Bool) (l : List Nat) (st : RMCState)
    (hast : st.crcAsteriskHit = false) (hl : ∀ c ∈ l, c ≠ 0 ∧ c ≠ 42 ∧ c < 256) :
    (scan sc st l).crc = l.foldl (fun acc c => acc ^^^ c) st.crc ∧
    (scan sc st l).expectedCRC = st.expectedCRC ∧
    (scan sc st l).crcAsteriskHit = false := by
  induction l generalizing st with
  | nil => exact ⟨rfl, rfl, hast⟩
  | cons c l ih =>
    have hc := hl c (by simp)
    have hl2 : ∀ x ∈ l, x ≠ 0 ∧ x ≠ 42 ∧ x < 256 := fun x hx => hl x (by simp [hx])
    have ha : (step sc st c).crcAsteriskHit = false := by
      rw [step_crcAsteriskHit, hast]
      simp [hc.2.1]
    have hcrc : (step sc st c).crc = st.crc ^^^ c := by
      rw [step_crc, if_neg hc.2.1, if_pos (Or.inr hast), Nat.mod_eq_of_lt hc.2.2]
    have hexp : (step sc st c).expectedCRC = st.expectedCRC := by
      rw [step_expectedCRC, if_neg]
      rw [hast]
      simp
    obtain ⟨i1, i2, i3⟩ := ih (step sc st c) ha hl2
    rw [scan_cons sc st c l hc.1]
    refine ⟨?_, ?_, i3⟩
    · rw [i1, hcrc]
      rfl
    · rw [i2, hexp]

theorem foldl_xor_lt (l : List Nat) (a : Nat) (ha : a < 256) (hl : ∀ c ∈ l, c < 256) :
    l.foldl (fun acc c => acc ^^^ c) a < 256 := by
  induction l generalizing a with
  | nil => exact ha
  | cons c l ih =>
    have hc : c < 256 := hl c (by simp)
    have h2 : a ^^^ c < 2 ^ 8 := Nat.xor_lt_two_pow (by simpa using ha) (by simpa using hc)
    exact ih (a ^^^ c) (by simpa using h2) (fun x hx => hl x (by simp [hx]))

theorem hexDigitOf_hexChar : ∀ sc : Bool, ∀ d, d < 16 → hexDigitOf sc (hexChar d) = d := by
  decide

theorem hexChar_plain : ∀ d, d < 16 → hexChar d ≠ 0 ∧ hexChar d ≠ 44 ∧ hexChar d ≠ 42 := by
  decide

/-- The asterisk and two hexadecimal digits set `expectedCRC` to the value the
digits spell. -/
theorem scan_checksum (sc : Bool) (st : RMCState) (x : Nat) (hx : x < 256) :
    (scan sc st [42, hexChar (x / 16), hexChar (x % 16)]).expectedCRC = x ∧
    (scan sc st [42, hexChar (x / 16), hexChar (x % 16)]).crc = st.crc ∧
    (scan sc st [42, hexChar (x / 16), hexChar (x % 16)]).crcAsteriskHit = true ∧
    (scan sc st [42, hexChar (x / 16), hexChar (x % 16)]).clock = st.clock := by
  have h1 := hexChar_plain (x / 16) (by omega)
  have h0 := hexChar_plain (x % 16) (by omega)
  have d1 := hexDigitOf_hexChar sc (x / 16) (by omega)
  have d0 := hexDigitOf_hexChar sc (x % 16) (by omega)
  have a1 : (step sc st 42).crcAsteriskHit = true := by
    rw [step_crcAsteriskHit]; simp
  have a2 : (step sc (step sc st 42) (hexChar (x / 16))).crcAsteriskHit = true := by
    rw [step_crcAsteriskHit, a1]; rfl
  rw [scan_cons _ _ _ _ (by omega), scan_cons _ _ _ _ h1.1, scan_cons _ _ _ _ h0.1]
  simp only [scan]
  refine ⟨?_, ?_, ?_, ?_⟩
  · rw [step_expectedCRC, if_pos ⟨h0.2.1, h0.2.2, a2⟩, step_expectedCRC,
      if_pos ⟨h1.2.1, h1.2.2, a1⟩, d1, d0]
    omega
  · rw [step_crc, if_neg h0.2.2, if_neg (by rw [a2]; simp [h0.2.1]), step_crc, if_neg h1.2.2,
      if_neg (by rw [a1]; simp [h1.2.1]), step_crc, if_pos rfl]
  · rw [step_crcAsteriskHit, a2]; rfl
  · rw [step_clock _ _ _ (Or.inl a2), step_clock _ _ _ (Or.inl a1),
      step_clock _ _ _ (Or.inr (Or.inr (Or.inl rfl)))]

/-- What a non-zero return value says about the locals at the end of the loop. -/
theorem finish_ne_zero (st : RMCState) (h : finish st ≠ 0) :
    st.crcAsteriskHit = true ∧ st.crc = st.expectedCRC ∧ 5 < st.timeSubfieldIndex ∧
    5 < st.dateSubfieldIndex ∧ finish st = (st.unixTime + kYear2000) % 4294967296 := by
  unfold finish at h ⊢
  split_ifs at h ⊢ with h1 h2 h3
  · exact ⟨h1.1, h1.2, h3.1, h3.2, rfl⟩
  · exact absurd rfl h
  · exact absurd (not_not.mp h2) h
  · exact absurd rfl h

/-- The shape of a run that returns a value. -/
theorem UnixTimeFromRMCString_some (sc : Bool) (s : List Nat) (v : Nat)
    (h : UnixTimeFromRMCString sc (some s) = some v) (hv : v ≠ 0) :
    readChar s 0 = some 36 ∧ readChar s 5 = some 67 ∧
    (scan sc initState (s.drop 1)).inBounds = true ∧
    v = finish (scan sc initState (s.drop 1)) := by
  unfold UnixTimeFromRMCString at h
  simp only [] at h
  by_cases h0 : readChar s 0 = some 36
  · rw [if_pos h0] at h
    cases hc5 : readChar s 5 with
    | none =>
      rw [hc5] at h
      cases h
    | some c5 =>
      rw [hc5] at h
      simp only [] at h
      by_cases h67 : c5 = 67
      · rw [if_pos h67] at h
        subst h67
        by_cases hib : (scan sc initState (s.drop 1)).inBounds = true
        · rw [if_pos hib] at h
          exact ⟨h0, rfl, hib, (Option.some.inj h).symm⟩
        · rw [if_neg hib] at h
          cases h
      · rw [if_neg h67] at h
        exact absurd (Option.some.inj h).symm hv
  · rw [if_neg h0] at h
    exact absurd (Option.some.inj h).symm hv


theorem count_comma_twoDigits (n : Nat) : (twoDigits n).count 44 = 0 := by
  apply List.count_eq_zero_of_not_mem
  simp only [twoDigits, List.mem_cons, List.mem_singleton, List.not_mem_nil, or_false]
  omega

theorem count_comma_sixDigits (a b c : Nat) : (sixDigits a b c).count 44 = 0 := by
  simp [sixDigits, List.count_append, count_comma_twoDigits]

/-- A NUL or an asterisk before the ninth comma: no character of the date field
is ever consumed. -/
theorem scan_dirty_date (sc : Bool) (a r : List Nat) (ha : a.count 44 ≤ 8)
    (hd : 0 ∈ a ∨ 42 ∈ a) :
    (scan sc initState (a ++ r)).dateSubfieldIndex = 0 := by
  have hz : (scan sc initState a).dateSubfieldIndex = 0 := by
    rw [scan_dateSubfieldIndex sc a initState (by simpa [initState] using ha)]
    rfl
  by_cases h0 : 0 ∈ a
  · rw [scan_append_stop sc a r h0]
    exact hz
  · have h42 : 42 ∈ a := by
      rcases hd with hd | hd
      · exact absurd hd h0
      · exact hd
    have hnz : ∀ c ∈ a, c ≠ 0 := fun c hc h => h0 (h ▸ hc)
    rw [scan_append sc a r hnz]
    have hast := scan_crcAsteriskHit_of_mem sc a initState hnz h42
    have hfr := scan_clock_frozen sc r (scan sc initState a) (Or.inl hast)
    simp only [RMCState.clock, Prod.mk.injEq] at hfr
    rw [hfr.2.2.2.2.1]
    exact hz

theorem rmcBody_split (pre frac mid tail : List Nat) (hh mm ss dd mo yy : Nat) :
    rmcBody pre frac mid tail hh mm ss dd mo yy =
      (pre ++ (44 :: (sixDigits hh mm ss ++ (frac ++ (44 :: mid))))) ++
        (44 :: (sixDigits dd mo yy ++ tail)) := by
  simp [rmcBody, List.append_assoc]

/-- C1.  For every sentence whose field 1 begins with six digits `hhmmss` of a
valid time of day and whose field 9 begins with six digits `ddmmyy` of a valid
date of the year 2000+yy, a non-zero value returned by `UnixTimeFromRMCString`
is the Unix time of 20yy-mm-dd hh:mm:ss; the first character, the address, the
fraction digits, the fields 2 to 8 and everything after the date do not enter
the value. -/
theorem rmc_value_is_calendar_instant (sc : Bool) (c0 : Nat) (pre frac mid tail : List Nat)
    (hh mm ss dd mo yy v : Nat)
    (hpre : 44 ∉ pre) (hfrac : 44 ∉ frac) (hmid : mid.count 44 = 6)
    (hhh : hh < 24) (hmm : mm < 60) (hss : ss < 60) (hyy : yy < 100)
    (hmo1 : 1 ≤ mo) (hmo : mo ≤ 12) (hdd1 : 1 ≤ dd) (hdd : dd ≤ daysInMonth (2000 + yy) mo)
    (h : UnixTimeFromRMCString sc
      (some (c0 :: rmcBody pre frac mid tail hh mm ss dd mo yy)) = some v)
    (hv : v ≠ 0) :
    v = unixTimeOf (2000 + yy) mo dd hh mm ss := by
  obtain ⟨-, -, -, hfin⟩ := UnixTimeFromRMCString_some sc _ v h hv
  rw [show (c0 :: rmcBody pre frac mid tail hh mm ss dd mo yy).drop 1 =
    rmcBody pre frac mid tail hh mm ss dd mo yy from rfl] at hfin
  obtain ⟨-, -, -, hd6, hval⟩ := finish_ne_zero _ (hfin ▸ hv)
  have hd31 := daysInMonth_le yy hyy mo (by omega)
  by_cases hclean : ∀ c ∈ pre ++ (frac ++ mid), c ≠ 0 ∧ c ≠ 42
  · have hc := scan_rmcBody_clock sc pre frac mid tail hh mm ss dd mo yy hpre hfrac hmid hclean
      (by omega) (by omega) (by omega) (by omega) hmo1 hmo hyy
    simp only [RMCState.clock, Prod.mk.injEq] at hc
    obtain ⟨e1, e2⟩ := codeSeconds_eq hh mm ss dd mo yy hhh hmm hss hyy hmo1 hmo hdd1 hdd
    rw [hfin, hval, hc.1, kYear2000, Nat.mod_eq_of_lt e2, e1]
  · exfalso
    have hdirty : 0 ∈ pre ++ (44 :: (sixDigits hh mm ss ++ (frac ++ (44 :: mid)))) ∨
        42 ∈ pre ++ (44 :: (sixDigits hh mm ss ++ (frac ++ (44 :: mid)))) := by
      push_neg at hclean
      obtain ⟨c, hc, hc2⟩ := hclean
      simp only [List.mem_append] at hc
      by_cases hc0 : c = 0
      · subst hc0
        left
        simp only [List.mem_append, List.mem_cons]
        tauto
      · have := hc2 hc0
        subst this
        right
        simp only [List.mem_append, List.mem_cons]
        tauto
    have hcount : (pre ++ (44 :: (sixDigits hh mm ss ++ (frac ++ (44 :: mid))))).count 44 ≤ 8 := by
      simp only [List.count_append, List.count_cons_self, count_comma_sixDigits,
        List.count_eq_zero_of_not_mem hpre, List.count_eq_zero_of_not_mem hfrac, hmid]
      omega
    have hz := scan_dirty_date sc _ (44 :: (sixDigits dd mo yy ++ tail)) hcount hdirty
    rw [← rmcBody_split] at hz
    omega


set_option maxRecDepth 100000 in
/-- C1, at the sentence of the source comment. -/
theorem rmc_value_is_calendar_instant_witness :
    UnixTimeFromRMCString true (some (bytes
      "$GNRMC,192503.00,A,4420.87057,N,07111.35174,W,0.049,,231223,,,A,V*09"))
      = some 1703359503 ∧
    1703359503 = unixTimeOf (2000 + 23) 12 23 19 25 3 :=
  ⟨by decide,
   rmc_value_is_calendar_instant true 36 (bytes "GNRMC") (bytes ".00")
    (bytes "A,4420.87057,N,07111.35174,W,0.049,") (bytes ",,,A,V*09") 19 25 3 23 12 23
    1703359503 (by decide) (by decide) (by decide) (by decide) (by decide) (by decide)
    (by decide) (by decide) (by decide) (by decide) (by decide) (by decide) (by decide)⟩

/-- The parser value is zero only for the first second of the year 2000. -/
theorem codeSeconds_eq_zero (hh mm ss dd mo yy : Nat) (hhh : hh < 24) (hmm : mm < 60)
    (hss : ss < 60) (hyy : yy < 100) (hmo1 : 1 ≤ mo) (hmo : mo ≤ 12) (hdd1 : 1 ≤ dd)
    (hdd : dd ≤ daysInMonth (2000 + yy) mo) (h : codeSeconds hh mm ss dd mo yy = 0) :
    yy = 0 ∧ mo = 1 ∧ dd = 1 ∧ hh = 0 ∧ mm = 0 ∧ ss = 0 := by
  obtain ⟨e1, -⟩ := codeSeconds_eq hh mm ss dd mo yy hhh hmm hss hyy hmo1 hmo hdd1 hdd
  rw [h] at e1
  unfold unixTimeOf at e1
  rw [daysBeforeYear_2000 yy hyy, daysBeforeMonth_2000 yy hyy mo (by omega) hmo1] at e1
  have hk : mo = 1 ∨ 31 ≤ kDaysTo.getD (mo - 1) 0 := by
    interval_cases mo <;> simp [kDaysTo]
  generalize kDaysTo.getD (mo - 1) 0 = k at hk e1
  generalize (if (decide (mo > 2) && decide (yy % 4 = 0)) = true then 1 else 0) = lp at e1
  have hq : (yy + 3) / 4 ≤ 25 := by omega
  have hq0 : yy = 0 ∨ 1 ≤ yy := by omega
  generalize (yy + 3) / 4 = q at hq e1
  omega

theorem rmcBody_clean (pre frac mid tail : List Nat) (hh mm ss dd mo yy : Nat)
    (hpre : ∀ c ∈ pre, c ≠ 0 ∧ c ≠ 42 ∧ c < 256) (hfrac : ∀ c ∈ frac, c ≠ 0 ∧ c ≠ 42 ∧ c < 256)
    (hmid : ∀ c ∈ mid, c ≠ 0 ∧ c ≠ 42 ∧ c < 256) (htail : ∀ c ∈ tail, c ≠ 0 ∧ c ≠ 42 ∧ c < 256)
    (hhh : hh < 100) (hmm : mm < 100) (hss : ss < 100) (hdd : dd < 100) (hmo : mo < 100)
    (hyy : yy < 100) :
    ∀ c ∈ rmcBody pre frac mid tail hh mm ss dd mo yy, c ≠ 0 ∧ c ≠ 42 ∧ c < 256 := by
  intro c hc
  have p := fun n (hn : n < 100) (hc : c ∈ twoDigits n) =>
    (⟨(twoDigits_plain n hn c hc).1, (twoDigits_plain n hn c hc).2.2.1,
      (twoDigits_plain n hn c hc).2.2.2⟩ : c ≠ 0 ∧ c ≠ 42 ∧ c < 256)
  simp only [rmcBody, sixDigits, List.mem_append, List.mem_cons] at hc
  rcases hc with hc | hc | (hc | hc | hc) | hc | hc | hc | hc | (hc | hc | hc) | hc
  · exact hpre c hc
  · subst hc; omega
  · exact p hh hhh hc
  · exact p mm hmm hc
  · exact p ss hss hc
  · exact hfrac c hc
  · subst hc; omega
  · exact hmid c hc
  · subst hc; omega
  · exact p dd hdd hc
  · exact p mo hmo hc
  · exact p yy hyy hc
  · exact htail c hc


/-- C2 (amended).  Every well-formed sentence - the dollar sign, five address
characters ending in C, comma-separated fields with field 1 `hhmmss` followed
by an optional fraction and field 9 `ddmmyy`, a valid time of day and a valid
date of 2000..2099, then the asterisk and the two uppercase hexadecimal digits
of the exclusive-or of the characters between the dollar sign and the
asterisk - yields the Unix time of its date and time, unless the instant is
2000-01-01 00:00:00. -/
theorem rmc_valid_sentence_timestamp (sc : Bool) (a1 a2 a3 a4 : Nat)
    (frac mid tail : List Nat) (hh mm ss dd mo yy : Nat)
    (ha1 : fieldChar a1) (ha2 : fieldChar a2) (ha3 : fieldChar a3) (ha4 : fieldChar a4)
    (hfrac : ∀ c ∈ frac, fieldChar c)
    (hmid : ∀ c ∈ mid, c ≠ 0 ∧ c ≠ 42 ∧ c < 256) (hmid6 : mid.count 44 = 6)
    (htail : ∀ c ∈ tail, c ≠ 0 ∧ c ≠ 42 ∧ c < 256)
    (hhh : hh < 24) (hmm : mm < 60) (hss : ss < 60) (hyy : yy < 100)
    (hmo1 : 1 ≤ mo) (hmo : mo ≤ 12) (hdd1 : 1 ≤ dd) (hdd : dd ≤ daysInMonth (2000 + yy) mo)
    (hnot : ¬ (yy = 0 ∧ mo = 1 ∧ dd = 1 ∧ hh = 0 ∧ mm = 0 ∧ ss = 0)) :
    UnixTimeFromRMCString sc
      (some (rmcSentence [a1, a2, a3, a4, 67] frac mid tail hh mm ss dd mo yy)) =
      some (unixTimeOf (2000 + yy) mo dd hh mm ss) := by
  have hd31 := daysInMonth_le yy hyy mo (by omega)
  have hpre : ∀ c ∈ [a1, a2, a3, a4, 67], c ≠ 0 ∧ c ≠ 44 ∧ c ≠ 42 ∧ c < 256 := by
    intro c hc
    simp only [List.mem_cons, List.mem_singleton, List.not_mem_nil, or_false] at hc
    rcases hc with hc | hc | hc | hc | hc
    · subst hc; exact ha1
    · subst hc; exact ha2
    · subst hc; exact ha3
    · subst hc; exact ha4
    · subst hc; omega
  have hbody := rmcBody_clean [a1, a2, a3, a4, 67] frac mid tail hh mm ss dd mo yy
    (fun c hc => ⟨(hpre c hc).1, (hpre c hc).2.2.1, (hpre c hc).2.2.2⟩)
    (fun c hc => ⟨(hfrac c hc).1, (hfrac c hc).2.2.1, (hfrac c hc).2.2.2⟩)
    hmid htail (by omega) (by omega) (by omega) (by omega) (by omega) hyy
  generalize hb : rmcBody [a1, a2, a3, a4, 67] frac mid tail hh mm ss dd mo yy = body at hbody
  have hx : xorAll body < 256 :=
    foldl_xor_lt body 0 (by omega) (fun c hc => (hbody c hc).2.2)
  -- the checksum locals
  obtain ⟨k1, k2, k3⟩ := scan_crc_clean sc body initState rfl hbody
  obtain ⟨q1, q2, q3, -⟩ := scan_checksum sc (scan sc initState body) (xorAll body) hx
  -- the clock locals
  have hclean : ∀ c ∈ [a1, a2, a3, a4, 67] ++ (frac ++ mid), c ≠ 0 ∧ c ≠ 42 := by
    intro c hc
    simp only [List.mem_append] at hc
    rcases hc with hc | hc | hc
    · exact ⟨(hpre c hc).1, (hpre c hc).2.2.1⟩
    · exact ⟨(hfrac c hc).1, (hfrac c hc).2.2.1⟩
    · exact ⟨(hmid c hc).1, (hmid c hc).2.1⟩
  have hc := scan_rmcBody_clock sc [a1, a2, a3, a4, 67] frac mid
    (tail ++ [42, hexChar (xorAll body / 16), hexChar (xorAll body % 16)])
    hh mm ss dd mo yy (fun h => (hpre 44 h).2.1 rfl) (fun h => (hfrac 44 h).2.1 rfl) hmid6 hclean
    (by omega) (by omega) (by omega) (by omega) hmo1 hmo hyy
  have hsplit : rmcBody [a1, a2, a3, a4, 67] frac mid
      (tail ++ [42, hexChar (xorAll body / 16), hexChar (xorAll body % 16)]) hh mm ss dd mo yy
      = body ++ [42, hexChar (xorAll body / 16), hexChar (xorAll body % 16)] := by
    rw [← hb]
    simp [rmcBody, List.append_assoc]
  rw [hsplit] at hc
  simp only [RMCState.clock, Prod.mk.injEq] at hc
  have hfinal : scan sc initState
      (body ++ [42, hexChar (xorAll body / 16), hexChar (xorAll body % 16)]) =
      scan sc (scan sc initState body)
        [42, hexChar (xorAll body / 16), hexChar (xorAll body % 16)] :=
    scan_append sc body _ (fun c hc => (hbody c hc).1) initState
  obtain ⟨e1, e2⟩ := codeSeconds_eq hh mm ss dd mo yy hhh hmm hss hyy hmo1 hmo hdd1 hdd
  have hne : codeSeconds hh mm ss dd mo yy ≠ 0 := fun h =>
    hnot (codeSeconds_eq_zero hh mm ss dd mo yy hhh hmm hss hyy hmo1 hmo hdd1 hdd h)
  -- the two character tests and the returned value
  have hs : rmcSentence [a1, a2, a3, a4, 67] frac mid tail hh mm ss dd mo yy =
      36 :: (body ++ [42, hexChar (xorAll body / 16), hexChar (xorAll body % 16)]) := by
    rw [← hb]
    rfl
  have hr0 : readChar (rmcSentence [a1, a2, a3, a4, 67] frac mid tail hh mm ss dd mo yy) 0
      = some 36 := by
    rw [hs]
    simp [readChar]
  have hr5 : readChar (rmcSentence [a1, a2, a3, a4, 67] frac mid tail hh mm ss dd mo yy) 5
      = some 67 := by
    simp [readChar, rmcSentence, rmcBody]
  unfold UnixTimeFromRMCString
  simp only [hr0, hr5, if_true]
  rw [hs]
  simp only [List.drop_succ_cons, List.drop_zero]
  rw [if_pos hc.2.2.2.2.2]
  congr 1
  unfold finish
  rw [if_pos ⟨by rw [hfinal]; exact q3, by rw [hfinal, q1, q2, k1]; rfl⟩, hc.1, if_pos hne,
    if_pos ⟨by omega, by omega⟩, kYear2000, Nat.mod_eq_of_lt e2, e1]


set_option maxRecDepth 100000 in
/-- C2 (amended), at the sentence of the source comment: it is well formed and
returns 1703359503, the Unix time of 2023-12-23 19:25:03. -/
theorem rmc_valid_sentence_timestamp_witness :
    UnixTimeFromRMCString true (some (rmcSentence [71, 78, 82, 77, 67] (bytes ".00")
      (bytes "A,4420.87057,N,07111.35174,W,0.049,") (bytes ",,,A,V") 19 25 3 23 12 23)) =
      some (unixTimeOf (2000 + 23) 12 23 19 25 3) ∧
    rmcSentence [71, 78, 82, 77, 67] (bytes ".00")
      (bytes "A,4420.87057,N,07111.35174,W,0.049,") (bytes ",,,A,V") 19 25 3 23 12 23 =
      bytes "$GNRMC,192503.00,A,4420.87057,N,07111.35174,W,0.049,,231223,,,A,V*09" ∧
    unixTimeOf (2000 + 23) 12 23 19 25 3 = 1703359503 :=
  ⟨rmc_valid_sentence_timestamp true 71 78 82 77 (bytes ".00")
      (bytes "A,4420.87057,N,07111.35174,W,0.049,") (bytes ",,,A,V") 19 25 3 23 12 23
      (by decide) (by decide) (by decide) (by decide) (by decide) (by decide) (by decide)
      (by decide) (by decide) (by decide) (by decide) (by decide) (by decide) (by decide)
      (by decide) (by decide) (by decide),
   by decide, by decide⟩

set_option maxRecDepth 100000 in
/-- C2 as stated fails: the well-formed sentence for 2000-01-01 00:00:00 returns
the zero "no value" result, not the Unix time 946684800 of that instant. -/
theorem rmc_valid_sentence_counterexample :
    rmcSentence [71, 78, 82, 77, 67] (bytes ".00")
      (bytes "A,4420.87057,N,07111.35174,W,0.049,") (bytes ",,,A,V") 0 0 0 1 1 0 =
      bytes "$GNRMC,000000.00,A,4420.87057,N,07111.35174,W,0.049,,010100,,,A,V*06" ∧
    unixTimeOf 2000 1 1 0 0 0 = 946684800 ∧
    UnixTimeFromRMCString true (some (bytes
      "$GNRMC,000000.00,A,4420.87057,N,07111.35174,W,0.049,,010100,,,A,V*06")) = some 0 ∧
    UnixTimeFromRMCString false (some (bytes
      "$GNRMC,000000.00,A,4420.87057,N,07111.35174,W,0.049,,010100,,,A,V*06")) = some 0 := by
  decide

/-- C3.  Result policy: a non-zero result implies that every check passed - the
string is not null, it starts with the dollar sign and has C at index 5, it
contains an asterisk, the computed checksum equals the expected checksum
decoded after the asterisk, and six characters were consumed from the time
field and six from the date field. -/
theorem rmc_result_policy (sc : Bool) (inString : Option (List Nat)) (v : Nat)
    (h : UnixTimeFromRMCString sc inString = some v) (hv : v ≠ 0) :
    ∃ s, inString = some s ∧ readChar s 0 = some 36 ∧ readChar s 5 = some 67 ∧ 42 ∈ s ∧
      (scan sc initState (s.drop 1)).crcAsteriskHit = true ∧
      (scan sc initState (s.drop 1)).crc = (scan sc initState (s.drop 1)).expectedCRC ∧
      6 ≤ (scan sc initState (s.drop 1)).timeSubfieldIndex ∧
      6 ≤ (scan sc initState (s.drop 1)).dateSubfieldIndex := by
  cases inString with
  | none =>
    simp only [UnixTimeFromRMCString] at h
    exact absurd (Option.some.inj h).symm hv
  | some s =>
    obtain ⟨h0, h5, -, hfin⟩ := UnixTimeFromRMCString_some sc s v h hv
    obtain ⟨hast, hcrc, ht, hd, -⟩ := finish_ne_zero _ (hfin ▸ hv)
    refine ⟨s, rfl, h0, h5, ?_, hast, hcrc, ht, hd⟩
    rcases scan_crcAsteriskHit_mem sc _ initState hast with h1 | h1
    · cases h1
    · exact List.mem_of_mem_drop h1

set_option maxRecDepth 100000 in
/-- C3, at the sentence of the source comment. -/
theorem rmc_result_policy_witness :
    ∃ s, some (bytes "$GNRMC,192503.00,A,4420.87057,N,07111.35174,W,0.049,,231223,,,A,V*09")
        = some s ∧ readChar s 0 = some 36 ∧ readChar s 5 = some 67 ∧ 42 ∈ s ∧
      (scan true initState (s.drop 1)).crcAsteriskHit = true ∧
      (scan true initState (s.drop 1)).crc = (scan true initState (s.drop 1)).expectedCRC ∧
      6 ≤ (scan true initState (s.drop 1)).timeSubfieldIndex ∧
      6 ≤ (scan true initState (s.drop 1)).dateSubfieldIndex :=
  rmc_result_policy true
    (some (bytes "$GNRMC,192503.00,A,4420.87057,N,07111.35174,W,0.049,,231223,,,A,V*09"))
    1703359503 (by decide) (by decide)

theorem dateField_dateSubfieldIndex_le (sc : Bool) (st : RMCState) (c : Nat) :
    (dateField sc st c).dateSubfieldIndex ≤ st.dateSubfieldIndex + 1 := by
  unfold dateField
  split_ifs <;> simp

theorem step_dateSubfieldIndex_le (sc : Bool) (st : RMCState) (c : Nat) :
    (step sc st c).dateSubfieldIndex ≤ st.dateSubfieldIndex + 1 := by
  by_cases h9 : st.nmeaFieldIndex = 9
  · unfold step
    have hd := dateField_dateSubfieldIndex_le sc { st with crc := st.crc ^^^ (c % 256) } c
    by_cases h44 : c = 44
    · simp [h44]
    · by_cases h42 : c = 42
      · simp [h42]
      · rw [if_neg h44, if_neg h42]
        by_cases hast : st.crcAsteriskHit = false
        · rw [if_pos hast]
          simp only []
          rw [if_neg (by omega), if_pos h9]
          exact hd
        · rw [if_neg hast]
          simp
  · rw [step_dateSubfieldIndex sc st c h9]
    omega

/-- The date field never consumes more characters than were read. -/
theorem scan_dateSubfieldIndex_le (sc : Bool) (l : List Nat) (st : RMCState) :
    (scan sc st l).dateSubfieldIndex ≤ st.dateSubfieldIndex + l.length := by
  induction l generalizing st with
  | nil => simp [scan]
  | cons c l ih =>
    by_cases hc : c = 0
    · simp [scan, hc]
    · rw [scan_cons sc st c l hc]
      have h1 := ih (step sc st c)
      have h2 := step_dateSubfieldIndex_le sc st c
      simp only [List.length_cons]
      omega

/-- After the tenth comma, and as long as the field index does not wrap, no
character of the date field is consumed. -/
theorem scan_dateSubfieldIndex_after (sc : Bool) (l : List Nat) (st : RMCState)
    (h10 : 10 ≤ st.nmeaFieldIndex) (h : st.nmeaFieldIndex + l.count 44 < 4294967296) :
    (scan sc st l).dateSubfieldIndex = st.dateSubfieldIndex := by
  induction l generalizing st with
  | nil => rfl
  | cons c l ih =>
    by_cases hc : c = 0
    · simp [scan, hc]
    · have hs := step_dateSubfieldIndex sc st c (by omega)
      by_cases h44 : c = 44
      · subst h44
        simp only [List.count_cons_self] at h
        have hf : (step sc st 44).nmeaFieldIndex = st.nmeaFieldIndex + 1 := by
          rw [step_nmeaFieldIndex, if_pos rfl]
          omega
        rw [scan_cons sc st 44 l hc, ih _ (by omega) (by omega), hs]
      · have hcount : (c :: l).count 44 = l.count 44 :=
          List.count_cons_of_ne (fun h => h44 h.symm) l
        rw [hcount] at h
        have hf : (step sc st c).nmeaFieldIndex = st.nmeaFieldIndex := by
          rw [step_nmeaFieldIndex, if_neg h44]
        rw [scan_cons sc st c l hc, ih _ (by omega) (by omega), hs]

/-- Partial telemetry: a sentence whose field 9 has fewer than six characters
(the field ends at a comma or at the end of the string) yields no timestamp,
whatever its time field and checksum. -/
theorem rmc_short_date_field (sc : Bool) (c0 : Nat) (a f9 rest : List Nat) (v : Nat)
    (ha : a.count 44 = 8) (hf : 44 ∉ f9) (hlen : f9.length < 6)
    (hrest : rest = [] ∨ ∃ r, rest = 44 :: r) (hsize : rest.length < 4294967296 - 10)
    (h : UnixTimeFromRMCString sc (some (c0 :: (a ++ (44 :: (f9 ++ rest))))) = some v) :
    v = 0 := by
  by_contra hv
  obtain ⟨-, -, -, hfin⟩ := UnixTimeFromRMCString_some sc _ v h hv
  rw [show (c0 :: (a ++ (44 :: (f9 ++ rest)))).drop 1 = a ++ (44 :: (f9 ++ rest)) from rfl]
    at hfin
  obtain ⟨-, -, -, hd6, -⟩ := finish_ne_zero _ (hfin ▸ hv)
  have hz : (scan sc initState a).dateSubfieldIndex = 0 := by
    rw [scan_dateSubfieldIndex sc a initState (by simp [initState, ha])]
    rfl
  by_cases h0 : 0 ∈ a
  · rw [scan_append_stop sc a _ h0] at hd6
    omega
  · have hnz : ∀ c ∈ a, c ≠ 0 := fun c hc h => h0 (h ▸ hc)
    have hfa : (scan sc initState a).nmeaFieldIndex = 8 := by
      rw [scan_nmeaFieldIndex sc a initState hnz (by simp [initState, ha]), ha]
      rfl
    rw [scan_append sc a _ hnz, scan_cons _ _ _ _ (by omega)] at hd6
    have hf1 : (step sc (scan sc initState a) 44).nmeaFieldIndex = 9 := by
      rw [step_nmeaFieldIndex, if_pos rfl, hfa]
    have hd1 : (step sc (scan sc initState a) 44).dateSubfieldIndex = 0 := by
      rw [step_dateSubfieldIndex _ _ _ (by omega), hz]
    have hle := scan_dateSubfieldIndex_le sc f9 (step sc (scan sc initState a) 44)
    by_cases h0f : 0 ∈ f9
    · rw [scan_append_stop sc f9 _ h0f] at hd6
      omega
    · have hnzf : ∀ c ∈ f9, c ≠ 0 := fun c hc h => h0f (h ▸ hc)
      rw [scan_append sc f9 _ hnzf] at hd6
      rcases hrest with hr | ⟨r, hr⟩
      · subst hr
        simp only [scan] at hd6
        omega
      · subst hr
        have hf2 : (scan sc (step sc (scan sc initState a) 44) f9).nmeaFieldIndex = 9 := by
          rw [scan_nmeaFieldIndex sc f9 _ hnzf
            (by rw [List.count_eq_zero_of_not_mem hf, hf1]; omega),
            List.count_eq_zero_of_not_mem hf, hf1]
        rw [scan_cons _ _ _ _ (by omega)] at hd6
        have hcl := step_clock sc (scan sc (step sc (scan sc initState a) 44) f9) 44
          (Or.inr (Or.inl rfl))
        simp only [RMCState.clock, Prod.mk.injEq] at hcl
        have hf3 : (step sc (scan sc (step sc (scan sc initState a) 44) f9) 44).nmeaFieldIndex
            = 10 := by
          rw [step_nmeaFieldIndex, if_pos rfl, hf2]
        have hcnt : r.count 44 ≤ r.length := List.count_le_length 44 r
        simp only [List.length_cons] at hsize
        rw [scan_dateSubfieldIndex_after sc r _ (by omega) (by omega), hcl.2.2.2.2.1] at hd6
        omega

set_option maxRecDepth 100000 in
/-- The partial-telemetry rule at a sentence with a time and an empty date
field. -/
theorem rmc_short_date_field_witness :
    UnixTimeFromRMCString true
      (some (bytes "$GNRMC,192503.00,V,,,,,,,,,,N,V*15")) = some 0 ∧ (0 : Nat) = 0 :=
  ⟨by decide,
   rmc_short_date_field true 36 (bytes "GNRMC,192503.00,V,,,,,,") [] (bytes ",,,N,V*15") 0
    (by decide) (by decide) (by decide) (Or.inr ⟨bytes ",,N,V*15", by decide⟩) (by decide)
    (by decide)⟩

/-- C5 (amended).  A string whose first character is not the dollar sign, or
that has at least five characters and whose character at index 5 is not C,
returns 0 whatever its fields and checksum. -/
theorem rmc_other_sentence_ignored (sc : Bool) (s : List Nat)
    (h : readChar s 0 ≠ some 36 ∨ (5 ≤ s.length ∧ readChar s 5 ≠ some 67)) :
    UnixTimeFromRMCString sc (some s) = some 0 := by
  unfold UnixTimeFromRMCString
  simp only []
  by_cases h0 : readChar s 0 = some 36
  · rcases h with h | ⟨hlen, h5⟩
    · exact absurd h0 h
    · rw [if_pos h0]
      cases hc5 : readChar s 5 with
      | none =>
        exfalso
        unfold readChar at hc5
        split_ifs at hc5 with g1 g2
        · rw [List.getElem?_eq_getElem g1] at hc5
          cases hc5
        · omega
      | some c5 =>
        simp only []
        rw [if_neg]
        intro hc
        rw [hc5, hc] at h5
        exact h5 rfl
  · rw [if_neg h0]

set_option maxRecDepth 100000 in
/-- C5 (amended), at a GGA sentence. -/
theorem rmc_other_sentence_ignored_witness :
    UnixTimeFromRMCString true (some (bytes
      "$GNGGA,192503.00,4420.87057,N,07111.35174,W,1,08,1.01,300.0,M,-33.0,M,,*7D")) = some 0 :=
  rmc_other_sentence_ignored true _ (Or.inr (by decide))

set_option maxRecDepth 100000 in
/-- C5 as stated fails: a sentence whose characters at indices 3 and 4 are not
R and M, but whose character at index 5 is C, is parsed like an RMC sentence. -/
theorem rmc_other_sentence_counterexample :
    (bytes "$GNXXC,192503.00,A,4420.87057,N,07111.35174,W,0.049,,231223,,,A,V*16")[3]?
      = some 88 ∧
    (bytes "$GNXXC,192503.00,A,4420.87057,N,07111.35174,W,0.049,,231223,,,A,V*16")[4]?
      = some 88 ∧
    UnixTimeFromRMCString true (some (bytes
      "$GNXXC,192503.00,A,4420.87057,N,07111.35174,W,0.049,,231223,,,A,V*16"))
      = some 1703359503 ∧
    UnixTimeFromRMCString false (some (bytes
      "$GNXXC,192503.00,A,4420.87057,N,07111.35174,W,0.049,,231223,,,A,V*16"))
      = some 1703359503 := by
  decide

set_option maxRecDepth 100000 in
/-- C6: the code reads out of bounds.  For the one-character string `$` the test
of `inString[5]` reads past the terminator; for a date field whose month digits
are 00 the index `month-1` of `kDaysTo` wraps to 4294967295. -/
theorem rmc_out_of_bounds_reads :
    UnixTimeFromRMCString true (some (bytes "$")) = none ∧
    UnixTimeFromRMCString true (some (bytes
      "$GNRMC,192503.00,A,4420.87057,N,07111.35174,W,0.049,,230023,,,A,V*0A")) = none ∧
    UnixTimeFromRMCString false (some (bytes
      "$GNRMC,192503.00,A,4420.87057,N,07111.35174,W,0.049,,230023,,,A,V*0A")) = none ∧
    (dateSubfield { initState with dateSubfieldIndex := 3 } 0).inBounds = false := by
  decide


theorem xor_xor_cancel (a b x : Nat) : (a ^^^ x) ^^^ (b ^^^ x) = a ^^^ b := by
  rw [Nat.xor_assoc, Nat.xor_comm x, Nat.xor_assoc, Nat.xor_self, Nat.xor_zero]

/-- Two runs that agree on the asterisk flag and on `expectedCRC` keep agreeing
on them, and the difference of their `crc` values stays what it was. -/
theorem step_crc_rel (sc : Bool) (st st' : RMCState) (c : Nat)
    (ha : st.crcAsteriskHit = st'.crcAsteriskHit) (he : st.expectedCRC = st'.expectedCRC) :
    (step sc st c).crcAsteriskHit = (step sc st' c).crcAsteriskHit ∧
    (step sc st c).expectedCRC = (step sc st' c).expectedCRC ∧
    (step sc st c).crc ^^^ (step sc st' c).crc = st.crc ^^^ st'.crc := by
  refine ⟨?_, ?_, ?_⟩
  · rw [step_crcAsteriskHit, step_crcAsteriskHit, ha]
  · rw [step_expectedCRC, step_expectedCRC, ha, he]
  · rw [step_crc, step_crc, ha]
    split_ifs
    · rfl
    · exact xor_xor_cancel _ _ _
    · rfl

theorem scan_crc_rel (sc : Bool) (l : List Nat) (st st' : RMCState)
    (ha : st.crcAsteriskHit = st'.crcAsteriskHit) (he : st.expectedCRC = st'.expectedCRC) :
    (scan sc st l).crcAsteriskHit = (scan sc st' l).crcAsteriskHit ∧
    (scan sc st l).expectedCRC = (scan sc st' l).expectedCRC ∧
    (scan sc st l).crc ^^^ (scan sc st' l).crc = st.crc ^^^ st'.crc := by
  induction l generalizing st st' with
  | nil => exact ⟨ha, he, rfl⟩
  | cons c l ih =>
    by_cases hc : c = 0
    · subst hc
      exact ⟨ha, he, rfl⟩
    · obtain ⟨s1, s2, s3⟩ := step_crc_rel sc st st' c ha he
      rw [scan_cons sc st c l hc, scan_cons sc st' c l hc]
      obtain ⟨i1, i2, i3⟩ := ih _ _ s1 s2
      exact ⟨i1, i2, by rw [i3, s3]⟩

/-- The three possible outcomes of a call. -/
theorem UnixTimeFromRMCString_cases (sc : Bool) (s : List Nat) :
    UnixTimeFromRMCString sc (some s) = some 0 ∨ UnixTimeFromRMCString sc (some s) = none ∨
    UnixTimeFromRMCString sc (some s) = some (finish (scan sc initState (s.drop 1))) := by
  unfold UnixTimeFromRMCString
  simp only []
  by_cases h0 : readChar s 0 = some 36
  · rw [if_pos h0]
    cases hc5 : readChar s 5 with
    | none => right; left; rfl
    | some c5 =>
      simp only []
      by_cases h67 : c5 = 67
      · rw [if_pos h67]
        by_cases hib : (scan sc initState (s.drop 1)).inBounds = true
        · rw [if_pos hib]; right; right; rfl
        · rw [if_neg hib]; right; left; rfl
      · rw [if_neg h67]; left; rfl
  · rw [if_neg h0]; left; rfl

/-- C4 (amended).  For a sentence that returns a non-zero value, replacing one
character strictly between the leading dollar sign and the first asterisk by a
different byte that is neither NUL nor an asterisk yields no timestamp: the
call returns 0, or it has no result because the changed month digits index
outside `kDaysTo`. -/
theorem rmc_single_char_corruption (sc : Bool) (a b : List Nat) (old new v : Nat)
    (ha : a ≠ []) (hstar : 42 ∉ a) (hold : old ≠ 42)
    (hnew0 : new ≠ 0) (hnew42 : new ≠ 42) (hne : new ≠ old)
    (hold256 : old < 256) (hnew256 : new < 256)
    (h : UnixTimeFromRMCString sc (some (a ++ old :: b)) = some v) (hv : v ≠ 0) :
    UnixTimeFromRMCString sc (some (a ++ new :: b)) = some 0 ∨
    UnixTimeFromRMCString sc (some (a ++ new :: b)) = none := by
  obtain ⟨x, a', rfl⟩ := List.exists_cons_of_ne_nil ha
  have hstar' : 42 ∉ a' := fun h => hstar (by simp [h])
  obtain ⟨-, -, -, hfin⟩ := UnixTimeFromRMCString_some sc _ v h hv
  rw [show (x :: a' ++ old :: b).drop 1 = a' ++ old :: b from rfl] at hfin
  obtain ⟨hast, hcrc, -, -, -⟩ := finish_ne_zero _ (hfin ▸ hv)
  have hA : (scan sc initState a').crcAsteriskHit = false :=
    scan_crcAsteriskHit_false sc a' initState rfl hstar'
  -- the scan of the original reaches the replaced character
  have h0 : ∀ c ∈ a', c ≠ 0 := by
    intro c hc hc0
    subst hc0
    rw [scan_append_stop sc a' _ hc, hA] at hast
    cases hast
  rw [scan_append sc a' _ h0] at hast hcrc
  have hold0 : old ≠ 0 := by
    intro hc0
    subst hc0
    simp only [scan, if_true] at hast
    rw [hA] at hast
    cases hast
  rw [scan_cons _ _ _ _ hold0] at hast hcrc
  -- the two runs after the replaced character
  have r1 : (step sc (scan sc initState a') old).crcAsteriskHit =
      (step sc (scan sc initState a') new).crcAsteriskHit := by
    rw [step_crcAsteriskHit, step_crcAsteriskHit]
    simp [hold, hnew42]
  have r2 : (step sc (scan sc initState a') old).expectedCRC =
      (step sc (scan sc initState a') new).expectedCRC := by
    rw [step_expectedCRC, step_expectedCRC, hA]
    simp
  have r3 : (step sc (scan sc initState a') old).crc ^^^
      (step sc (scan sc initState a') new).crc = old ^^^ new := by
    rw [step_crc, step_crc, if_neg hold, if_neg hnew42, if_pos (Or.inr hA), if_pos (Or.inr hA),
      Nat.mod_eq_of_lt hold256, Nat.mod_eq_of_lt hnew256,
      Nat.xor_comm _ old, Nat.xor_comm _ new, xor_xor_cancel]
  obtain ⟨-, q2, q3⟩ := scan_crc_rel sc b _ _ r1 r2
  rw [r3] at q3
  have hbad : (scan sc initState (a' ++ new :: b)).crc ≠
      (scan sc initState (a' ++ new :: b)).expectedCRC := by
    rw [scan_append sc a' _ h0, scan_cons _ _ _ _ hnew0]
    intro heq
    rw [← q2, ← hcrc] at heq
    rw [heq, Nat.xor_self] at q3
    exact hne (Nat.xor_eq_zero.mp q3.symm).symm
  rcases UnixTimeFromRMCString_cases sc (x :: a' ++ new :: b) with hr | hr | hr
  · exact Or.inl hr
  · exact Or.inr hr
  · left
    rw [hr, show (x :: a' ++ new :: b).drop 1 = a' ++ new :: b from rfl]
    unfold finish
    rw [if_neg (fun hh => hbad hh.2)]

set_option maxRecDepth 100000 in
/-- C4 (amended), at the sentence of the source comment with the digit at
index 8 changed from 9 to 8. -/
theorem rmc_single_char_corruption_witness :
    UnixTimeFromRMCString true (some (bytes "$GNRMC,1" ++ 56 ::
      bytes "2503.00,A,4420.87057,N,07111.35174,W,0.049,,231223,,,A,V*09")) = some 0 ∨
    UnixTimeFromRMCString true (some (bytes "$GNRMC,1" ++ 56 ::
      bytes "2503.00,A,4420.87057,N,07111.35174,W,0.049,,231223,,,A,V*09")) = none :=
  rmc_single_char_corruption true (bytes "$GNRMC,1")
    (bytes "2503.00,A,4420.87057,N,07111.35174,W,0.049,,231223,,,A,V*09") 57 56 1703359503
    (by decide) (by decide) (by decide) (by decide) (by decide) (by decide) (by decide)
    (by decide) (by decide) (by decide)

set_option maxRecDepth 100000 in
/-- C4 as stated fails: in a sentence that parses to 1703359503, replacing the
character at index 62 (an A, before the asterisk at index 65) by an asterisk
gives a sentence that still parses to 1703359503. -/
theorem rmc_single_char_corruption_counterexample :
    UnixTimeFromRMCString true (some (bytes
      "$GNRMC,192503.00,A,4420.87057,N,07111.35174,W,0.049,,231223,,,A,A*1E"))
      = some 1703359503 ∧
    (bytes "$GNRMC,192503.00,A,4420.87057,N,07111.35174,W,0.049,,231223,,,A,A*1E").indexOf 42
      = 65 ∧
    (bytes "$GNRMC,192503.00,A,4420.87057,N,07111.35174,W,0.049,,231223,,,A,A*1E")[62]?
      = some 65 ∧
    (bytes "$GNRMC,192503.00,A,4420.87057,N,07111.35174,W,0.049,,231223,,,A,A*1E").set 62 42
      = bytes "$GNRMC,192503.00,A,4420.87057,N,07111.35174,W,0.049,,231223,,,*,A*1E" ∧
    UnixTimeFromRMCString true (some (bytes
      "$GNRMC,192503.00,A,4420.87057,N,07111.35174,W,0.049,,231223,,,*,A*1E"))
      = some 1703359503 ∧
    UnixTimeFromRMCString false (some (bytes
      "$GNRMC,192503.00,A,4420.87057,N,07111.35174,W,0.049,,231223,,,*,A*1E"))
      = some 1703359503 := by
  decide


/-! ## The calendar walk -/

theorem daysInYear_pos (y : Nat) : 365 ≤ daysInYear y ∧ daysInYear y ≤ 366 := by
  unfold daysInYear
  split_ifs <;> omega

/-- The walk ends inside a year when it may take as many steps as there are
days. -/
theorem yearWalk_lt (fuel : Nat) : ∀ year days, days ≤ fuel →
    (yearWalk fuel year days).2 < daysInYear (yearWalk fuel year days).1 := by
  induction fuel with
  | zero =>
    intro year days h
    have := daysInYear_pos year
    simp only [yearWalk]
    omega
  | succ n ih =>
    intro year days h
    have hp := daysInYear_pos year
    simp only [yearWalk]
    split_ifs with hge
    · exact ih _ _ (by omega)
    · simp only []
      omega

set_option maxRecDepth 100000 in
theorem monthOf_kDaysTo : ∀ d, d < 365 →
    1 ≤ monthOf kDaysTo d ∧ monthOf kDaysTo d ≤ 12 ∧
    kDaysTo.getD (monthOf kDaysTo d - 1) 0 ≤ d ∧
    d - kDaysTo.getD (monthOf kDaysTo d - 1) 0 + 1 ≤ 31 := by
  decide

set_option maxRecDepth 100000 in
theorem monthOf_kDaysToLY : ∀ d, d < 366 →
    1 ≤ monthOf kDaysToLY d ∧ monthOf kDaysToLY d ≤ 12 ∧
    kDaysToLY.getD (monthOf kDaysToLY d - 1) 0 ≤ d ∧
    d - kDaysToLY.getD (monthOf kDaysToLY d - 1) 0 + 1 ≤ 31 := by
  decide

theorem monthDay_range (y d : Nat) (hw : d < daysInYear y) :
    1 ≤ monthOf (if y % 4 = 0 then kDaysToLY else kDaysTo) d ∧
    monthOf (if y % 4 = 0 then kDaysToLY else kDaysTo) d ≤ 12 ∧
    1 ≤ d - (if y % 4 = 0 then kDaysToLY else kDaysTo).getD
          (monthOf (if y % 4 = 0 then kDaysToLY else kDaysTo) d - 1) 0 + 1 ∧
    d - (if y % 4 = 0 then kDaysToLY else kDaysTo).getD
          (monthOf (if y % 4 = 0 then kDaysToLY else kDaysTo) d - 1) 0 + 1 ≤ 31 ∧
    1 ≤ (if decide (y % 4 = 0) then kDaysToLY else kDaysTo).getD
          (monthOf (if y % 4 = 0 then kDaysToLY else kDaysTo) d - 1) 0 +
        (d - (if y % 4 = 0 then kDaysToLY else kDaysTo).getD
          (monthOf (if y % 4 = 0 then kDaysToLY else kDaysTo) d - 1) 0 + 1) ∧
    (if decide (y % 4 = 0) then kDaysToLY else kDaysTo).getD
          (monthOf (if y % 4 = 0 then kDaysToLY else kDaysTo) d - 1) 0 +
        (d - (if y % 4 = 0 then kDaysToLY else kDaysTo).getD
          (monthOf (if y % 4 = 0 then kDaysToLY else kDaysTo) d - 1) 0 + 1) ≤ 366 := by
  unfold daysInYear at hw
  by_cases hly : y % 4 = 0
  · simp only [hly, if_true, decide_True] at hw ⊢
    have h := monthOf_kDaysToLY d hw
    omega
  · simp only [hly, if_false, decide_False, Bool.false_eq_true] at hw ⊢
    have h := monthOf_kDaysTo d hw
    omega

/-- The date that `DateComponents` delivers: a month 1..12, a day 1..31, and an
ordinal day of the year 1..366. -/
theorem DateComponents_range (t : Nat) :
    1 ≤ (DateComponents t).2.2.1 ∧ (DateComponents t).2.2.1 ≤ 12 ∧
    1 ≤ (DateComponents t).2.2.2 ∧ (DateComponents t).2.2.2 ≤ 31 ∧
    1 ≤ (if decide ((DateComponents t).2.1 % 4 = 0) then kDaysToLY else kDaysTo).getD
          ((DateComponents t).2.2.1 - 1) 0 + (DateComponents t).2.2.2 ∧
    (if decide ((DateComponents t).2.1 % 4 = 0) then kDaysToLY else kDaysTo).getD
          ((DateComponents t).2.2.1 - 1) 0 + (DateComponents t).2.2.2 ≤ 366 :=
  monthDay_range _ _ (yearWalk_lt (t / kOneDay) 1970 (t / kOneDay) (le_refl _))

theorem tableAt_month (isLY : Bool) (month : Nat) (h1 : 1 ≤ month) (h12 : month ≤ 12) :
    tableAt (if isLY then kDaysToLY else kDaysTo) ((month : Int) - 1) =
      some ((if isLY then kDaysToLY else kDaysTo).getD (month - 1) 0) := by
  interval_cases month <;> cases isLY <;> rfl

set_option maxRecDepth 100000 in
theorem To8421_bits : ∀ v, v < 256 →
    (To8421 v).e0 ≤ 1 ∧ (To8421 v).e1 ≤ 1 ∧ (To8421 v).e2 ≤ 1 ∧ (To8421 v).e3 ≤ 1 := by
  decide

set_option maxRecDepth 100000 in
theorem To8421_value : ∀ v, v < 16 →
    8 * (To8421 v).e0 + 4 * (To8421 v).e1 + 2 * (To8421 v).e2 + (To8421 v).e3 = v := by
  decide

set_option maxRecDepth 100000 in
theorem To8421_high : ∀ v, v < 8 → (To8421 v).e0 = 0 := by
  decide

theorem dstStatusFor_le (t month day : Nat) : dstStatusFor t month day ≤ 3 := by
  unfold dstStatusFor eDST_BeginsToday eDST_InEffect eDST_NotInEffect eDST_EndsToday
  simp only []
  split_ifs <;> omega


/-- `LoadTimeCodeStruct` always returns a frame, and every member of the frame
is written: the members of the result, one by one. -/
theorem LoadTimeCodeStruct_fields (t : Nat) (outTCS : SWWVBTimeCode) :
    ∃ f, LoadTimeCodeStruct t outTCS = some f ∧
      f.minutes10 = { To8421 (((TimeComponents (DateComponents t).1).2.1 / 10) % 256)
                      with e0 := 2 } ∧
      f.z0 = 0 ∧
      f.minutes1 = To8421 (((TimeComponents (DateComponents t).1).2.1 % 10) % 256) ∧
      f.p1 = 2 ∧
      f.hours10 = To8421 (((TimeComponents (DateComponents t).1).1 / 10) % 256) ∧
      f.z1 = 0 ∧
      f.hours1 = To8421 (((TimeComponents (DateComponents t).1).1 % 10) % 256) ∧
      f.p2 = 2 ∧
      f.dayOfYear100 = To8421 ((((
        (if decide ((DateComponents t).2.1 % 4 = 0) then kDaysToLY else kDaysTo).getD
          ((DateComponents t).2.2.1 - 1) 0 + (DateComponents t).2.2.2) % 65536) / 100) % 256) ∧
      f.z2 = 0 ∧
      f.dayOfYear10 = To8421 (((((
        (if decide ((DateComponents t).2.1 % 4 = 0) then kDaysToLY else kDaysTo).getD
          ((DateComponents t).2.2.1 - 1) 0 + (DateComponents t).2.2.2) % 65536) % 100) / 10)
          % 256) ∧
      f.p3 = 2 ∧
      f.dayOfYear1 = To8421 (((((
        (if decide ((DateComponents t).2.1 % 4 = 0) then kDaysToLY else kDaysTo).getD
          ((DateComponents t).2.2.1 - 1) 0 + (DateComponents t).2.2.2) % 65536) % 100) % 10)
          % 256) ∧
      f.z3 = 0 ∧
      f.dutSign = To8421 eDUT_Negative ∧
      f.p4 = 2 ∧
      f.dutValue = To8421 3 ∧
      f.z4 = 0 ∧
      f.year10 = To8421 ((((DateComponents t).2.1 % 100) / 10) % 256) ∧
      f.p5 = 2 ∧
      f.year1 = To8421 ((((DateComponents t).2.1 % 100) % 10) % 256) ∧
      f.z5 = 0 ∧
      f.leapYearIndicator = (if decide ((DateComponents t).2.1 % 4 = 0) then 1 else 0) ∧
      f.leapSecondAtEOM = 0 ∧
      f.dstStatus =
        { e0 := dstStatusFor t (DateComponents t).2.2.1 (DateComponents t).2.2.2 >>> 1,
          e1 := dstStatusFor t (DateComponents t).2.2.1 (DateComponents t).2.2.2 &&& 1 } ∧
      f.p0 = 2 := by
  obtain ⟨h1, h12, -⟩ := DateComponents_range t
  unfold LoadTimeCodeStruct
  simp only []
  rw [tableAt_month _ _ h1 h12]
  exact ⟨_, rfl, rfl, rfl, rfl, rfl, rfl, rfl, rfl, rfl, rfl, rfl, rfl, rfl, rfl, rfl, rfl, rfl,
    rfl, rfl, rfl, rfl, rfl, rfl, rfl, rfl, rfl, rfl⟩


/-- A list of 60 slots with 2 at the marker positions, 0 at the filler
positions and at most 1 elsewhere is a well-formed frame. -/
theorem slots_wellformed
    (a1 a2 a3 b0 b1 b2 b3 c0 c1 c2 c3 d0 d1 d2 d3 e0 e1 e2 e3 f0 f1 f2 f3 g0 g1 g2 g3
     h0 h1 h2 h3 i0 i1 i2 i3 j0 j1 j2 j3 k0 k1 k2 k3 ly ls s0 s1 : Nat)
    (ha1 : a1 ≤ 1) (ha2 : a2 ≤ 1) (ha3 : a3 ≤ 1)
    (hb0 : b0 ≤ 1) (hb1 : b1 ≤ 1) (hb2 : b2 ≤ 1) (hb3 : b3 ≤ 1)
    (hc0 : c0 ≤ 1) (hc1 : c1 ≤ 1) (hc2 : c2 ≤ 1) (hc3 : c3 ≤ 1)
    (hd0 : d0 ≤ 1) (hd1 : d1 ≤ 1) (hd2 : d2 ≤ 1) (hd3 : d3 ≤ 1)
    (he0 : e0 ≤ 1) (he1 : e1 ≤ 1) (he2 : e2 ≤ 1) (he3 : e3 ≤ 1)
    (hf0 : f0 ≤ 1) (hf1 : f1 ≤ 1) (hf2 : f2 ≤ 1) (hf3 : f3 ≤ 1)
    (hg0 : g0 ≤ 1) (hg1 : g1 ≤ 1) (hg2 : g2 ≤ 1) (hg3 : g3 ≤ 1)
    (hh0 : h0 ≤ 1) (hh1 : h1 ≤ 1) (hh2 : h2 ≤ 1) (hh3 : h3 ≤ 1)
    (hi0 : i0 ≤ 1) (hi1 : i1 ≤ 1) (hi2 : i2 ≤ 1) (hi3 : i3 ≤ 1)
    (hj0 : j0 ≤ 1) (hj1 : j1 ≤ 1) (hj2 : j2 ≤ 1) (hj3 : j3 ≤ 1)
    (hk0 : k0 ≤ 1) (hk1 : k1 ≤ 1) (hk2 : k2 ≤ 1) (hk3 : k3 ≤ 1)
    (hly : ly ≤ 1) (hls : ls ≤ 1) (hs0 : s0 ≤ 1) (hs1 : s1 ≤ 1) (i : Nat) (hi : i < 60) :
    [2, a1, a2, a3, 0, b0, b1, b2, b3, 2, c0, c1, c2, c3, 0, d0, d1, d2, d3, 2,
      e0, e1, e2, e3, 0, f0, f1, f2, f3, 2, g0, g1, g2, g3, 0, h0, h1, h2, h3, 2,
      i0, i1, i2, i3, 0, j0, j1, j2, j3, 2, k0, k1, k2, k3, 0, ly, ls, s0, s1, 2].getD i 0 ≤ 2 ∧
    ([2, a1, a2, a3, 0, b0, b1, b2, b3, 2, c0, c1, c2, c3, 0, d0, d1, d2, d3, 2,
      e0, e1, e2, e3, 0, f0, f1, f2, f3, 2, g0, g1, g2, g3, 0, h0, h1, h2, h3, 2,
      i0, i1, i2, i3, 0, j0, j1, j2, j3, 2, k0, k1, k2, k3, 0, ly, ls, s0, s1, 2].getD i 0 = 2
      ↔ i ∈ [0, 9, 19, 29, 39, 49, 59]) := by
  interval_cases i <;> simp <;> omega


theorem dst_bits : ∀ v, v < 4 → v >>> 1 ≤ 1 ∧ v &&& 1 ≤ 1 := by
  decide

/-- C8.  For every time value the frame built by `LoadTimeCodeStruct`, read as
the 60 consecutive slots 0..59, has every slot in {0, 1, 2}, has the value 2
exactly at the slots 0, 9, 19, 29, 39, 49 and 59, and has 0 at the filler slots
4, 14, 24, 34, 44 and 54. -/
theorem frame_wellformed (t : Nat) (outTCS : SWWVBTimeCode) :
    ∃ f, LoadTimeCodeStruct t outTCS = some f ∧ f.slots.length = 60 ∧
      (∀ i, i < 60 → f.slot i ≤ 2 ∧ (f.slot i = 2 ↔ i ∈ [0, 9, 19, 29, 39, 49, 59])) ∧
      (∀ i ∈ [4, 14, 24, 34, 44, 54], f.slot i = 0) := by
  obtain ⟨f, hf, m10, z0, m1, p1, h10, z1, h1, p2, d100, z2, d10, p3, d1, z3, ds, p4, dv, z4,
    y10, p5, y1, z5, ly, ls, dst, p0⟩ := LoadTimeCodeStruct_fields t outTCS
  refine ⟨f, hf, rfl, ?_, ?_⟩
  · intro i hi
    have b := fun v => To8421_bits (v % 256) (Nat.mod_lt _ (by omega))
    have b2 := To8421_bits eDUT_Negative (by decide)
    have b3 := To8421_bits 3 (by decide)
    have bd := dst_bits _ (Nat.lt_succ_of_le
      (dstStatusFor_le t (DateComponents t).2.2.1 (DateComponents t).2.2.2))
    have hly : f.leapYearIndicator ≤ 1 := by
      rw [ly]
      split_ifs <;> omega
    have hm0 : f.minutes10.e0 = 2 := by rw [m10]
    have hm1 : f.minutes10.e1 ≤ 1 := by rw [m10]; exact (b _).2.1
    have hm2 : f.minutes10.e2 ≤ 1 := by rw [m10]; exact (b _).2.2.1
    have hm3 : f.minutes10.e3 ≤ 1 := by rw [m10]; exact (b _).2.2.2
    have k := slots_wellformed f.minutes10.e1 f.minutes10.e2 f.minutes10.e3
      f.minutes1.e0 f.minutes1.e1 f.minutes1.e2 f.minutes1.e3
      f.hours10.e0 f.hours10.e1 f.hours10.e2 f.hours10.e3
      f.hours1.e0 f.hours1.e1 f.hours1.e2 f.hours1.e3
      f.dayOfYear100.e0 f.dayOfYear100.e1 f.dayOfYear100.e2 f.dayOfYear100.e3
      f.dayOfYear10.e0 f.dayOfYear10.e1 f.dayOfYear10.e2 f.dayOfYear10.e3
      f.dayOfYear1.e0 f.dayOfYear1.e1 f.dayOfYear1.e2 f.dayOfYear1.e3
      f.dutSign.e0 f.dutSign.e1 f.dutSign.e2 f.dutSign.e3
      f.dutValue.e0 f.dutValue.e1 f.dutValue.e2 f.dutValue.e3
      f.year10.e0 f.year10.e1 f.year10.e2 f.year10.e3
      f.year1.e0 f.year1.e1 f.year1.e2 f.year1.e3
      f.leapYearIndicator f.leapSecondAtEOM f.dstStatus.e0 f.dstStatus.e1
      hm1 hm2 hm3
      (by rw [m1]; exact (b _).1) (by rw [m1]; exact (b _).2.1)
      (by rw [m1]; exact (b _).2.2.1) (by rw [m1]; exact (b _).2.2.2)
      (by rw [h10]; exact (b _).1) (by rw [h10]; exact (b _).2.1)
      (by rw [h10]; exact (b _).2.2.1) (by rw [h10]; exact (b _).2.2.2)
      (by rw [h1]; exact (b _).1) (by rw [h1]; exact (b _).2.1)
      (by rw [h1]; exact (b _).2.2.1) (by rw [h1]; exact (b _).2.2.2)
      (by rw [d100]; exact (b _).1) (by rw [d100]; exact (b _).2.1)
      (by rw [d100]; exact (b _).2.2.1) (by rw [d100]; exact (b _).2.2.2)
      (by rw [d10]; exact (b _).1) (by rw [d10]; exact (b _).2.1)
      (by rw [d10]; exact (b _).2.2.1) (by rw [d10]; exact (b _).2.2.2)
      (by rw [d1]; exact (b _).1) (by rw [d1]; exact (b _).2.1)
      (by rw [d1]; exact (b _).2.2.1) (by rw [d1]; exact (b _).2.2.2)
      (by rw [ds]; exact b2.1) (by rw [ds]; exact b2.2.1)
      (by rw [ds]; exact b2.2.2.1) (by rw [ds]; exact b2.2.2.2)
      (by rw [dv]; exact b3.1) (by rw [dv]; exact b3.2.1)
      (by rw [dv]; exact b3.2.2.1) (by rw [dv]; exact b3.2.2.2)
      (by rw [y10]; exact (b _).1) (by rw [y10]; exact (b _).2.1)
      (by rw [y10]; exact (b _).2.2.1) (by rw [y10]; exact (b _).2.2.2)
      (by rw [y1]; exact (b _).1) (by rw [y1]; exact (b _).2.1)
      (by rw [y1]; exact (b _).2.2.1) (by rw [y1]; exact (b _).2.2.2)
      hly (by rw [ls]; omega) (by rw [dst]; exact bd.1) (by rw [dst]; exact bd.2) i hi
    have hs : f.slots = [2, f.minutes10.e1, f.minutes10.e2, f.minutes10.e3, 0,
      f.minutes1.e0, f.minutes1.e1, f.minutes1.e2, f.minutes1.e3, 2,
      f.hours10.e0, f.hours10.e1, f.hours10.e2, f.hours10.e3, 0,
      f.hours1.e0, f.hours1.e1, f.hours1.e2, f.hours1.e3, 2,
      f.dayOfYear100.e0, f.dayOfYear100.e1, f.dayOfYear100.e2, f.dayOfYear100.e3, 0,
      f.dayOfYear10.e0, f.dayOfYear10.e1, f.dayOfYear10.e2, f.dayOfYear10.e3, 2,
      f.dayOfYear1.e0, f.dayOfYear1.e1, f.dayOfYear1.e2, f.dayOfYear1.e3, 0,
      f.dutSign.e0, f.dutSign.e1, f.dutSign.e2, f.dutSign.e3, 2,
      f.dutValue.e0, f.dutValue.e1, f.dutValue.e2, f.dutValue.e3, 0,
      f.year10.e0, f.year10.e1, f.year10.e2, f.year10.e3, 2,
      f.year1.e0, f.year1.e1, f.year1.e2, f.year1.e3, 0,
      f.leapYearIndicator, f.leapSecondAtEOM, f.dstStatus.e0, f.dstStatus.e1, 2] := by
      unfold SWWVBTimeCode.slots
      rw [hm0, z0, p1, z1, p2, z2, p3, z3, p4, z4, p5, z5, p0]
    unfold SWWVBTimeCode.slot
    rw [hs]
    exact k
  · intro i hi
    simp only [List.mem_cons, List.mem_singleton, List.not_mem_nil, or_false] at hi
    rcases hi with hi | hi | hi | hi | hi | hi <;> subst hi
    · exact z0
    · exact z1
    · exact z2
    · exact z3
    · exact z4
    · exact z5


set_option maxRecDepth 100000 in
theorem To8421_low : ∀ v, v < 4 → (To8421 v).e0 = 0 ∧ (To8421 v).e1 = 0 := by
  decide

/-- C10.  The frame carries the date of `t`: with (year, month, day) the date
components of `t`, the slots 22..33 encode the ordinal day of the year (the
entry of the cumulative-days table chosen by year mod 4 = 0, plus the day; a
number in 1..366), the slots 45..53 encode year mod 100, slot 55 is 1 exactly
when year mod 4 = 0 (and 0 otherwise), and slot 56 is 0. -/
theorem frame_carries_date (t : Nat) (outTCS : SWWVBTimeCode) :
    ∃ f, LoadTimeCodeStruct t outTCS = some f ∧
      1 ≤ (if decide ((DateComponents t).2.1 % 4 = 0) then kDaysToLY else kDaysTo).getD
            ((DateComponents t).2.2.1 - 1) 0 + (DateComponents t).2.2.2 ∧
      (if decide ((DateComponents t).2.1 % 4 = 0) then kDaysToLY else kDaysTo).getD
            ((DateComponents t).2.2.1 - 1) 0 + (DateComponents t).2.2.2 ≤ 366 ∧
      200 * f.slot 22 + 100 * f.slot 23 + 80 * f.slot 25 + 40 * f.slot 26 + 20 * f.slot 27
          + 10 * f.slot 28 + 8 * f.slot 30 + 4 * f.slot 31 + 2 * f.slot 32 + f.slot 33 =
        (if decide ((DateComponents t).2.1 % 4 = 0) then kDaysToLY else kDaysTo).getD
            ((DateComponents t).2.2.1 - 1) 0 + (DateComponents t).2.2.2 ∧
      80 * f.slot 45 + 40 * f.slot 46 + 20 * f.slot 47 + 10 * f.slot 48 + 8 * f.slot 50
          + 4 * f.slot 51 + 2 * f.slot 52 + f.slot 53 = (DateComponents t).2.1 % 100 ∧
      (f.slot 55 = 1 ↔ (DateComponents t).2.1 % 4 = 0) ∧
      (f.slot 55 = 0 ↔ (DateComponents t).2.1 % 4 ≠ 0) ∧
      f.slot 56 = 0 := by
  obtain ⟨f, hf, -, -, -, -, -, -, -, -, d100, -, d10, -, d1, -, -, -, -, -,
    y10, -, y1, -, ly, ls, -, -⟩ := LoadTimeCodeStruct_fields t outTCS
  obtain ⟨-, -, -, -, hd1, hd366⟩ := DateComponents_range t
  refine ⟨f, hf, hd1, hd366, ?_, ?_, ?_, ?_, ls⟩
  · generalize (if decide ((DateComponents t).2.1 % 4 = 0) then kDaysToLY else kDaysTo).getD
      ((DateComponents t).2.2.1 - 1) 0 + (DateComponents t).2.2.2 = doy at d100 d10 d1 hd1 hd366
    have e1 : doy % 65536 = doy := by omega
    rw [e1] at d100 d10 d1
    have v100 := To8421_value (doy / 100 % 256) (by omega)
    have l100 := To8421_low (doy / 100 % 256) (by omega)
    have v10 := To8421_value (doy % 100 / 10 % 256) (by omega)
    have v1 := To8421_value (doy % 100 % 10 % 256) (by omega)
    rw [← d100] at v100 l100
    rw [← d10] at v10
    rw [← d1] at v1
    show 200 * f.dayOfYear100.e2 + 100 * f.dayOfYear100.e3 + 80 * f.dayOfYear10.e0
      + 40 * f.dayOfYear10.e1 + 20 * f.dayOfYear10.e2 + 10 * f.dayOfYear10.e3
      + 8 * f.dayOfYear1.e0 + 4 * f.dayOfYear1.e1 + 2 * f.dayOfYear1.e2 + f.dayOfYear1.e3 = doy
    omega
  · generalize (DateComponents t).2.1 = year at y10 y1
    have v10 := To8421_value (year % 100 / 10 % 256) (by omega)
    have v1 := To8421_value (year % 100 % 10 % 256) (by omega)
    rw [← y10] at v10
    rw [← y1] at v1
    show 80 * f.year10.e0 + 40 * f.year10.e1 + 20 * f.year10.e2 + 10 * f.year10.e3
      + 8 * f.year1.e0 + 4 * f.year1.e1 + 2 * f.year1.e2 + f.year1.e3 = year % 100
    omega
  · show f.leapYearIndicator = 1 ↔ _
    rw [ly]
    by_cases h : (DateComponents t).2.1 % 4 = 0 <;> simp [h]
  · show f.leapYearIndicator = 0 ↔ _
    rw [ly]
    by_cases h : (DateComponents t).2.1 % 4 = 0 <;> simp [h]

/-- The time of day in the frame is the time of day of the value that
`DateComponents` returns: slots 1..8 encode its minute and slots 10..18 its
hour. -/
theorem frame_time_of_returned_value (t : Nat) (outTCS : SWWVBTimeCode) :
    ∃ f, LoadTimeCodeStruct t outTCS = some f ∧
      40 * f.slot 1 + 20 * f.slot 2 + 10 * f.slot 3 + 8 * f.slot 5 + 4 * f.slot 6
          + 2 * f.slot 7 + f.slot 8 = ((DateComponents t).1 / 60) % 60 ∧
      f.slot 10 = 0 ∧ f.slot 11 = 0 ∧
      20 * f.slot 12 + 10 * f.slot 13 + 8 * f.slot 15 + 4 * f.slot 16 + 2 * f.slot 17
          + f.slot 18 = ((DateComponents t).1 / 3600) % 24 := by
  obtain ⟨f, hf, m10, -, m1, -, h10, -, h1, -, -⟩ := LoadTimeCodeStruct_fields t outTCS
  refine ⟨f, hf, ?_, ?_, ?_, ?_⟩
  all_goals
    generalize (DateComponents t).1 = r at m10 m1 h10 h1
    unfold TimeComponents kOneDay kOneHour kOneMinute at m10 m1 h10 h1
    simp only [] at m10 m1 h10 h1
  · have a10 := To8421_value (r % 86400 % 3600 / 60 / 10 % 256) (by omega)
    have a1 := To8421_value (r % 86400 % 3600 / 60 % 10 % 256) (by omega)
    have e1 : f.minutes10.e1 = (To8421 (r % 86400 % 3600 / 60 / 10 % 256)).e1 := by rw [m10]
    have e2 : f.minutes10.e2 = (To8421 (r % 86400 % 3600 / 60 / 10 % 256)).e2 := by rw [m10]
    have e3 : f.minutes10.e3 = (To8421 (r % 86400 % 3600 / 60 / 10 % 256)).e3 := by rw [m10]
    have e0 := To8421_high (r % 86400 % 3600 / 60 / 10 % 256) (by omega)
    rw [← m1] at a1
    show 40 * f.minutes10.e1 + 20 * f.minutes10.e2 + 10 * f.minutes10.e3 + 8 * f.minutes1.e0
      + 4 * f.minutes1.e1 + 2 * f.minutes1.e2 + f.minutes1.e3 = r / 60 % 60
    rw [e1, e2, e3]
    omega
  · show f.hours10.e0 = 0
    rw [h10]
    exact (To8421_low _ (by omega)).1
  · show f.hours10.e1 = 0
    rw [h10]
    exact (To8421_low _ (by omega)).2
  · have a10 := To8421_value (r % 86400 / 3600 / 10 % 256) (by omega)
    have l10 := To8421_low (r % 86400 / 3600 / 10 % 256) (by omega)
    have a1 := To8421_value (r % 86400 / 3600 % 10 % 256) (by omega)
    rw [← h10] at a10 l10
    rw [← h1] at a1
    show 20 * f.hours10.e2 + 10 * f.hours10.e3 + 8 * f.hours1.e0 + 4 * f.hours1.e1
      + 2 * f.hours1.e2 + f.hours1.e3 = r / 3600 % 24
    omega


theorem dstStatusFor_congr (t t' month day : Nat) (h : DayOfWeek t = DayOfWeek t') :
    dstStatusFor t month day = dstStatusFor t' month day := by
  unfold dstStatusFor
  rw [h]

theorem DayOfWeek_day : ∀ w, w < 7 → DayOfWeek (((w + 3) % 7) * 86400) = w := by
  decide

set_option maxRecDepth 100000 in
theorem dst_march_days : ∀ w, w < 7 → ∀ d, d < 32 → 1 ≤ d →
    (d + 6 - w) / 7 = sundaysUpTo d w ∧
    (dstStatusFor (((w + 3) % 7) * 86400) 3 d >>> 1,
     dstStatusFor (((w + 3) % 7) * 86400) 3 d &&& 1) =
      (if d < firstSunday d w + 7 then (0, 0)
       else if d = firstSunday d w + 7 then (1, 0) else (1, 1)) := by
  decide

set_option maxRecDepth 100000 in
theorem dst_november_days : ∀ w, w < 7 → ∀ d, d < 32 → 1 ≤ d →
    (dstStatusFor (((w + 3) % 7) * 86400) 11 d >>> 1,
     dstStatusFor (((w + 3) % 7) * 86400) 11 d &&& 1) =
      (if d < firstSunday d w then (1, 1)
       else if d = firstSunday d w then (0, 1) else (0, 0)) := by
  decide

/-- C7.  DST boundary days.  With `d` the day of the month of `t` and
`w = DayOfWeek t`: `(d + 6 - w) / 7` is the number of Sundays on or before day
`d`; in March the slots 57, 58 say "not in effect" (0, 0) on every day before
the second Sunday of the month, "begins today" (1, 0) on the second Sunday
and "in effect" (1, 1) on every later day; in November they say "in effect"
on every day before the first Sunday, "ends today" (0, 1) on the first Sunday
and "not in effect" on every later day. -/
theorem frame_dst_boundary (t : Nat) (outTCS : SWWVBTimeCode) :
    ∃ f, LoadTimeCodeStruct t outTCS = some f ∧
      ((DateComponents t).2.2.2 + 6 - DayOfWeek t) / 7 =
        sundaysUpTo (DateComponents t).2.2.2 (DayOfWeek t) ∧
      ((DateComponents t).2.2.1 = 3 →
        (f.slot 57, f.slot 58) =
          (if (DateComponents t).2.2.2 < firstSunday (DateComponents t).2.2.2 (DayOfWeek t) + 7
           then (0, 0)
           else if (DateComponents t).2.2.2 =
              firstSunday (DateComponents t).2.2.2 (DayOfWeek t) + 7
           then (1, 0) else (1, 1))) ∧
      ((DateComponents t).2.2.1 = 11 →
        (f.slot 57, f.slot 58) =
          (if (DateComponents t).2.2.2 < firstSunday (DateComponents t).2.2.2 (DayOfWeek t)
           then (1, 1)
           else if (DateComponents t).2.2.2 = firstSunday (DateComponents t).2.2.2 (DayOfWeek t)
           then (0, 1) else (0, 0))) := by
  obtain ⟨f, hf, -, -, -, -, -, -, -, -, -, -, -, -, -, -, -, -, -, -,
    -, -, -, -, -, -, dst, -⟩ := LoadTimeCodeStruct_fields t outTCS
  obtain ⟨-, -, hd1, hd31, -, -⟩ := DateComponents_range t
  have hw : DayOfWeek t < 7 := Nat.mod_lt _ (by omega)
  have hc := fun m => dstStatusFor_congr t (((DayOfWeek t + 3) % 7) * 86400) m
    (DateComponents t).2.2.2 (DayOfWeek_day _ hw).symm
  have hm := dst_march_days _ hw _ (Nat.lt_succ_of_le hd31) hd1
  have hn := dst_november_days _ hw _ (Nat.lt_succ_of_le hd31) hd1
  refine ⟨f, hf, hm.1, ?_, ?_⟩
  · intro h3
    rw [h3, hc 3] at dst
    show (f.dstStatus.e0, f.dstStatus.e1) = _
    rw [dst]
    exact hm.2
  · intro h11
    rw [h11, hc 11] at dst
    show (f.dstStatus.e0, f.dstStatus.e1) = _
    rw [dst]
    exact hn


set_option maxRecDepth 100000 in
/-- C7 at 2023-03-12 (the second Sunday of March 2023) and at 2023-11-05 (the
first Sunday of November 2023): "begins today" and "ends today". -/
theorem frame_dst_boundary_witness :
    (∃ f, LoadTimeCodeStruct 1678622400 zeroTimeCode = some f ∧
      (f.slot 57, f.slot 58) = (1, 0)) ∧
    (∃ f, LoadTimeCodeStruct 1699142400 zeroTimeCode = some f ∧
      (f.slot 57, f.slot 58) = (0, 1)) := by
  constructor
  · obtain ⟨f, hf, -, h3, -⟩ := frame_dst_boundary 1678622400 zeroTimeCode
    exact ⟨f, hf, (h3 (by decide)).trans (by decide)⟩
  · obtain ⟨f, hf, -, -, h11⟩ := frame_dst_boundary 1699142400 zeroTimeCode
    exact ⟨f, hf, (h11 (by decide)).trans (by decide)⟩

/-- C8 at the start-up time: slot 9 is a marker, slot 10 is not, slot 4 is 0. -/
theorem frame_wellformed_witness :
    ∃ f, LoadTimeCodeStruct 1680080880 zeroTimeCode = some f ∧
      f.slot 9 = 2 ∧ f.slot 10 ≠ 2 ∧ f.slot 10 ≤ 2 ∧ f.slot 4 = 0 := by
  obtain ⟨f, hf, -, hslots, hz⟩ := frame_wellformed 1680080880 zeroTimeCode
  exact ⟨f, hf, (hslots 9 (by decide)).2.mpr (by decide),
    fun h => absurd ((hslots 10 (by decide)).2.mp h) (by decide),
    (hslots 10 (by decide)).1, hz 4 (by decide)⟩


/-! ## The weekday -/

/-- C11.  Weekday anchor and period: `DayOfWeek 0 = 4`; `DayOfWeek t` is in 0..6
and depends only on the day number `t / 86400`; a week later the weekday is the
same and a day later it is the next one, also for the 32-bit sums as long as
they stay in the 32-bit range. -/
theorem DayOfWeek_anchor_period (t : Nat) :
    DayOfWeek 0 = 4 ∧ DayOfWeek t < 7 ∧
    (∀ u, u / 86400 = t / 86400 → DayOfWeek u = DayOfWeek t) ∧
    DayOfWeek (t + 7 * 86400) = DayOfWeek t ∧
    DayOfWeek (t + 86400) = (DayOfWeek t + 1) % 7 ∧
    (t + 7 * 86400 < 4294967296 →
      DayOfWeek ((t + 7 * 86400) % 4294967296) = DayOfWeek t) ∧
    (t + 86400 < 4294967296 →
      DayOfWeek ((t + 86400) % 4294967296) = (DayOfWeek t + 1) % 7) := by
  unfold DayOfWeek kOneDay
  refine ⟨by decide, by omega, ?_, by omega, by omega, ?_, ?_⟩
  · intro u hu
    rw [hu]
  · intro h
    rw [Nat.mod_eq_of_lt h]
    omega
  · intro h
    rw [Nat.mod_eq_of_lt h]
    omega

/-- C11 at the start-up time 0x6423FFF0, a Wednesday. -/
theorem DayOfWeek_anchor_period_witness :
    DayOfWeek 1680080880 = 3 ∧ DayOfWeek ((1680080880 + 7 * 86400) % 4294967296) = 3 ∧
    DayOfWeek ((1680080880 + 86400) % 4294967296) = 4 := by
  obtain ⟨-, -, -, -, -, h7, h1⟩ := DayOfWeek_anchor_period 1680080880
  have h : DayOfWeek 1680080880 = 3 := by decide
  exact ⟨h, (h7 (by decide)).trans h, (h1 (by decide)).trans (by rw [h])⟩


/-! ## The wake deadline -/

/-- The deadline that `PutGPSModuleToSleep` stores, as long as the sum does not
wrap: the start of the hour plus 30 or 90 minutes. -/
theorem PutGPSModuleToSleep_deadline (s : WWVBState) (h : s.sTime + 5400 < 4294967296) :
    (PutGPSModuleToSleep s).sTimeToNextGPSUpdate =
      s.sTime - s.sTime % 3600 + (if s.sTime % 3600 < 1800 then 1800 else 5400) := by
  unfold PutGPSModuleToSleep Time TimeComponents kOneDay kOneHour kOneMinute
  simp only []
  generalize s.sTime = t at h
  have hm : t % 86400 % 3600 / 60 * 60 + t % 86400 % 60 = t % 3600 := by omega
  rw [hm]
  have h1 : (t + 4294967296 - t % 3600 % 4294967296) % 4294967296 = t - t % 3600 := by omega
  rw [h1]
  by_cases h30 : t % 86400 % 3600 / 60 ≥ 30
  · rw [if_pos h30, if_neg (by omega)]
    omega
  · rw [if_neg h30, if_pos (by omega)]
    omega

/-- C12 (amended).  For every current time `t` not within 90 minutes of the
32-bit limit, `PutGPSModuleToSleep` sets the wake deadline to the least instant
half past an hour (congruent to 1800 modulo 3600) that is strictly greater than
`t` truncated to the minute; when the minute of the hour is below 30 this is
also the least multiple of 1800 above it. -/
theorem wake_deadline_next_half_past (s : WWVBState) (h : s.sTime + 5400 < 4294967296) :
    (PutGPSModuleToSleep s).sTimeToNextGPSUpdate % 3600 = 1800 ∧
    s.sTime - s.sTime % 60 < (PutGPSModuleToSleep s).sTimeToNextGPSUpdate ∧
    (∀ m, m % 3600 = 1800 → s.sTime - s.sTime % 60 < m →
      (PutGPSModuleToSleep s).sTimeToNextGPSUpdate ≤ m) ∧
    ((s.sTime / 60) % 60 < 30 → ∀ m, m % 1800 = 0 → s.sTime - s.sTime % 60 < m →
      (PutGPSModuleToSleep s).sTimeToNextGPSUpdate ≤ m) := by
  rw [PutGPSModuleToSleep_deadline s h]
  generalize s.sTime = t at h
  refine ⟨?_, ?_, ?_, ?_⟩
  · split_ifs <;> omega
  · split_ifs <;> omega
  · intro m hm hlt
    split_ifs <;> omega
  · intro h30 m hm hlt
    rw [if_pos (by omega)]
    omega

/-- C12 (amended) at 2023-12-23 19:25:03: the deadline is 19:30:00. -/
theorem wake_deadline_next_half_past_witness :
    (PutGPSModuleToSleep { zeroState with sTime := 1703359503 }).sTimeToNextGPSUpdate % 3600
      = 1800 ∧
    (PutGPSModuleToSleep { zeroState with sTime := 1703359503 }).sTimeToNextGPSUpdate
      = 1703359800 := by
  have h := wake_deadline_next_half_past { zeroState with sTime := 1703359503 } (by decide)
  exact ⟨h.1, by decide⟩

/-- C12 as stated fails: at 00:40:00 of day 0 (`t = 2400`) the deadline is 5400
(01:30:00), but 3600 is a smaller multiple of 1800 that is strictly greater
than `t` truncated to the minute. -/
theorem wake_deadline_counterexample :
    (PutGPSModuleToSleep { zeroState with sTime := 2400 }).sTimeToNextGPSUpdate = 5400 ∧
    3600 % 1800 = 0 ∧ 2400 - 2400 % 60 < 3600 ∧ 3600 < 5400 := by
  decide


/-! ## The byte event -/

theorem finish_lt (st : RMCState) : finish st < 4294967296 := by
  unfold finish
  split_ifs <;> omega

theorem UnixTimeFromRMCString_lt (sc : Bool) (inString : Option (List Nat)) (v : Nat)
    (h : UnixTimeFromRMCString sc inString = some v) : v < 4294967296 := by
  cases inString with
  | none =>
    simp only [UnixTimeFromRMCString] at h
    cases h
    omega
  | some s =>
    rcases UnixTimeFromRMCString_cases sc s with hr | hr | hr
    · rw [hr] at h
      cases h
      omega
    · rw [hr] at h
      cases h
    · rw [hr] at h
      cases h
      exact finish_lt _

/-- The deadline is never 0: no instant half past an hour is a multiple of
`2^32`. -/
theorem PutGPSModuleToSleep_ne_zero (s : WWVBState) (h : s.sTime < 4294967296) :
    (PutGPSModuleToSleep s).sTimeToNextGPSUpdate ≠ 0 := by
  unfold PutGPSModuleToSleep Time TimeComponents kOneDay kOneHour kOneMinute
  simp only []
  generalize s.sTime = t at h
  have hm : t % 86400 % 3600 / 60 * 60 + t % 86400 % 60 = t % 3600 := by omega
  rw [hm]
  have h1 : (t + 4294967296 - t % 3600 % 4294967296) % 4294967296 = t - t % 3600 := by omega
  rw [h1]
  have h2 : (t - t % 3600) % 3600 = 0 := by omega
  generalize t - t % 3600 = q at h2
  split_ifs <;> omega

/-- C13.  The carriage-return byte event while awaiting telemetry (wake
deadline 0) terminates the buffer at the byte index, resets the index to 0 and
parses the buffer; when the parser returns a non-zero timestamp the clock
counter is that timestamp afterwards and the wake deadline is non-zero
(dormant); when it returns 0 the clock counter, the wake deadline, the frame
and the bit cursor are unchanged.  While dormant a byte event changes
nothing. -/
theorem rx_carriage_return (sc : Bool) (s : WWVBState)
    (hidx : s.sNMEAStrIdx < s.sNMEAStrBuf.length) :
    (s.sTimeToNextGPSUpdate = 0 → ∀ ts,
      UnixTimeFromRMCString sc (some (s.sNMEAStrBuf.set s.sNMEAStrIdx 0)) = some ts →
      ∃ s', HAL_UART_RxCpltCallback sc s 13 = .ok s' ∧
        s'.sNMEAStrBuf = s.sNMEAStrBuf.set s.sNMEAStrIdx 0 ∧ s'.sNMEAStrIdx = 0 ∧
        (ts ≠ 0 → s'.sTime = ts ∧ s'.sTimeToNextGPSUpdate ≠ 0) ∧
        (ts = 0 → s'.sTime = s.sTime ∧ s'.sTimeToNextGPSUpdate = 0 ∧
          s'.sWWVBTimeCode = s.sWWVBTimeCode ∧
          s'.sTimeCodeBitCount = s.sTimeCodeBitCount)) ∧
    (s.sTimeToNextGPSUpdate ≠ 0 → ∀ b, HAL_UART_RxCpltCallback sc s b = .ok s) := by
  constructor
  · intro hz ts hts
    have hlt := UnixTimeFromRMCString_lt sc _ ts hts
    unfold HAL_UART_RxCpltCallback
    rw [if_pos hz, if_neg (by decide), if_pos rfl, if_pos hidx]
    simp only []
    rw [hts]
    simp only []
    by_cases h0 : ts = 0
    · rw [if_neg (by simpa using h0)]
      exact ⟨_, rfl, rfl, rfl, fun h => absurd h0 h, fun _ => ⟨rfl, hz, rfl, rfl⟩⟩
    · rw [if_pos h0]
      refine ⟨_, rfl, rfl, rfl, fun _ => ⟨rfl, ?_⟩, fun h => absurd h h0⟩
      exact PutGPSModuleToSleep_ne_zero _ hlt
  · intro hnz b
    unfold HAL_UART_RxCpltCallback
    rw [if_neg hnz]

set_option maxRecDepth 100000 in
theorem rx_carriage_return_witness :
    UnixTimeFromRMCString true (some ((bytes
      "$GNRMC,192503.00,A,4420.87057,N,07111.35174,W,0.049,,231223,,,A,V*09"
        ++ List.replicate 60 0).set 68 0)) = some 1703359503 ∧
    ∃ s', HAL_UART_RxCpltCallback true
        { zeroState with
          sNMEAStrBuf := bytes
            "$GNRMC,192503.00,A,4420.87057,N,07111.35174,W,0.049,,231223,,,A,V*09"
              ++ List.replicate 60 0,
          sNMEAStrIdx := 68 } 13 = .ok s' ∧
      s'.sNMEAStrIdx = 0 ∧ s'.sTime = 1703359503 ∧ s'.sTimeToNextGPSUpdate ≠ 0 := by
  refine ⟨by decide, ?_⟩
  obtain ⟨s', h1, _, h3, h4, _⟩ := (rx_carriage_return true
    { zeroState with
      sNMEAStrBuf := bytes
        "$GNRMC,192503.00,A,4420.87057,N,07111.35174,W,0.049,,231223,,,A,V*09"
          ++ List.replicate 60 0,
      sNMEAStrIdx := 68 } (by decide)).1 rfl 1703359503 (by decide)
  exact ⟨s', h1, h3, (h4 (by decide)).1, (h4 (by decide)).2⟩


/-! ## The per-second tick -/

theorem slots_getElem (tc : SWWVBTimeCode) (i : Nat) (hi : i < 60) :
    tc.slots[i]? = some (tc.slot i) := by
  have hl : tc.slots.length = 60 := rfl
  unfold SWWVBTimeCode.slot
  rw [List.getD_eq_getElem?_getD, List.getElem?_eq_getElem (by omega)]
  rfl

theorem kBitDurations_getElem (b : Nat) (hb : b ≤ 2) :
    kBitDurations[b]? = some (kBitDurations.getD b 0) := by
  interval_cases b <;> rfl

/-- The second half of the tick handler (lines 565-581) when the cursor is
inside the frame and the slot under it holds a symbol. -/
theorem startBit_ok (s : WWVBState) (hi : s.sTimeCodeBitCount < 60)
    (hv : s.sWWVBTimeCode.slot s.sTimeCodeBitCount ≤ 2) :
    startBit s = .ok { s with
      sDuration := kBitDurations.getD (s.sWWVBTimeCode.slot s.sTimeCodeBitCount) 0,
      ccr1 := LOW_OUTPUT, sTenthsCount := 0 } := by
  unfold startBit
  rw [slots_getElem _ _ hi]
  simp only []
  rw [kBitDurations_getElem _ hv]

theorem LoadTimeCodeStruct_slot_zero (t : Nat) (outTCS : SWWVBTimeCode) :
    ∃ f, LoadTimeCodeStruct t outTCS = some f ∧ f.slot 0 = 2 := by
  obtain ⟨f, hf, m10, -⟩ := LoadTimeCodeStruct_fields t outTCS
  refine ⟨f, hf, ?_⟩
  show f.minutes10.e0 = 2
  rw [m10]

/-- C14 (amended).  For every dormant state (wake deadline non-zero): when the
bit cursor is at the last slot, 59, a per-second tick after which the
incremented clock counter is greater than or equal to the wake deadline leaves
the wake deadline at 0 with the receiver powered and listening, whether or not
the time is on a minute boundary; when the bit cursor is below 59 the tick
advances the cursor and leaves the wake deadline as it was. -/
theorem tick_wakes_at_frame_end (s : WWVBState) (hd : s.sTimeToNextGPSUpdate ≠ 0) :
    (s.sTimeCodeBitCount = 59 → s.sWWVBTimeCode.slot 59 ≤ 2 →
      s.sTimeToNextGPSUpdate ≤ (s.sTime + 1) % 4294967296 →
      ∃ s', HAL_RTCEx_RTCEventCallback s = .ok s' ∧ s'.sTimeToNextGPSUpdate = 0 ∧
        s'.gpsPower = true ∧ s'.uartReceiving = true ∧
        s'.sTime = (s.sTime + 1) % 4294967296) ∧
    (s.sTimeCodeBitCount < 59 →
      s.sWWVBTimeCode.slot (s.sTimeCodeBitCount + 1) ≤ 2 →
      ∃ s', HAL_RTCEx_RTCEventCallback s = .ok s' ∧
        s'.sTimeToNextGPSUpdate = s.sTimeToNextGPSUpdate ∧
        s'.sTimeCodeBitCount = s.sTimeCodeBitCount + 1 ∧
        s'.sTime = (s.sTime + 1) % 4294967296) := by
  constructor
  · intro hc hslot hdue
    have hn : ¬ (Tick s).sTimeCodeBitCount < 59 := by
      show ¬ s.sTimeCodeBitCount < 59
      omega
    have hw : (Tick s).sTimeToNextGPSUpdate ≠ 0 ∧
        (Tick s).sTimeToNextGPSUpdate ≤ Time (Tick s) := ⟨hd, hdue⟩
    unfold HAL_RTCEx_RTCEventCallback advanceFrame
    rw [if_neg hn]
    simp only []
    by_cases hm : Time (Tick s) % 60 = 0
    · rw [if_pos hm]
      obtain ⟨f, hf, h0⟩ := LoadTimeCodeStruct_slot_zero (Time (Tick s)) (Tick s).sWWVBTimeCode
      rw [hf]
      simp only []
      rw [if_pos hw]
      simp only []
      rw [startBit_ok _ (by show 0 < 60; omega) (by show f.slot 0 ≤ 2; omega)]
      exact ⟨_, rfl, rfl, rfl, rfl, rfl⟩
    · rw [if_neg hm]
      simp only []
      rw [if_pos hw]
      simp only []
      rw [startBit_ok _ (by show s.sTimeCodeBitCount < 60; omega)
        (by show s.sWWVBTimeCode.slot s.sTimeCodeBitCount ≤ 2; rw [hc]; exact hslot)]
      exact ⟨_, rfl, rfl, rfl, rfl, rfl⟩
  · intro hc hslot
    have hn : (Tick s).sTimeCodeBitCount < 59 := hc
    unfold HAL_RTCEx_RTCEventCallback advanceFrame
    rw [if_pos hn]
    simp only []
    rw [startBit_ok _ (by show s.sTimeCodeBitCount + 1 < 60; omega) hslot]
    exact ⟨_, rfl, rfl, rfl, rfl⟩

theorem tick_wakes_at_frame_end_witness :
    ∃ s', HAL_RTCEx_RTCEventCallback
        { zeroState with sTime := 1703359799, sTimeToNextGPSUpdate := 1703359800,
                         sTimeCodeBitCount := 59 } = .ok s' ∧
      s'.sTimeToNextGPSUpdate = 0 ∧ s'.gpsPower = true ∧ s'.uartReceiving = true ∧
      s'.sTime = (1703359799 + 1) % 4294967296 :=
  (tick_wakes_at_frame_end
    { zeroState with sTime := 1703359799, sTimeToNextGPSUpdate := 1703359800,
                     sTimeCodeBitCount := 59 } (by decide)).1 rfl (by decide) (by decide)

/-- C14, counterexample.  A dormant state with the bit cursor at 10: the tick
makes the clock counter equal to the wake deadline, and the wake deadline is
still non-zero afterwards. -/
theorem tick_wake_counterexample :
    ∃ s', HAL_RTCEx_RTCEventCallback
        { zeroState with sTime := 1703359799, sTimeToNextGPSUpdate := 1703359800,
                         sTimeCodeBitCount := 10 } = .ok s' ∧
      s'.sTime = 1703359800 ∧ s'.sTimeToNextGPSUpdate = 1703359800 ∧
      s'.sTimeToNextGPSUpdate ≤ s'.sTime ∧ s'.sTimeToNextGPSUpdate ≠ 0 ∧
      s'.gpsPower = false :=
  ⟨_, rfl, rfl, rfl, by decide, by decide, rfl⟩


/-! ## The sub-tick event -/

theorem subTicks_add (m : Nat) : ∀ (n : Nat) (s : WWVBState),
    subTicks (n + m) s = subTicks m (subTicks n s) := by
  intro n
  induction n with
  | zero =>
    intro s
    rw [Nat.zero_add]
    rfl
  | succ k ih =>
    intro s
    rw [Nat.add_right_comm]
    exact ih (HAL_TIM_PeriodElapsedCallback s)

theorem subTicks_high (n : Nat) : ∀ s : WWVBState, s.ccr1 = HIGH_OUTPUT →
    (subTicks n s).ccr1 = HIGH_OUTPUT := by
  induction n with
  | zero =>
    intro s h
    exact h
  | succ k ih =>
    intro s h
    apply ih
    unfold HAL_TIM_PeriodElapsedCallback
    by_cases hc : s.sDuration = s.sTenthsCount
    · rw [if_pos hc]
    · rw [if_neg hc]
      exact h

/-- The counter, the target and the output after `n` sub-tick events, while
the counter does not wrap. -/
theorem subTicks_state (n : Nat) : ∀ s : WWVBState, s.sTenthsCount + n < 4294967296 →
    (subTicks n s).sTenthsCount = s.sTenthsCount + n ∧
    (subTicks n s).sDuration = s.sDuration ∧
    (subTicks n s).ccr1 =
      if s.sTenthsCount ≤ s.sDuration ∧ s.sDuration < s.sTenthsCount + n
      then HIGH_OUTPUT else s.ccr1 := by
  induction n with
  | zero =>
    intro s _
    refine ⟨rfl, rfl, ?_⟩
    rw [if_neg (by omega)]
    rfl
  | succ k ih =>
    intro s h
    have hc : (HAL_TIM_PeriodElapsedCallback s).sTenthsCount = s.sTenthsCount + 1 := by
      unfold HAL_TIM_PeriodElapsedCallback
      by_cases hc : s.sDuration = s.sTenthsCount
      · rw [if_pos hc]
        show (s.sTenthsCount + 1) % 4294967296 = _
        omega
      · rw [if_neg hc]
        show (s.sTenthsCount + 1) % 4294967296 = _
        omega
    have hd : (HAL_TIM_PeriodElapsedCallback s).sDuration = s.sDuration := by
      unfold HAL_TIM_PeriodElapsedCallback
      by_cases hc : s.sDuration = s.sTenthsCount
      · rw [if_pos hc]
      · rw [if_neg hc]
    have ho : (HAL_TIM_PeriodElapsedCallback s).ccr1 =
        if s.sDuration = s.sTenthsCount then HIGH_OUTPUT else s.ccr1 := by
      unfold HAL_TIM_PeriodElapsedCallback
      by_cases hc : s.sDuration = s.sTenthsCount
      · rw [if_pos hc, if_pos hc]
      · rw [if_neg hc, if_neg hc]
    obtain ⟨i1, i2, i3⟩ := ih (HAL_TIM_PeriodElapsedCallback s) (by omega)
    show (subTicks k (HAL_TIM_PeriodElapsedCallback s)).sTenthsCount = _ ∧
      (subTicks k (HAL_TIM_PeriodElapsedCallback s)).sDuration = _ ∧
      (subTicks k (HAL_TIM_PeriodElapsedCallback s)).ccr1 = _
    rw [i1, i2, i3, hc, hd, ho]
    refine ⟨by omega, rfl, ?_⟩
    split_ifs <;> first | rfl | (exfalso; omega)

/-- From a state with the sub-tick counter at 0 and the output low, the output
is low after at most `sDuration` sub-tick events and high after more. -/
theorem subTicks_output (s : WWVBState) (h0 : s.sTenthsCount = 0) (hl : s.ccr1 = LOW_OUTPUT)
    (hd : s.sDuration + 1 < 4294967296) :
    (∀ n, n ≤ s.sDuration → (subTicks n s).ccr1 = LOW_OUTPUT) ∧
    (∀ n, s.sDuration < n → (subTicks n s).ccr1 = HIGH_OUTPUT) := by
  constructor
  · intro n hn
    rw [(subTicks_state n s (by omega)).2.2, if_neg (by omega)]
    exact hl
  · intro n hn
    obtain ⟨m, rfl⟩ : ∃ m, n = (s.sDuration + 1) + m := ⟨n - (s.sDuration + 1), by omega⟩
    rw [subTicks_add]
    apply subTicks_high
    rw [(subTicks_state (s.sDuration + 1) s (by omega)).2.2, if_pos (by omega)]

/-- What a tick that returns leaves behind: the counter at 0, the output low
and the target taken from the slot under the cursor. -/
theorem startBit_result (s s' : WWVBState) (h : startBit s = .ok s') :
    s'.sTimeCodeBitCount < 60 ∧
    kBitDurations[s'.sWWVBTimeCode.slot s'.sTimeCodeBitCount]? = some s'.sDuration ∧
    s'.sTenthsCount = 0 ∧ s'.ccr1 = LOW_OUTPUT := by
  unfold startBit at h
  by_cases hi : s.sTimeCodeBitCount < 60
  · rw [slots_getElem _ _ hi] at h
    simp only [] at h
    cases hb : kBitDurations[s.sWWVBTimeCode.slot s.sTimeCodeBitCount]? with
    | none =>
      rw [hb] at h
      cases h
    | some d =>
      rw [hb] at h
      simp only [] at h
      cases h
      exact ⟨hi, hb, rfl, rfl⟩
  · have hl : s.sWWVBTimeCode.slots.length = 60 := rfl
    rw [List.getElem?_eq_none (by omega)] at h
    cases h

theorem tick_result (s s' : WWVBState) (h : HAL_RTCEx_RTCEventCallback s = .ok s') :
    s'.sTimeCodeBitCount < 60 ∧
    kBitDurations[s'.sWWVBTimeCode.slot s'.sTimeCodeBitCount]? = some s'.sDuration ∧
    s'.sTenthsCount = 0 ∧ s'.ccr1 = LOW_OUTPUT := by
  unfold HAL_RTCEx_RTCEventCallback at h
  cases ha : advanceFrame (Tick s) with
  | error e =>
    rw [ha] at h
    cases h
  | ok s1 =>
    rw [ha] at h
    exact startBit_result s1 s' h

theorem kBitDurations_values (b d : Nat) (h : kBitDurations[b]? = some d) :
    d ≤ 8 ∧ (b = 0 → d = 2) ∧ (b = 1 → d = 5) ∧ (b = 2 → d = 8) := by
  by_cases hb : b < 3
  · interval_cases b <;> cases h <;> decide
  · have hl : kBitDurations.length = 3 := rfl
    rw [List.getElem?_eq_none (by omega)] at h
    cases h

/-- C15 (amended).  In the state a per-second tick leaves, the sub-tick counter
is 0, the output is low and the target duration d is the entry of
`kBitDurations` for the slot under the cursor (2, 5, 8 for the symbols 0, 1 and
MARKER).  From that state the output is still low after any number of sub-tick
events up to and including d, and it is high after d + 1 sub-tick events and
after every larger number of them; for a MARKER slot d = 8, so the output rises
at the ninth sub-tick event, not at the third or the sixth. -/
theorem bit_timing (s s' : WWVBState) (ht : HAL_RTCEx_RTCEventCallback s = .ok s') :
    s'.sTenthsCount = 0 ∧ s'.ccr1 = LOW_OUTPUT ∧
    kBitDurations[s'.sWWVBTimeCode.slot s'.sTimeCodeBitCount]? = some s'.sDuration ∧
    (∀ n, n ≤ s'.sDuration → (subTicks n s').ccr1 = LOW_OUTPUT) ∧
    (∀ n, s'.sDuration < n → (subTicks n s').ccr1 = HIGH_OUTPUT) ∧
    (s'.sWWVBTimeCode.slot s'.sTimeCodeBitCount = 2 →
      s'.sDuration = 8 ∧ (subTicks 8 s').ccr1 = LOW_OUTPUT ∧
      (subTicks 9 s').ccr1 = HIGH_OUTPUT) := by
  obtain ⟨-, hk, h0, hl⟩ := tick_result s s' ht
  obtain ⟨h8, -, -, hm⟩ := kBitDurations_values _ _ hk
  obtain ⟨lo, hi⟩ := subTicks_output s' h0 hl (by omega)
  refine ⟨h0, hl, hk, lo, hi, ?_⟩
  intro h2
  have e := hm h2
  exact ⟨e, lo 8 (by omega), hi 9 (by omega)⟩

theorem bit_timing_witness :
    HAL_RTCEx_RTCEventCallback
      { zeroState with sTimeCodeBitCount := 58,
                       sWWVBTimeCode := { zeroTimeCode with p0 := 2 } } =
      .ok { zeroState with sTime := 1, sTimeChanged := true, sTimeCodeBitCount := 59,
                           sDuration := 8,
                           sWWVBTimeCode := { zeroTimeCode with p0 := 2 } } ∧
    (subTicks 8 { zeroState with sTime := 1, sTimeChanged := true, sTimeCodeBitCount := 59,
                                 sDuration := 8,
                                 sWWVBTimeCode := { zeroTimeCode with p0 := 2 } }).ccr1
      = LOW_OUTPUT ∧
    (subTicks 9 { zeroState with sTime := 1, sTimeChanged := true, sTimeCodeBitCount := 59,
                                 sDuration := 8,
                                 sWWVBTimeCode := { zeroTimeCode with p0 := 2 } }).ccr1
      = HIGH_OUTPUT :=
  ⟨rfl, ((bit_timing
      { zeroState with sTimeCodeBitCount := 58,
                       sWWVBTimeCode := { zeroTimeCode with p0 := 2 } }
      { zeroState with sTime := 1, sTimeChanged := true, sTimeCodeBitCount := 59,
                       sDuration := 8,
                       sWWVBTimeCode := { zeroTimeCode with p0 := 2 } } rfl).2.2.2.2.2 rfl).2⟩

/-- C15, counterexample.  The tick moves the cursor to the MARKER slot 59 and
sets the target duration 8; after exactly 8 sub-tick events the output is still
low (it is high after the ninth). -/
theorem bit_timing_counterexample :
    ∃ s', HAL_RTCEx_RTCEventCallback
        { zeroState with sTimeCodeBitCount := 58,
                         sWWVBTimeCode := { zeroTimeCode with p0 := 2 } } = .ok s' ∧
      s'.sWWVBTimeCode.slot s'.sTimeCodeBitCount = 2 ∧ s'.sDuration = 8 ∧
      s'.sTenthsCount = 0 ∧ s'.ccr1 = LOW_OUTPUT ∧
      (subTicks 8 s').ccr1 = LOW_OUTPUT ∧ (subTicks 8 s').ccr1 ≠ HIGH_OUTPUT ∧
      (subTicks 9 s').ccr1 = HIGH_OUTPUT :=
  ⟨_, rfl, rfl, rfl, rfl, rfl, rfl, by decide, rfl⟩


/-! ## The line buffer -/

theorem advanceFrame_buffer (s s1 : WWVBState) (h : advanceFrame s = .ok s1) :
    s1.sNMEAStrIdx = s.sNMEAStrIdx ∧ s1.sNMEAStrBuf = s.sNMEAStrBuf := by
  unfold advanceFrame at h
  by_cases hc : s.sTimeCodeBitCount < 59
  · rw [if_pos hc] at h
    cases h
    exact ⟨rfl, rfl⟩
  · rw [if_neg hc] at h
    simp only [] at h
    by_cases hm : Time s % 60 = 0
    · rw [if_pos hm] at h
      obtain ⟨f, hf, -⟩ := LoadTimeCodeStruct_slot_zero (Time s) s.sWWVBTimeCode
      rw [hf] at h
      simp only [] at h
      split_ifs at h <;> cases h <;> exact ⟨rfl, rfl⟩
    · rw [if_neg hm] at h
      simp only [] at h
      split_ifs at h <;> cases h <;> exact ⟨rfl, rfl⟩

theorem advanceFrame_fault (s : WWVBState) (e : Fault) (h : advanceFrame s = .error e) :
    e = Fault.daysTableIndex := by
  unfold advanceFrame at h
  by_cases hc : s.sTimeCodeBitCount < 59
  · rw [if_pos hc] at h
    cases h
  · rw [if_neg hc] at h
    simp only [] at h
    by_cases hm : Time s % 60 = 0
    · rw [if_pos hm] at h
      obtain ⟨f, hf, -⟩ := LoadTimeCodeStruct_slot_zero (Time s) s.sWWVBTimeCode
      rw [hf] at h
      simp only [] at h
      split_ifs at h
    · rw [if_neg hm] at h
      simp only [] at h
      split_ifs at h

theorem startBit_buffer (s s1 : WWVBState) (h : startBit s = .ok s1) :
    s1.sNMEAStrIdx = s.sNMEAStrIdx ∧ s1.sNMEAStrBuf = s.sNMEAStrBuf := by
  unfold startBit at h
  cases hb : s.sWWVBTimeCode.slots[s.sTimeCodeBitCount]? with
  | none =>
    rw [hb] at h
    cases h
  | some bit =>
    rw [hb] at h
    simp only [] at h
    cases hd : kBitDurations[bit]? with
    | none =>
      rw [hd] at h
      cases h
    | some d =>
      rw [hd] at h
      cases h
      exact ⟨rfl, rfl⟩

theorem startBit_fault (s : WWVBState) (h : startBit s = .error Fault.bufferIndex) : False := by
  unfold startBit at h
  cases hb : s.sWWVBTimeCode.slots[s.sTimeCodeBitCount]? with
  | none =>
    rw [hb] at h
    cases h
  | some bit =>
    rw [hb] at h
    simp only [] at h
    cases hd : kBitDurations[bit]? with
    | none =>
      rw [hd] at h
      cases h
    | some d =>
      rw [hd] at h
      cases h

theorem tick_buffer (s s1 : WWVBState) (h : HAL_RTCEx_RTCEventCallback s = .ok s1) :
    s1.sNMEAStrIdx = s.sNMEAStrIdx ∧ s1.sNMEAStrBuf = s.sNMEAStrBuf := by
  unfold HAL_RTCEx_RTCEventCallback at h
  cases ha : advanceFrame (Tick s) with
  | error e =>
    rw [ha] at h
    cases h
  | ok s2 =>
    rw [ha] at h
    obtain ⟨a1, a2⟩ := advanceFrame_buffer _ _ ha
    obtain ⟨b1, b2⟩ := startBit_buffer _ _ h
    exact ⟨b1.trans a1, b2.trans a2⟩

theorem tick_fault (s : WWVBState) (h : HAL_RTCEx_RTCEventCallback s = .error Fault.bufferIndex) :
    False := by
  unfold HAL_RTCEx_RTCEventCallback at h
  cases ha : advanceFrame (Tick s) with
  | error e =>
    rw [ha] at h
    have := advanceFrame_fault _ _ ha
    subst this
    cases h
  | ok s2 =>
    rw [ha] at h
    exact startBit_fault _ h

theorem subTick_buffer (s : WWVBState) :
    (HAL_TIM_PeriodElapsedCallback s).sNMEAStrIdx = s.sNMEAStrIdx ∧
    (HAL_TIM_PeriodElapsedCallback s).sNMEAStrBuf = s.sNMEAStrBuf := by
  unfold HAL_TIM_PeriodElapsedCallback
  split_ifs <;> exact ⟨rfl, rfl⟩

/-- The byte event by cases, for a buffer of 128 bytes and an index of at most
126. -/
theorem rx_cases (sc : Bool) (s : WWVBState) (b : Nat)
    (hlen : s.sNMEAStrBuf.length = 128) (hidx : s.sNMEAStrIdx ≤ 126) :
    (s.sTimeToNextGPSUpdate ≠ 0 ∧ HAL_UART_RxCpltCallback sc s b = .ok s) ∨
    (s.sTimeToNextGPSUpdate = 0 ∧ b = 10 ∧
      HAL_UART_RxCpltCallback sc s b = .ok { s with uartReceiving := true }) ∨
    (s.sTimeToNextGPSUpdate = 0 ∧ b = 13 ∧
      HAL_UART_RxCpltCallback sc s b =
        match UnixTimeFromRMCString sc (some (s.sNMEAStrBuf.set s.sNMEAStrIdx 0)) with
        | none => .error Fault.parserRead
        | some timeRxd =>
          if timeRxd ≠ 0 then
            .ok (PutGPSModuleToSleep
              { SetTime timeRxd { s with sNMEAStrBuf := s.sNMEAStrBuf.set s.sNMEAStrIdx 0,
                                         sNMEAStrIdx := 0 } with statusLED := true })
          else .ok { s with sNMEAStrBuf := s.sNMEAStrBuf.set s.sNMEAStrIdx 0,
                            sNMEAStrIdx := 0, uartReceiving := true }) ∨
    (s.sTimeToNextGPSUpdate = 0 ∧ b ≠ 10 ∧ b ≠ 13 ∧ s.sNMEAStrIdx < 126 ∧
      HAL_UART_RxCpltCallback sc s b =
        .ok { s with sNMEAStrBuf := s.sNMEAStrBuf.set s.sNMEAStrIdx b,
                     sNMEAStrIdx := s.sNMEAStrIdx + 1, uartReceiving := true }) ∨
    (s.sTimeToNextGPSUpdate = 0 ∧ b ≠ 10 ∧ b ≠ 13 ∧ s.sNMEAStrIdx = 126 ∧
      HAL_UART_RxCpltCallback sc s b = .ok { s with uartReceiving := true }) := by
  unfold HAL_UART_RxCpltCallback
  by_cases hz : s.sTimeToNextGPSUpdate = 0
  · rw [if_pos hz]
    by_cases h10 : b = 10
    · rw [if_pos h10]
      exact Or.inr (Or.inl ⟨hz, h10, rfl⟩)
    · rw [if_neg h10]
      by_cases h13 : b = 13
      · rw [if_pos h13, if_pos (by omega)]
        exact Or.inr (Or.inr (Or.inl ⟨hz, h13, rfl⟩))
      · rw [if_neg h13]
        by_cases h126 : s.sNMEAStrIdx < 128 - 2
        · rw [if_pos h126, if_pos (by omega)]
          exact Or.inr (Or.inr (Or.inr (Or.inl ⟨hz, h10, h13, h126, rfl⟩)))
        · rw [if_neg h126]
          exact Or.inr (Or.inr (Or.inr (Or.inr ⟨hz, h10, h13, by omega, rfl⟩)))
  · rw [if_neg hz]
    exact Or.inl ⟨hz, rfl⟩

theorem rx_buffer (sc : Bool) (s s1 : WWVBState) (b : Nat)
    (hlen : s.sNMEAStrBuf.length = 128) (hidx : s.sNMEAStrIdx ≤ 126)
    (h : HAL_UART_RxCpltCallback sc s b = .ok s1) :
    s1.sNMEAStrBuf.length = 128 ∧ s1.sNMEAStrIdx ≤ 126 := by
  rcases rx_cases sc s b hlen hidx with ⟨-, e⟩ | ⟨-, -, e⟩ | ⟨-, -, e⟩ | ⟨-, -, -, hi, e⟩ |
    ⟨-, -, -, -, e⟩
  · rw [e] at h
    cases h
    exact ⟨hlen, hidx⟩
  · rw [e] at h
    cases h
    exact ⟨hlen, hidx⟩
  · rw [e] at h
    cases hp : UnixTimeFromRMCString sc (some (s.sNMEAStrBuf.set s.sNMEAStrIdx 0)) with
    | none =>
      rw [hp] at h
      cases h
    | some ts =>
      rw [hp] at h
      simp only [] at h
      by_cases h0 : ts ≠ 0
      · rw [if_pos h0] at h
        cases h
        refine ⟨?_, Nat.zero_le _⟩
        show (s.sNMEAStrBuf.set s.sNMEAStrIdx 0).length = 128
        rw [List.length_set]
        exact hlen
      · rw [if_neg h0] at h
        cases h
        refine ⟨?_, Nat.zero_le _⟩
        show (s.sNMEAStrBuf.set s.sNMEAStrIdx 0).length = 128
        rw [List.length_set]
        exact hlen
  · rw [e] at h
    cases h
    refine ⟨?_, ?_⟩
    · show (s.sNMEAStrBuf.set s.sNMEAStrIdx b).length = 128
      rw [List.length_set]
      exact hlen
    · show s.sNMEAStrIdx + 1 ≤ 126
      omega
  · rw [e] at h
    cases h
    exact ⟨hlen, hidx⟩

theorem rx_fault (sc : Bool) (s : WWVBState) (b : Nat)
    (hlen : s.sNMEAStrBuf.length = 128) (hidx : s.sNMEAStrIdx ≤ 126)
    (h : HAL_UART_RxCpltCallback sc s b = .error Fault.bufferIndex) : False := by
  rcases rx_cases sc s b hlen hidx with ⟨-, e⟩ | ⟨-, -, e⟩ | ⟨-, -, e⟩ | ⟨-, -, -, -, e⟩ |
    ⟨-, -, -, -, e⟩
  · rw [e] at h
    cases h
  · rw [e] at h
    cases h
  · rw [e] at h
    cases hp : UnixTimeFromRMCString sc (some (s.sNMEAStrBuf.set s.sNMEAStrIdx 0)) with
    | none =>
      rw [hp] at h
      cases h
    | some ts =>
      rw [hp] at h
      simp only [] at h
      split_ifs at h
  · rw [e] at h
    cases h
  · rw [e] at h
    cases h

theorem handle_buffer (sc : Bool) (s s1 : WWVBState) (e : Event)
    (hlen : s.sNMEAStrBuf.length = 128) (hidx : s.sNMEAStrIdx ≤ 126)
    (h : handle sc s e = .ok s1) :
    s1.sNMEAStrBuf.length = 128 ∧ s1.sNMEAStrIdx ≤ 126 := by
  cases e with
  | tick =>
    obtain ⟨a, b⟩ := tick_buffer s s1 h
    rw [a, b]
    exact ⟨hlen, hidx⟩
  | subTick =>
    cases h
    obtain ⟨a, b⟩ := subTick_buffer s
    rw [a, b]
    exact ⟨hlen, hidx⟩
  | byte b => exact rx_buffer sc s s1 b hlen hidx h

theorem handle_fault (sc : Bool) (s : WWVBState) (e : Event)
    (hlen : s.sNMEAStrBuf.length = 128) (hidx : s.sNMEAStrIdx ≤ 126) :
    handle sc s e ≠ .error Fault.bufferIndex := by
  intro h
  cases e with
  | tick => exact tick_fault s h
  | subTick => cases h
  | byte b => exact rx_fault sc s b hlen hidx h

theorem run_cons (sc : Bool) (s : WWVBState) (e : Event) (es : List Event) :
    run sc s (e :: es) =
      match handle sc s e with
      | .error f => .error f
      | .ok s1 => run sc s1 es := rfl

theorem run_buffer (sc : Bool) (es : List Event) : ∀ s : WWVBState,
    s.sNMEAStrBuf.length = 128 → s.sNMEAStrIdx ≤ 126 →
    run sc s es ≠ .error Fault.bufferIndex ∧
    ∀ s1, run sc s es = .ok s1 → s1.sNMEAStrBuf.length = 128 ∧ s1.sNMEAStrIdx ≤ 126 := by
  induction es with
  | nil =>
    intro s hlen hidx
    refine ⟨?_, ?_⟩
    · intro h
      cases h
    · intro s1 h
      cases h
      exact ⟨hlen, hidx⟩
  | cons e es ih =>
    intro s hlen hidx
    rw [run_cons]
    cases hh : handle sc s e with
    | error f =>
      simp only []
      refine ⟨?_, ?_⟩
      · intro h
        cases h
        exact handle_fault sc s e hlen hidx hh
      · intro s1 h
        cases h
    | ok s2 =>
      simp only []
      obtain ⟨a, b⟩ := handle_buffer sc s s2 e hlen hidx hh
      exact ih s2 a b

theorem run_bytes_total (sc : Bool) (bs : List Nat) : ∀ s : WWVBState,
    s.sNMEAStrBuf.length = 128 → s.sNMEAStrIdx ≤ 126 → (∀ b ∈ bs, b ≠ 13) →
    ∃ s1, run sc s (bs.map Event.byte) = .ok s1 := by
  induction bs with
  | nil =>
    intro s _ _ _
    exact ⟨s, rfl⟩
  | cons b bs ih =>
    intro s hlen hidx hb
    have h13 : b ≠ 13 := hb b (List.mem_cons_self _ _)
    have hrest : ∀ c ∈ bs, c ≠ 13 := fun c hc => hb c (List.mem_cons_of_mem _ hc)
    have hk : ∃ s2, HAL_UART_RxCpltCallback sc s b = .ok s2 := by
      rcases rx_cases sc s b hlen hidx with ⟨-, e⟩ | ⟨-, -, e⟩ | ⟨-, e13, -⟩ | ⟨-, -, -, -, e⟩ |
        ⟨-, -, -, -, e⟩
      · exact ⟨_, e⟩
      · exact ⟨_, e⟩
      · exact absurd e13 h13
      · exact ⟨_, e⟩
      · exact ⟨_, e⟩
    obtain ⟨s2, h2⟩ := hk
    obtain ⟨a, c⟩ := rx_buffer sc s s2 b hlen hidx h2
    obtain ⟨s3, h3⟩ := ih s2 a c hrest
    refine ⟨s3, ?_⟩
    have hh : handle sc s (Event.byte b) = .ok s2 := h2
    rw [List.map_cons, run_cons, hh]
    exact h3

/-- C16.  With the 128-byte line buffer and a byte index of at most 126 (in
particular 0), for every sequence of events the byte index never exceeds 126
and no store into the buffer (a received byte or the terminator written on
carriage-return) falls outside it; a sequence of received bytes without a
carriage-return is always processed to the end; a byte other than CR or LF
arriving at index 126 while awaiting telemetry changes neither the buffer nor
the index; and a carriage-return arriving at index 126 terminates the buffer at
126, resets the index and hands the buffer to the parser, whose non-zero result
becomes the clock counter. -/
theorem line_buffer_bounded (sc : Bool) (s : WWVBState)
    (hlen : s.sNMEAStrBuf.length = 128) (hidx : s.sNMEAStrIdx ≤ 126) :
    (∀ es, run sc s es ≠ .error Fault.bufferIndex ∧
      ∀ s1, run sc s es = .ok s1 → s1.sNMEAStrIdx ≤ 126 ∧ s1.sNMEAStrBuf.length = 128) ∧
    (∀ bs : List Nat, (∀ b ∈ bs, b ≠ 13) →
      ∃ s1, run sc s (bs.map Event.byte) = .ok s1 ∧ s1.sNMEAStrIdx ≤ 126) ∧
    (s.sTimeToNextGPSUpdate = 0 → s.sNMEAStrIdx = 126 → ∀ b, b ≠ 13 → b ≠ 10 →
      ∃ s1, HAL_UART_RxCpltCallback sc s b = .ok s1 ∧
        s1.sNMEAStrBuf = s.sNMEAStrBuf ∧ s1.sNMEAStrIdx = 126) ∧
    (s.sTimeToNextGPSUpdate = 0 → s.sNMEAStrIdx = 126 → ∀ ts,
      UnixTimeFromRMCString sc (some (s.sNMEAStrBuf.set 126 0)) = some ts →
      ∃ s1, HAL_UART_RxCpltCallback sc s 13 = .ok s1 ∧
        s1.sNMEAStrBuf = s.sNMEAStrBuf.set 126 0 ∧ s1.sNMEAStrIdx = 0 ∧
        (ts ≠ 0 → s1.sTime = ts)) := by
  refine ⟨?_, ?_, ?_, ?_⟩
  · intro es
    obtain ⟨a, b⟩ := run_buffer sc es s hlen hidx
    exact ⟨a, fun s1 h => ⟨(b s1 h).2, (b s1 h).1⟩⟩
  · intro bs hb
    obtain ⟨s1, h1⟩ := run_bytes_total sc bs s hlen hidx hb
    exact ⟨s1, h1, ((run_buffer sc _ s hlen hidx).2 s1 h1).2⟩
  · intro hz h126 b h13 h10
    rcases rx_cases sc s b hlen hidx with ⟨hn, -⟩ | ⟨-, e10, -⟩ | ⟨-, e13, -⟩ |
      ⟨-, -, -, hlt, -⟩ | ⟨-, -, -, -, e⟩
    · exact absurd hz hn
    · exact absurd e10 h10
    · exact absurd e13 h13
    · omega
    · exact ⟨_, e, rfl, h126⟩
  · intro hz h126 ts hts
    rcases rx_cases sc s 13 hlen hidx with ⟨hn, -⟩ | ⟨-, e10, -⟩ | ⟨-, -, e⟩ |
      ⟨-, -, e13, -⟩ | ⟨-, -, e13, -⟩
    · exact absurd hz hn
    · cases e10
    · rw [h126] at e
      rw [hts] at e
      simp only [] at e
      by_cases h0 : ts ≠ 0
      · rw [if_pos h0] at e
        exact ⟨_, e, rfl, rfl, fun _ => rfl⟩
      · rw [if_neg h0] at e
        exact ⟨_, e, rfl, rfl, fun h => absurd h h0⟩
    · exact absurd rfl e13
    · exact absurd rfl e13

theorem line_buffer_bounded_witness :
    ∃ s1, run true zeroState ((List.replicate 130 65).map Event.byte) = .ok s1 ∧
      s1.sNMEAStrIdx ≤ 126 :=
  (line_buffer_bounded true zeroState (List.length_replicate 128 0) (Nat.zero_le 126)).2.1 (List.replicate 130 65)
    (fun b hb => by rw [List.eq_of_mem_replicate hb]; decide)


/-! ## The frame as a function of the time -/

/-- C17.  Frame determinism: for every time value `t` and any two prior
contents of the output frame, `LoadTimeCodeStruct` returns, and returns the
same frame of 60 slots for both: every member is overwritten and nothing of the
previous frame survives. -/
theorem frame_determinism (t : Nat) (p q : SWWVBTimeCode) :
    ∃ f, LoadTimeCodeStruct t p = some f ∧ LoadTimeCodeStruct t q = some f ∧
      f.slots.length = 60 ∧
      (List.range 60).map (fun i => f.slot i) = f.slots := by
  obtain ⟨h1, h12, -⟩ := DateComponents_range t
  unfold LoadTimeCodeStruct
  simp only []
  rw [tableAt_month _ _ h1 h12]
  exact ⟨_, rfl, rfl, rfl, rfl⟩

/-! ## The DST bits -/

theorem dst_bits_value : ∀ v, v < 4 → v >>> 1 = v / 2 ∧ v &&& 1 = v % 2 := by
  decide

/-- C20.  The DST status and its two bits: for every time value whose month is
April..October the status is "in effect" and the slots 57, 58 hold 1, 1; for
every time value whose month is December, January or February the status is
"not in effect" and the slots hold 0, 0; in every case the status is one of
0 (not in effect), 1 (ends today), 2 (begins today), 3 (in effect), slot 57
holds its high bit and slot 58 its low bit. -/
theorem dst_status_encoding (t : Nat) (outTCS : SWWVBTimeCode) :
    ∃ f, LoadTimeCodeStruct t outTCS = some f ∧
      (4 ≤ (DateComponents t).2.2.1 ∧ (DateComponents t).2.2.1 ≤ 10 →
        dstStatusFor t (DateComponents t).2.2.1 (DateComponents t).2.2.2 = eDST_InEffect ∧
        f.slot 57 = 1 ∧ f.slot 58 = 1) ∧
      ((DateComponents t).2.2.1 = 12 ∨ (DateComponents t).2.2.1 = 1 ∨
          (DateComponents t).2.2.1 = 2 →
        dstStatusFor t (DateComponents t).2.2.1 (DateComponents t).2.2.2 = eDST_NotInEffect ∧
        f.slot 57 = 0 ∧ f.slot 58 = 0) ∧
      dstStatusFor t (DateComponents t).2.2.1 (DateComponents t).2.2.2 ≤ 3 ∧
      f.slot 57 = dstStatusFor t (DateComponents t).2.2.1 (DateComponents t).2.2.2 / 2 ∧
      f.slot 58 = dstStatusFor t (DateComponents t).2.2.1 (DateComponents t).2.2.2 % 2 ∧
      2 * f.slot 57 + f.slot 58 =
        dstStatusFor t (DateComponents t).2.2.1 (DateComponents t).2.2.2 ∧
      eDST_NotInEffect = 0 ∧ eDST_EndsToday = 1 ∧ eDST_BeginsToday = 2 ∧ eDST_InEffect = 3 := by
  obtain ⟨f, hf, -, -, -, -, -, -, -, -, -, -, -, -, -, -, -, -, -, -,
    -, -, -, -, -, -, dst, -⟩ := LoadTimeCodeStruct_fields t outTCS
  have hle := dstStatusFor_le t (DateComponents t).2.2.1 (DateComponents t).2.2.2
  have hb := dst_bits_value _ (Nat.lt_succ_of_le hle)
  have h57 : f.slot 57 =
      dstStatusFor t (DateComponents t).2.2.1 (DateComponents t).2.2.2 / 2 := by
    show f.dstStatus.e0 = _
    rw [dst]
    exact hb.1
  have h58 : f.slot 58 =
      dstStatusFor t (DateComponents t).2.2.1 (DateComponents t).2.2.2 % 2 := by
    show f.dstStatus.e1 = _
    rw [dst]
    exact hb.2
  refine ⟨f, hf, ?_, ?_, hle, h57, h58, by omega, rfl, rfl, rfl, rfl⟩
  · intro hm
    have hs : dstStatusFor t (DateComponents t).2.2.1 (DateComponents t).2.2.2
        = eDST_InEffect := by
      unfold dstStatusFor
      rw [if_neg (by omega), if_pos hm]
    rw [h57, h58, hs]
    exact ⟨rfl, rfl, rfl⟩
  · intro hm
    have hs : dstStatusFor t (DateComponents t).2.2.1 (DateComponents t).2.2.2
        = eDST_NotInEffect := by
      unfold dstStatusFor
      rw [if_neg (by omega), if_neg (by omega), if_neg (by omega)]
    rw [h57, h58, hs]
    exact ⟨rfl, rfl, rfl⟩

set_option maxRecDepth 100000 in
/-- C20 at 2023-07-10 (month 7) and at 2023-12-23 (month 12). -/
theorem dst_status_encoding_witness :
    (∃ f, LoadTimeCodeStruct 1689000000 zeroTimeCode = some f ∧
      f.slot 57 = 1 ∧ f.slot 58 = 1) ∧
    (∃ f, LoadTimeCodeStruct 1703359503 zeroTimeCode = some f ∧
      f.slot 57 = 0 ∧ f.slot 58 = 0) := by
  constructor
  · obtain ⟨f, hf, h, -⟩ := dst_status_encoding 1689000000 zeroTimeCode
    exact ⟨f, hf, (h (by decide)).2⟩
  · obtain ⟨f, hf, -, h, -⟩ := dst_status_encoding 1703359503 zeroTimeCode
    exact ⟨f, hf, (h (by decide)).2⟩


/-! ## What the running checksum covers -/

/-- After the asterisk only commas are folded into `crc`. -/
theorem scan_crc_after_asterisk (sc : Bool) (b : List Nat) : ∀ st : RMCState,
    st.crcAsteriskHit = true → (∀ c ∈ b, c ≠ 0) →
    (scan sc st b).crc = if b.count 44 % 2 = 0 then st.crc else st.crc ^^^ 44 := by
  induction b with
  | nil =>
    intro st _ _
    rfl
  | cons c b ih =>
    intro st hast hb
    have hc : c ≠ 0 := hb c (List.mem_cons_self _ _)
    have hrest : ∀ x ∈ b, x ≠ 0 := fun x hx => hb x (List.mem_cons_of_mem _ hx)
    have ha : (step sc st c).crcAsteriskHit = true := by
      rw [step_crcAsteriskHit, hast]
      rfl
    rw [scan_cons sc st c b hc, ih _ ha hrest]
    by_cases h44 : c = 44
    · subst h44
      have hs : (step sc st 44).crc = st.crc ^^^ 44 := by
        rw [step_crc, if_neg (by decide), if_pos (Or.inl rfl)]
      have e : (st.crc ^^^ 44) ^^^ 44 = st.crc := by
        rw [Nat.xor_assoc, Nat.xor_self, Nat.xor_zero]
      rw [hs, List.count_cons_self]
      by_cases hp : b.count 44 % 2 = 0
      · have hq : ¬ (b.count 44 + 1) % 2 = 0 := by omega
        rw [if_pos hp, if_neg hq]
      · have hq : (b.count 44 + 1) % 2 = 0 := by omega
        rw [if_neg hp, if_pos hq]
        exact e
    · have hs : (step sc st c).crc = st.crc := by
        rw [step_crc]
        by_cases h42 : c = 42
        · rw [if_pos h42]
        · rw [if_neg h42, if_neg (by rw [hast]; simp [h44])]
      rw [hs, List.count_cons_of_ne (Ne.symm h44)]

/-- The running checksum at the end of the loop, for a body `a ++ '*' :: b`
whose part `a` has no asterisk: the exclusive-or of `a`, and once more of a
comma when `b` holds an odd number of commas. -/
theorem scan_crc_coverage (sc : Bool) (a b : List Nat)
    (ha : ∀ c ∈ a, c ≠ 0 ∧ c ≠ 42 ∧ c < 256) (hb : ∀ c ∈ b, c ≠ 0) :
    (scan sc initState (a ++ 42 :: b)).crc =
      if b.count 44 % 2 = 0 then xorAll a else xorAll a ^^^ 44 := by
  have h1 := scan_crc_clean sc a initState rfl ha
  have hast : (step sc (scan sc initState a) 42).crcAsteriskHit = true := by
    rw [step_crcAsteriskHit]
    simp
  have hcrc : (step sc (scan sc initState a) 42).crc = xorAll a := by
    rw [step_crc, if_pos rfl, h1.1]
    rfl
  rw [scan_append sc a (42 :: b) (fun c hc => (ha c hc).1), scan_cons _ _ _ _ (by decide),
    scan_crc_after_asterisk sc b _ hast hb, hcrc]

set_option maxRecDepth 100000 in
/-- C19: a comma after the asterisk is folded into the running checksum.  The
characters between the dollar sign and the asterisk of the sentence below have
the exclusive-or 0x09, which its checksum field spells; with a comma appended
the running checksum at the end of the loop is 0x09 xor 0x2C = 0x25, so the
sentence ending in `*09,` returns 0 and the one ending in `*25,` returns the
timestamp. -/
theorem rmc_checksum_trailing_comma :
    xorAll (bytes "GNRMC,192503.00,A,4420.87057,N,07111.35174,W,0.049,,231223,,,A,V") = 9 ∧
    UnixTimeFromRMCString true (some (bytes
      "$GNRMC,192503.00,A,4420.87057,N,07111.35174,W,0.049,,231223,,,A,V*09"))
      = some 1703359503 ∧
    (scan true initState (bytes
      "GNRMC,192503.00,A,4420.87057,N,07111.35174,W,0.049,,231223,,,A,V*09,")).crc = 37 ∧
    (scan true initState (bytes
      "GNRMC,192503.00,A,4420.87057,N,07111.35174,W,0.049,,231223,,,A,V*09,")).expectedCRC
      = 9 ∧
    UnixTimeFromRMCString true (some (bytes
      "$GNRMC,192503.00,A,4420.87057,N,07111.35174,W,0.049,,231223,,,A,V*09,")) = some 0 ∧
    UnixTimeFromRMCString false (some (bytes
      "$GNRMC,192503.00,A,4420.87057,N,07111.35174,W,0.049,,231223,,,A,V*09,")) = some 0 ∧
    UnixTimeFromRMCString true (some (bytes
      "$GNRMC,192503.00,A,4420.87057,N,07111.35174,W,0.049,,231223,,,A,V*25,"))
      = some 1703359503 := by
  decide


/-! ## The calendar round trip -/

theorem daysToYear_succ (y : Nat) (h : 1970 ≤ y) :
    daysToYear (y + 1) = daysToYear y + daysInYear y := by
  unfold daysToYear
  have e : y + 1 - 1970 = (y - 1970) + 1 := by omega
  have e2 : 1970 + (y - 1970) = y := by omega
  rw [e, List.range_succ, List.map_append, List.sum_append, List.map_singleton,
    List.sum_singleton, e2]

theorem daysToYear_ge (n : Nat) : 365 * n ≤ daysToYear (1970 + n) := by
  induction n with
  | zero => exact Nat.zero_le _
  | succ k ih =>
    have h := daysToYear_succ (1970 + k) (by omega)
    have hp := daysInYear_pos (1970 + k)
    rw [← Nat.add_assoc, h]
    omega

/-- The walk of `DateComponents` takes off whole years: the days before the
year it ends in, plus the days left, are the days it started with. -/
theorem yearWalk_sum (fuel : Nat) : ∀ year days, 1970 ≤ year →
    1970 ≤ (yearWalk fuel year days).1 ∧
    daysToYear (yearWalk fuel year days).1 + (yearWalk fuel year days).2
      = daysToYear year + days := by
  induction fuel with
  | zero =>
    intro year days h
    simp only [yearWalk]
    exact ⟨h, trivial⟩
  | succ n ih =>
    intro year days h
    simp only [yearWalk]
    split_ifs with hge
    · obtain ⟨a, b⟩ := ih (year + 1) (days - daysInYear year) (by omega)
      rw [daysToYear_succ year h] at b
      exact ⟨a, by omega⟩
    · exact ⟨h, rfl⟩

theorem monthDay_inverse (y d : Nat) (hw : d < daysInYear y) :
    (if y % 4 = 0 then kDaysToLY else kDaysTo).getD
        (monthOf (if y % 4 = 0 then kDaysToLY else kDaysTo) d - 1) 0 ≤ d := by
  unfold daysInYear at hw
  by_cases hly : y % 4 = 0
  · simp only [hly, if_true] at hw ⊢
    exact (monthOf_kDaysToLY d hw).2.2.1
  · simp only [hly, if_false] at hw ⊢
    exact (monthOf_kDaysTo d hw).2.2.1

/-- The arithmetic of the round trip over plain numbers: year `y`, days left
`r`, day number `d` and seconds of the day `w`. -/
theorem components_inverse (y r d w g : Nat) (hg : g ≤ r) (hsum : daysToYear y + r = d) :
    (daysToYear y + g + (r - g + 1 - 1)) * 86400 + w / 3600 * 3600 + w % 3600 / 60 * 60
      + w % 60 = d * 86400 + w := by
  have e : daysToYear y + g + (r - g + 1 - 1) = d := by omega
  rw [e]
  omega

/-- The members that `ToComponents` stores are the values of `TimeComponents`
and `DateComponents`: none is cut by the width of its member. -/
theorem ToComponents_members (t : Nat) (ht : t < 4294967296) :
    ToComponents t =
      { second := (TimeComponents t).2.2, minute := (TimeComponents t).2.1,
        hour := (TimeComponents t).1, day := (DateComponents t).2.2.2,
        month := (DateComponents t).2.2.1, year := (DateComponents t).2.1 } ∧
    (DateComponents t).2.1 ≤ 2106 := by
  obtain ⟨-, h12, -, h31, -, -⟩ := DateComponents_range t
  obtain ⟨hy, hs⟩ := yearWalk_sum (t / kOneDay) 1970 (t / kOneDay) (le_refl _)
  have hyear : (DateComponents t).2.1 ≤ 2106 := by
    show (yearWalk (t / kOneDay) 1970 (t / kOneDay)).1 ≤ 2106
    have hge := daysToYear_ge ((yearWalk (t / kOneDay) 1970 (t / kOneDay)).1 - 1970)
    have e : 1970 + ((yearWalk (t / kOneDay) 1970 (t / kOneDay)).1 - 1970)
        = (yearWalk (t / kOneDay) 1970 (t / kOneDay)).1 := by omega
    rw [e] at hge
    have h0 : daysToYear 1970 = 0 := rfl
    rw [h0] at hs
    have hd : t / kOneDay ≤ 49710 := by
      unfold kOneDay
      omega
    omega
  refine ⟨?_, hyear⟩
  have hh : (TimeComponents t).1 < 256 := by
    unfold TimeComponents kOneDay kOneHour
    simp only []
    omega
  have hm : (TimeComponents t).2.1 < 256 := by
    unfold TimeComponents kOneDay kOneHour kOneMinute
    simp only []
    omega
  have hsec : (TimeComponents t).2.2 < 256 := by
    unfold TimeComponents kOneDay kOneMinute
    simp only []
    omega
  unfold ToComponents
  simp only []
  rw [Nat.mod_eq_of_lt hh, Nat.mod_eq_of_lt hm, Nat.mod_eq_of_lt hsec,
    Nat.mod_eq_of_lt (show (DateComponents t).2.2.2 < 256 by omega),
    Nat.mod_eq_of_lt (show (DateComponents t).2.2.1 < 256 by omega),
    Nat.mod_eq_of_lt (show (DateComponents t).2.1 < 65536 by omega)]

/-- C18.  Calendar round trip: for every 32-bit counter value `t` the members
of `ToComponents t` are a second and a minute below 60, an hour below 24, a
day 1..31, a month 1..12 and a year 1970..2106, and `FromComponents` gives `t`
back. -/
theorem calendar_round_trip (t : Nat) (ht : t < 4294967296) :
    FromComponents (ToComponents t) = t ∧
    (ToComponents t).second < 60 ∧ (ToComponents t).minute < 60 ∧
    (ToComponents t).hour < 24 ∧
    1 ≤ (ToComponents t).day ∧ (ToComponents t).day ≤ 31 ∧
    1 ≤ (ToComponents t).month ∧ (ToComponents t).month ≤ 12 ∧
    1970 ≤ (ToComponents t).year ∧ (ToComponents t).year ≤ 2106 := by
  obtain ⟨hc, hyear⟩ := ToComponents_members t ht
  obtain ⟨h1, h12, hd1, h31, -, -⟩ := DateComponents_range t
  obtain ⟨hy, hs⟩ := yearWalk_sum (t / kOneDay) 1970 (t / kOneDay) (le_refl _)
  have hlt := yearWalk_lt (t / kOneDay) 1970 (t / kOneDay) (le_refl _)
  have hinv := monthDay_inverse _ _ hlt
  have h0 : daysToYear 1970 = 0 := rfl
  rw [h0, Nat.zero_add] at hs
  have key := components_inverse _ _ _ (t % 86400) _ hinv hs
  rw [hc]
  refine ⟨?_, ?_, ?_, ?_, hd1, h31, h1, h12, hy, hyear⟩
  · have e : (t / kOneDay) * 86400 + t % 86400 = t := by
      unfold kOneDay
      omega
    rw [e] at key
    exact (congrArg (fun x => x % 4294967296) key).trans (Nat.mod_eq_of_lt ht)
  · show t % kOneDay % kOneMinute < 60
    unfold kOneMinute
    exact Nat.mod_lt _ (by omega)
  · show t % kOneDay % kOneHour / kOneMinute < 60
    unfold kOneDay kOneHour kOneMinute
    omega
  · show t % kOneDay / kOneHour < 24
    unfold kOneDay kOneHour
    omega

set_option maxRecDepth 100000 in
/-- C18 at 2023-12-23 19:25:03 and at the largest counter value,
2106-02-06 06:28:15 of the calendar in which every fourth year is a leap year. -/
theorem calendar_round_trip_witness :
    ToComponents 1703359503 =
      { second := 3, minute := 25, hour := 19, day := 23, month := 12, year := 2023 } ∧
    FromComponents (ToComponents 1703359503) = 1703359503 ∧
    ToComponents 4294967295 =
      { second := 15, minute := 28, hour := 6, day := 6, month := 2, year := 2106 } ∧
    FromComponents (ToComponents 4294967295) = 4294967295 :=
  ⟨by decide, (calendar_round_trip 1703359503 (by decide)).1, by decide,
    (calendar_round_trip 4294967295 (by decide)).1⟩


/-! ## The weighted-bit groups -/

/-- C21.  `To8421 v` writes four values in {0, 1} that spell `v` with the
weights 8, 4, 2, 1, for every `v < 16`; `ToTimeCode8421` with a hundreds group
writes three groups that are decimal digits with
`100 * hundreds + 10 * tens + units = v` for every `v` in 0..999, and without
a hundreds group it leaves the hundreds untouched and writes two decimal digits
with `10 * tens + units = v` for every `v` in 0..99. -/
theorem weighted_bit_round_trip :
    (∀ v, v < 16 →
      (To8421 v).e0 ≤ 1 ∧ (To8421 v).e1 ≤ 1 ∧ (To8421 v).e2 ≤ 1 ∧ (To8421 v).e3 ≤ 1 ∧
      dec8421 (To8421 v) = v) ∧
    (∀ v, v ≤ 999 → ∀ prior : Arr4,
      ∃ h, (ToTimeCode8421 v (some prior)).1 = some h ∧
        dec8421 h ≤ 9 ∧ dec8421 (ToTimeCode8421 v (some prior)).2.1 ≤ 9 ∧
        dec8421 (ToTimeCode8421 v (some prior)).2.2 ≤ 9 ∧
        100 * dec8421 h + 10 * dec8421 (ToTimeCode8421 v (some prior)).2.1
          + dec8421 (ToTimeCode8421 v (some prior)).2.2 = v) ∧
    (∀ v, v ≤ 99 →
      (ToTimeCode8421 v none).1 = none ∧
      dec8421 (ToTimeCode8421 v none).2.1 ≤ 9 ∧ dec8421 (ToTimeCode8421 v none).2.2 ≤ 9 ∧
      10 * dec8421 (ToTimeCode8421 v none).2.1 + dec8421 (ToTimeCode8421 v none).2.2 = v) := by
  have hv : ∀ d, d < 16 → dec8421 (To8421 d) = d := fun d hd => To8421_value d hd
  refine ⟨?_, ?_, ?_⟩
  · intro v h
    obtain ⟨b0, b1, b2, b3⟩ := To8421_bits v (by omega)
    exact ⟨b0, b1, b2, b3, hv v h⟩
  · intro v h prior
    have e100 : (v / 100) % 256 = v / 100 := Nat.mod_eq_of_lt (by omega)
    have e10 : ((v % 100) / 10) % 256 = (v % 100) / 10 := Nat.mod_eq_of_lt (by omega)
    have e1 : ((v % 100) % 10) % 256 = (v % 100) % 10 := Nat.mod_eq_of_lt (by omega)
    refine ⟨To8421 ((v / 100) % 256), rfl, ?_⟩
    show dec8421 (To8421 ((v / 100) % 256)) ≤ 9 ∧
      dec8421 (To8421 (((v % 100) / 10) % 256)) ≤ 9 ∧
      dec8421 (To8421 (((v % 100) % 10) % 256)) ≤ 9 ∧
      100 * dec8421 (To8421 ((v / 100) % 256)) + 10 * dec8421 (To8421 (((v % 100) / 10) % 256))
        + dec8421 (To8421 (((v % 100) % 10) % 256)) = v
    rw [e100, e10, e1, hv _ (show v / 100 < 16 by omega),
      hv _ (show (v % 100) / 10 < 16 by omega), hv _ (show (v % 100) % 10 < 16 by omega)]
    omega
  · intro v h
    have e10 : (v / 10) % 256 = v / 10 := Nat.mod_eq_of_lt (by omega)
    have e1 : (v % 10) % 256 = v % 10 := Nat.mod_eq_of_lt (by omega)
    refine ⟨rfl, ?_⟩
    show dec8421 (To8421 ((v / 10) % 256)) ≤ 9 ∧ dec8421 (To8421 ((v % 10) % 256)) ≤ 9 ∧
      10 * dec8421 (To8421 ((v / 10) % 256)) + dec8421 (To8421 ((v % 10) % 256)) = v
    rw [e10, e1, hv _ (show v / 10 < 16 by omega), hv _ (show v % 10 < 16 by omega)]
    omega

/-- C21 at the day of the year 357 and at the minute 25. -/
theorem weighted_bit_round_trip_witness :
    dec8421 (To8421 9) = 9 ∧
    (∃ h, (ToTimeCode8421 357 (some zeroArr4)).1 = some h ∧ dec8421 h = 3 ∧
      dec8421 (ToTimeCode8421 357 (some zeroArr4)).2.1 = 5 ∧
      dec8421 (ToTimeCode8421 357 (some zeroArr4)).2.2 = 7) ∧
    10 * dec8421 (ToTimeCode8421 25 none).2.1 + dec8421 (ToTimeCode8421 25 none).2.2 = 25 := by
  obtain ⟨h1, h2, h3⟩ := weighted_bit_round_trip
  exact ⟨(h1 9 (by decide)).2.2.2.2, ⟨_, rfl, by decide, by decide, by decide⟩,
    (h3 25 (by decide)).2.2.2⟩

/-! ## The shape of the wake deadline -/

/-- C25.  For every current time `t` below `2^32 - 5400`, `PutGPSModuleToSleep`
sets the wake deadline to `(t - t mod 3600) + 1800` when the minute of the hour
of `t` is below 30 and to `(t - t mod 3600) + 5400` otherwise; the deadline is
congruent to 1800 modulo 3600, strictly greater than `t`, at most `t + 3600`
and not 0. -/
theorem wake_deadline_shape (s : WWVBState) (h : s.sTime + 5400 < 4294967296) :
    (TimeComponents s.sTime).2.1 = (s.sTime / 60) % 60 ∧
    ((s.sTime / 60) % 60 < 30 →
      (PutGPSModuleToSleep s).sTimeToNextGPSUpdate = (s.sTime - s.sTime % 3600) + 1800) ∧
    (¬ (s.sTime / 60) % 60 < 30 →
      (PutGPSModuleToSleep s).sTimeToNextGPSUpdate = (s.sTime - s.sTime % 3600) + 5400) ∧
    (PutGPSModuleToSleep s).sTimeToNextGPSUpdate % 3600 = 1800 ∧
    s.sTime < (PutGPSModuleToSleep s).sTimeToNextGPSUpdate ∧
    (PutGPSModuleToSleep s).sTimeToNextGPSUpdate ≤ s.sTime + 3600 ∧
    (PutGPSModuleToSleep s).sTimeToNextGPSUpdate ≠ 0 ∧
    (PutGPSModuleToSleep s).sTimeToNextGPSUpdate < 4294967296 := by
  rw [PutGPSModuleToSleep_deadline s h]
  have hmin : (TimeComponents s.sTime).2.1 = (s.sTime / 60) % 60 := by
    unfold TimeComponents kOneDay kOneHour kOneMinute
    simp only []
    omega
  generalize s.sTime = t at h hmin
  refine ⟨hmin, ?_, ?_, ?_, ?_, ?_, ?_, ?_⟩
  · intro hm
    rw [if_pos (by omega)]
  · intro hm
    rw [if_neg (by omega)]
  · split_ifs <;> omega
  · split_ifs <;> omega
  · split_ifs <;> omega
  · split_ifs <;> omega
  · split_ifs <;> omega

/-- C25 at 2023-12-23 19:25:03 (deadline 19:30:00) and at 19:45:03 (deadline
20:30:00). -/
theorem wake_deadline_shape_witness :
    (PutGPSModuleToSleep { zeroState with sTime := 1703359503 }).sTimeToNextGPSUpdate
      = (1703359503 - 1703359503 % 3600) + 1800 ∧
    (PutGPSModuleToSleep { zeroState with sTime := 1703360703 }).sTimeToNextGPSUpdate
      = (1703360703 - 1703360703 % 3600) + 5400 :=
  ⟨(wake_deadline_shape { zeroState with sTime := 1703359503 } (by decide)).2.1 (by decide),
   (wake_deadline_shape { zeroState with sTime := 1703360703 } (by decide)).2.2.1 (by decide)⟩


/-! ## The reachable states of the sequencer -/

/-- Every slot of a frame built by `LoadTimeCodeStruct` holds one of the
symbols 0, 1, 2. -/
theorem LoadTimeCodeStruct_symbols (t : Nat) (outTCS : SWWVBTimeCode) :
    ∃ f, LoadTimeCodeStruct t outTCS = some f ∧ ∀ i, i < 60 → f.slot i ≤ 2 := by
  obtain ⟨f, hf, m10, z0, m1, p1, h10, z1, h1, p2, d100, z2, d10, p3, d1, z3, ds, p4, dv, z4,
    y10, p5, y1, z5, ly, ls, dst, p0⟩ := LoadTimeCodeStruct_fields t outTCS
  refine ⟨f, hf, ?_⟩
  intro i hi
  have b := fun v => To8421_bits (v % 256) (Nat.mod_lt _ (by omega))
  have b2 := To8421_bits eDUT_Negative (by decide)
  have b3 := To8421_bits 3 (by decide)
  have bd := dst_bits _ (Nat.lt_succ_of_le
    (dstStatusFor_le t (DateComponents t).2.2.1 (DateComponents t).2.2.2))
  have hly : f.leapYearIndicator ≤ 1 := by
    rw [ly]
    split_ifs <;> omega
  have hm0 : f.minutes10.e0 = 2 := by rw [m10]
  have hm1 : f.minutes10.e1 ≤ 1 := by rw [m10]; exact (b _).2.1
  have hm2 : f.minutes10.e2 ≤ 1 := by rw [m10]; exact (b _).2.2.1
  have hm3 : f.minutes10.e3 ≤ 1 := by rw [m10]; exact (b _).2.2.2
  have k := slots_wellformed f.minutes10.e1 f.minutes10.e2 f.minutes10.e3
    f.minutes1.e0 f.minutes1.e1 f.minutes1.e2 f.minutes1.e3
    f.hours10.e0 f.hours10.e1 f.hours10.e2 f.hours10.e3
    f.hours1.e0 f.hours1.e1 f.hours1.e2 f.hours1.e3
    f.dayOfYear100.e0 f.dayOfYear100.e1 f.dayOfYear100.e2 f.dayOfYear100.e3
    f.dayOfYear10.e0 f.dayOfYear10.e1 f.dayOfYear10.e2 f.dayOfYear10.e3
    f.dayOfYear1.e0 f.dayOfYear1.e1 f.dayOfYear1.e2 f.dayOfYear1.e3
    f.dutSign.e0 f.dutSign.e1 f.dutSign.e2 f.dutSign.e3
    f.dutValue.e0 f.dutValue.e1 f.dutValue.e2 f.dutValue.e3
    f.year10.e0 f.year10.e1 f.year10.e2 f.year10.e3
    f.year1.e0 f.year1.e1 f.year1.e2 f.year1.e3
    f.leapYearIndicator f.leapSecondAtEOM f.dstStatus.e0 f.dstStatus.e1
    hm1 hm2 hm3
    (by rw [m1]; exact (b _).1) (by rw [m1]; exact (b _).2.1)
    (by rw [m1]; exact (b _).2.2.1) (by rw [m1]; exact (b _).2.2.2)
    (by rw [h10]; exact (b _).1) (by rw [h10]; exact (b _).2.1)
    (by rw [h10]; exact (b _).2.2.1) (by rw [h10]; exact (b _).2.2.2)
    (by rw [h1]; exact (b _).1) (by rw [h1]; exact (b _).2.1)
    (by rw [h1]; exact (b _).2.2.1) (by rw [h1]; exact (b _).2.2.2)
    (by rw [d100]; exact (b _).1) (by rw [d100]; exact (b _).2.1)
    (by rw [d100]; exact (b _).2.2.1) (by rw [d100]; exact (b _).2.2.2)
    (by rw [d10]; exact (b _).1) (by rw [d10]; exact (b _).2.1)
    (by rw [d10]; exact (b _).2.2.1) (by rw [d10]; exact (b _).2.2.2)
    (by rw [d1]; exact (b _).1) (by rw [d1]; exact (b _).2.1)
    (by rw [d1]; exact (b _).2.2.1) (by rw [d1]; exact (b _).2.2.2)
    (by rw [ds]; exact b2.1) (by rw [ds]; exact b2.2.1)
    (by rw [ds]; exact b2.2.2.1) (by rw [ds]; exact b2.2.2.2)
    (by rw [dv]; exact b3.1) (by rw [dv]; exact b3.2.1)
    (by rw [dv]; exact b3.2.2.1) (by rw [dv]; exact b3.2.2.2)
    (by rw [y10]; exact (b _).1) (by rw [y10]; exact (b _).2.1)
    (by rw [y10]; exact (b _).2.2.1) (by rw [y10]; exact (b _).2.2.2)
    (by rw [y1]; exact (b _).1) (by rw [y1]; exact (b _).2.1)
    (by rw [y1]; exact (b _).2.2.1) (by rw [y1]; exact (b _).2.2.2)
    hly (by rw [ls]; omega) (by rw [dst]; exact bd.1) (by rw [dst]; exact bd.2) i hi
  have hs : f.slots = [2, f.minutes10.e1, f.minutes10.e2, f.minutes10.e3, 0,
    f.minutes1.e0, f.minutes1.e1, f.minutes1.e2, f.minutes1.e3, 2,
    f.hours10.e0, f.hours10.e1, f.hours10.e2, f.hours10.e3, 0,
    f.hours1.e0, f.hours1.e1, f.hours1.e2, f.hours1.e3, 2,
    f.dayOfYear100.e0, f.dayOfYear100.e1, f.dayOfYear100.e2, f.dayOfYear100.e3, 0,
    f.dayOfYear10.e0, f.dayOfYear10.e1, f.dayOfYear10.e2, f.dayOfYear10.e3, 2,
    f.dayOfYear1.e0, f.dayOfYear1.e1, f.dayOfYear1.e2, f.dayOfYear1.e3, 0,
    f.dutSign.e0, f.dutSign.e1, f.dutSign.e2, f.dutSign.e3, 2,
    f.dutValue.e0, f.dutValue.e1, f.dutValue.e2, f.dutValue.e3, 0,
    f.year10.e0, f.year10.e1, f.year10.e2, f.year10.e3, 2,
    f.year1.e0, f.year1.e1, f.year1.e2, f.year1.e3, 0,
    f.leapYearIndicator, f.leapSecondAtEOM, f.dstStatus.e0, f.dstStatus.e1, 2] := by
    unfold SWWVBTimeCode.slots
    rw [hm0, z0, p1, z1, p2, z2, p3, z3, p4, z4, p5, z5, p0]
  unfold SWWVBTimeCode.slot
  rw [hs]
  exact k.1

/-- The per-second tick from a state whose cursor is inside the frame and whose
frame holds symbols only: it returns, and this is what it leaves. -/
theorem tick_spec (s : WWVBState) (hc : s.sTimeCodeBitCount ≤ 59)
    (hsym : ∀ i, i < 60 → s.sWWVBTimeCode.slot i ≤ 2) :
    ∃ s1, HAL_RTCEx_RTCEventCallback s = .ok s1 ∧
      s1.sTime = (s.sTime + 1) % 4294967296 ∧
      s1.sNMEAStrIdx = s.sNMEAStrIdx ∧ s1.sNMEAStrBuf = s.sNMEAStrBuf ∧
      (s1.sTimeToNextGPSUpdate = s.sTimeToNextGPSUpdate ∨ s1.sTimeToNextGPSUpdate = 0) ∧
      (s.sTimeCodeBitCount < 59 →
        s1.sTimeCodeBitCount = s.sTimeCodeBitCount + 1 ∧
        s1.sWWVBTimeCode = s.sWWVBTimeCode ∧
        s1.sTimeToNextGPSUpdate = s.sTimeToNextGPSUpdate) ∧
      (s.sTimeCodeBitCount = 59 →
        ((s.sTime + 1) % 4294967296 % 60 = 0 →
          LoadTimeCodeStruct ((s.sTime + 1) % 4294967296) s.sWWVBTimeCode
            = some s1.sWWVBTimeCode ∧ s1.sTimeCodeBitCount = 0) ∧
        (¬ (s.sTime + 1) % 4294967296 % 60 = 0 →
          s1.sWWVBTimeCode = s.sWWVBTimeCode ∧ s1.sTimeCodeBitCount = 59)) ∧
      s1.sTimeCodeBitCount ≤ 59 ∧ (∀ i, i < 60 → s1.sWWVBTimeCode.slot i ≤ 2) ∧
      s1.sDuration = kBitDurations.getD (s1.sWWVBTimeCode.slot s1.sTimeCodeBitCount) 0 ∧
      s1.ccr1 = LOW_OUTPUT ∧ s1.sTenthsCount = 0 := by
  unfold HAL_RTCEx_RTCEventCallback advanceFrame
  by_cases h59 : (Tick s).sTimeCodeBitCount < 59
  · have h59s : s.sTimeCodeBitCount < 59 := h59
    rw [if_pos h59]
    simp only []
    rw [startBit_ok _ (by show s.sTimeCodeBitCount + 1 < 60; omega)
      (by show s.sWWVBTimeCode.slot (s.sTimeCodeBitCount + 1) ≤ 2; exact hsym _ (by omega))]
    refine ⟨_, rfl, rfl, rfl, rfl, Or.inl rfl, fun _ => ⟨rfl, rfl, rfl⟩, ?_, ?_, hsym,
      rfl, rfl, rfl⟩
    · intro h
      omega
    · show s.sTimeCodeBitCount + 1 ≤ 59
      omega
  · have h59s : s.sTimeCodeBitCount = 59 := by
      have : ¬ s.sTimeCodeBitCount < 59 := h59
      omega
    rw [if_neg h59]
    simp only []
    by_cases hm : Time (Tick s) % 60 = 0
    · have hms : (s.sTime + 1) % 4294967296 % 60 = 0 := hm
      rw [if_pos hm]
      obtain ⟨f, hf, hfs⟩ := LoadTimeCodeStruct_symbols (Time (Tick s)) (Tick s).sWWVBTimeCode
      rw [hf]
      simp only []
      by_cases hw : (Tick s).sTimeToNextGPSUpdate ≠ 0 ∧
          (Tick s).sTimeToNextGPSUpdate ≤ Time (Tick s)
      · rw [if_pos hw]
        simp only []
        rw [startBit_ok _ (by show 0 < 60; omega) (by show f.slot 0 ≤ 2; exact hfs 0 (by omega))]
        refine ⟨_, rfl, rfl, rfl, rfl, Or.inr rfl, ?_, fun _ => ⟨fun _ => ⟨hf, rfl⟩, ?_⟩,
          Nat.zero_le _, hfs, rfl, rfl, rfl⟩
        · intro h
          omega
        · intro h
          exact absurd hms h
      · rw [if_neg hw]
        simp only []
        rw [startBit_ok _ (by show 0 < 60; omega) (by show f.slot 0 ≤ 2; exact hfs 0 (by omega))]
        refine ⟨_, rfl, rfl, rfl, rfl, Or.inl rfl, ?_, fun _ => ⟨fun _ => ⟨hf, rfl⟩, ?_⟩,
          Nat.zero_le _, hfs, rfl, rfl, rfl⟩
        · intro h
          omega
        · intro h
          exact absurd hms h
    · have hms : ¬ (s.sTime + 1) % 4294967296 % 60 = 0 := hm
      rw [if_neg hm]
      simp only []
      by_cases hw : (Tick s).sTimeToNextGPSUpdate ≠ 0 ∧
          (Tick s).sTimeToNextGPSUpdate ≤ Time (Tick s)
      · rw [if_pos hw]
        simp only []
        rw [startBit_ok _ (by show s.sTimeCodeBitCount < 60; omega)
          (by show s.sWWVBTimeCode.slot s.sTimeCodeBitCount ≤ 2; exact hsym _ (by omega))]
        refine ⟨_, rfl, rfl, rfl, rfl, Or.inr rfl, ?_, fun _ => ⟨?_, fun _ => ⟨rfl, h59s⟩⟩,
          hc, hsym, rfl, rfl, rfl⟩
        · intro h
          omega
        · intro h
          exact absurd h hms
      · rw [if_neg hw]
        simp only []
        rw [startBit_ok _ (by show s.sTimeCodeBitCount < 60; omega)
          (by show s.sWWVBTimeCode.slot s.sTimeCodeBitCount ≤ 2; exact hsym _ (by omega))]
        refine ⟨_, rfl, rfl, rfl, rfl, Or.inl rfl, ?_, fun _ => ⟨?_, fun _ => ⟨rfl, h59s⟩⟩,
          hc, hsym, rfl, rfl, rfl⟩
        · intro h
          omega
        · intro h
          exact absurd h hms

/-- The byte event leaves the bit cursor and the frame alone, and it leaves the
byte index at 0 whenever it leaves the wake deadline non-zero. -/
theorem rx_sequencer (sc : Bool) (s s1 : WWVBState) (b : Nat)
    (hlen : s.sNMEAStrBuf.length = 128) (hidx : s.sNMEAStrIdx ≤ 126)
    (hd : s.sTimeToNextGPSUpdate ≠ 0 → s.sNMEAStrIdx = 0)
    (h : HAL_UART_RxCpltCallback sc s b = .ok s1) :
    s1.sTimeCodeBitCount = s.sTimeCodeBitCount ∧ s1.sWWVBTimeCode = s.sWWVBTimeCode ∧
    (s1.sTimeToNextGPSUpdate ≠ 0 → s1.sNMEAStrIdx = 0) := by
  rcases rx_cases sc s b hlen hidx with ⟨-, e⟩ | ⟨hz, -, e⟩ | ⟨-, -, e⟩ | ⟨hz, -, -, -, e⟩ |
    ⟨hz, -, -, -, e⟩
  · rw [e] at h
    cases h
    exact ⟨rfl, rfl, hd⟩
  · rw [e] at h
    cases h
    exact ⟨rfl, rfl, fun hn => absurd hz hn⟩
  · rw [e] at h
    cases hp : UnixTimeFromRMCString sc (some (s.sNMEAStrBuf.set s.sNMEAStrIdx 0)) with
    | none =>
      rw [hp] at h
      cases h
    | some ts =>
      rw [hp] at h
      simp only [] at h
      by_cases h0 : ts ≠ 0
      · rw [if_pos h0] at h
        cases h
        exact ⟨rfl, rfl, fun _ => rfl⟩
      · rw [if_neg h0] at h
        cases h
        exact ⟨rfl, rfl, fun _ => rfl⟩
  · rw [e] at h
    cases h
    exact ⟨rfl, rfl, fun hn => absurd hz hn⟩
  · rw [e] at h
    cases h
    exact ⟨rfl, rfl, fun hn => absurd hz hn⟩

theorem subTick_sequencer (s : WWVBState) :
    (HAL_TIM_PeriodElapsedCallback s).sTimeCodeBitCount = s.sTimeCodeBitCount ∧
    (HAL_TIM_PeriodElapsedCallback s).sWWVBTimeCode = s.sWWVBTimeCode ∧
    (HAL_TIM_PeriodElapsedCallback s).sTimeToNextGPSUpdate = s.sTimeToNextGPSUpdate := by
  unfold HAL_TIM_PeriodElapsedCallback
  split_ifs <;> exact ⟨rfl, rfl, rfl⟩

theorem handle_inv (sc : Bool) (s s1 : WWVBState) (e : Event) (hi : SequencerInv s)
    (h : handle sc s e = .ok s1) : SequencerInv s1 := by
  obtain ⟨hc, hsym, hlen, hidx, hd⟩ := hi
  cases e with
  | tick =>
    obtain ⟨s2, h2, -, i1, i2, i3, -, -, i6, i7, -⟩ := tick_spec s hc hsym
    have e : s1 = s2 := by
      have h3 : HAL_RTCEx_RTCEventCallback s = .ok s1 := h
      rw [h2] at h3
      cases h3
      rfl
    subst e
    refine ⟨i6, i7, by rw [i2]; exact hlen, by rw [i1]; exact hidx, ?_⟩
    intro hn
    rw [i1]
    rcases i3 with i3 | i3
    · exact hd (by rw [← i3]; exact hn)
    · exact absurd i3 hn
  | subTick =>
    cases h
    obtain ⟨a1, a2, a3⟩ := subTick_sequencer s
    obtain ⟨b1, b2⟩ := subTick_buffer s
    refine ⟨by rw [a1]; exact hc, by rw [a2]; exact hsym, by rw [b2]; exact hlen,
      by rw [b1]; exact hidx, ?_⟩
    intro hn
    rw [b1]
    exact hd (by rw [← a3]; exact hn)
  | byte b =>
    obtain ⟨a1, a2, a3⟩ := rx_sequencer sc s s1 b hlen hidx hd h
    obtain ⟨b1, b2⟩ := rx_buffer sc s s1 b hlen hidx h
    exact ⟨by rw [a1]; exact hc, by rw [a2]; exact hsym, b1, b2, a3⟩

theorem run_inv (sc : Bool) (es : List Event) : ∀ s s1 : WWVBState, SequencerInv s →
    run sc s es = .ok s1 → SequencerInv s1 := by
  induction es with
  | nil =>
    intro s s1 hi h
    cases h
    exact hi
  | cons e es ih =>
    intro s s1 hi h
    rw [run_cons] at h
    cases hh : handle sc s e with
    | error f =>
      rw [hh] at h
      cases h
    | ok s2 =>
      rw [hh] at h
      exact ih s2 s1 (handle_inv sc s s2 e hi hh) h

/-- What `InitWWVB` leaves: it returns, with the invariant of the reachable
states established. -/
theorem InitWWVB_spec (p : WWVBState) (hp : p.sNMEAStrBuf.length = 128) :
    ∃ s0, InitWWVB p = .ok s0 ∧ SequencerInv s0 ∧
      s0.sTimeCodeBitCount = 59 ∧ s0.sDuration = 2 ∧ s0.sTenthsCount = 0 ∧
      s0.ccr1 = LOW_OUTPUT ∧ s0.sNMEAStrIdx = 0 ∧ s0.sTimeToNextGPSUpdate = 0 ∧
      s0.sTime = 1680080880 ∧
      LoadTimeCodeStruct 1680080880 p.sWWVBTimeCode = some s0.sWWVBTimeCode := by
  obtain ⟨f, hf, hfs⟩ := LoadTimeCodeStruct_symbols 1680080880 p.sWWVBTimeCode
  have hf2 : LoadTimeCodeStruct 1680080880
      (SetTime 1680080880 { p with ccr1 := LOW_OUTPUT, sDuration := 2, sTenthsCount := 0,
                                   sNMEAStrIdx := 0 }).sWWVBTimeCode = some f := hf
  unfold InitWWVB
  simp only []
  rw [hf2]
  exact ⟨_, rfl, ⟨Nat.le_refl 59, hfs, hp, Nat.zero_le _, fun _ => rfl⟩, rfl, rfl, rfl, rfl,
    rfl, rfl, rfl, hf⟩

/-- C22.  `InitWWVB` returns an initial state with the cursor at 59, the frame
built for 0x6423FFF0 and the duration 2.  In every state reached from it by any
sequence of tick, sub-tick and byte events the bit cursor is in 0..59 and the
slot it selects holds 0, 1 or 2; the tick handler returns from such a state
(both of its table lookups are in bounds), and after the tick the cursor is
again in 0..59, the target duration is 2, 5 or 8 according as the slot at the
cursor is 0, 1 or 2, the output is low and the sub-tick counter is 0. -/
theorem tick_cursor_invariant (p : WWVBState) (hp : p.sNMEAStrBuf.length = 128) :
    (∃ s0, InitWWVB p = .ok s0) ∧
    ∀ s0, InitWWVB p = .ok s0 →
      s0.sTimeCodeBitCount = 59 ∧ s0.sDuration = 2 ∧
      LoadTimeCodeStruct 1680080880 p.sWWVBTimeCode = some s0.sWWVBTimeCode ∧
      ∀ (sc : Bool) (es : List Event) (s : WWVBState), run sc s0 es = .ok s →
        s.sTimeCodeBitCount ≤ 59 ∧ s.sWWVBTimeCode.slot s.sTimeCodeBitCount ≤ 2 ∧
        ∃ s1, HAL_RTCEx_RTCEventCallback s = .ok s1 ∧
          s1.sTimeCodeBitCount ≤ 59 ∧
          s1.sWWVBTimeCode.slots[s1.sTimeCodeBitCount]?
            = some (s1.sWWVBTimeCode.slot s1.sTimeCodeBitCount) ∧
          kBitDurations[s1.sWWVBTimeCode.slot s1.sTimeCodeBitCount]? = some s1.sDuration ∧
          (s1.sWWVBTimeCode.slot s1.sTimeCodeBitCount = 0 → s1.sDuration = 2) ∧
          (s1.sWWVBTimeCode.slot s1.sTimeCodeBitCount = 1 → s1.sDuration = 5) ∧
          (s1.sWWVBTimeCode.slot s1.sTimeCodeBitCount = 2 → s1.sDuration = 8) ∧
          s1.sWWVBTimeCode.slot s1.sTimeCodeBitCount ≤ 2 ∧
          s1.ccr1 = LOW_OUTPUT ∧ s1.sTenthsCount = 0 := by
  obtain ⟨i0, h0, hinv, a1, a2, -, -, -, -, -, a9⟩ := InitWWVB_spec p hp
  refine ⟨⟨i0, h0⟩, ?_⟩
  intro s0 hs0
  have e : s0 = i0 := by
    rw [h0] at hs0
    cases hs0
    rfl
  subst e
  refine ⟨a1, a2, a9, ?_⟩
  intro sc es s hr
  obtain ⟨hc, hsym, -, -, -⟩ := run_inv sc es s0 s hinv hr
  obtain ⟨s1, h1, -, -, -, -, -, -, c1, c2, -, c4, c5⟩ := tick_spec s hc hsym
  obtain ⟨-, k, -, -⟩ := tick_result s s1 h1
  obtain ⟨-, k0, k1, k2⟩ := kBitDurations_values _ _ k
  exact ⟨hc, hsym _ (by omega), s1, h1, c1, slots_getElem _ _ (by omega), k, k0, k1, k2,
    c2 _ (by omega), c4, c5⟩

/-- C23.  `InitWWVB` returns an initial state that awaits telemetry with the
byte index 0.  In every state reached from it by any sequence of tick, sub-tick
and byte events the byte index is 0 whenever the wake deadline is non-zero
(dormant); so when a tick takes the wake deadline from non-zero to 0 the byte
index is 0 immediately afterwards, and the next received byte other than CR or
LF is stored at position 0 of the line buffer. -/
theorem wake_with_empty_line (p : WWVBState) (hp : p.sNMEAStrBuf.length = 128) :
    (∃ s0, InitWWVB p = .ok s0) ∧
    ∀ s0, InitWWVB p = .ok s0 →
      s0.sNMEAStrIdx = 0 ∧ s0.sTimeToNextGPSUpdate = 0 ∧
      ∀ (sc : Bool) (es : List Event) (s : WWVBState), run sc s0 es = .ok s →
        (s.sTimeToNextGPSUpdate ≠ 0 → s.sNMEAStrIdx = 0) ∧
        (s.sTimeToNextGPSUpdate ≠ 0 → ∀ s1, HAL_RTCEx_RTCEventCallback s = .ok s1 →
          s1.sTimeToNextGPSUpdate = 0 →
          s1.sNMEAStrIdx = 0 ∧
          ∀ b, b ≠ 10 → b ≠ 13 →
            ∃ s2, HAL_UART_RxCpltCallback sc s1 b = .ok s2 ∧
              s2.sNMEAStrBuf = s1.sNMEAStrBuf.set 0 b ∧ s2.sNMEAStrIdx = 1) := by
  obtain ⟨i0, h0, hinv, -, -, -, -, a5, a6, -, -⟩ := InitWWVB_spec p hp
  refine ⟨⟨i0, h0⟩, ?_⟩
  intro s0 hs0
  have e : s0 = i0 := by
    rw [h0] at hs0
    cases hs0
    rfl
  subst e
  refine ⟨a5, a6, ?_⟩
  intro sc es s hr
  have hi := run_inv sc es s0 s hinv hr
  refine ⟨hi.2.2.2.2, ?_⟩
  intro hn s1 h1 hz
  have hi1 : SequencerInv s1 := handle_inv sc s s1 Event.tick hi h1
  obtain ⟨-, -, l1, l2, -⟩ := hi1
  have hidx : s1.sNMEAStrIdx = 0 := by
    rw [(tick_buffer s s1 h1).1]
    exact hi.2.2.2.2 hn
  refine ⟨hidx, ?_⟩
  intro b h10 h13
  rcases rx_cases sc s1 b l1 l2 with ⟨hnz, -⟩ | ⟨-, e10, -⟩ | ⟨-, e13, -⟩ |
    ⟨-, -, -, -, e⟩ | ⟨-, -, -, e126, -⟩
  · exact absurd hz hnz
  · exact absurd e10 h10
  · exact absurd e13 h13
  · rw [hidx] at e
    exact ⟨_, e, rfl, rfl⟩
  · omega

set_option maxRecDepth 100000 in
/-- C22 from the zero-initialised storage: the state after a tick, a sub-tick
and the byte `$` is reachable, and the next tick returns from it. -/
theorem tick_cursor_invariant_witness :
    ∃ s0 s s1, InitWWVB zeroState = .ok s0 ∧
      run true s0 [Event.tick, Event.subTick, Event.byte 36] = .ok s ∧
      HAL_RTCEx_RTCEventCallback s = .ok s1 ∧
      s.sTimeCodeBitCount ≤ 59 ∧ s1.sTimeCodeBitCount ≤ 59 ∧
      s1.ccr1 = LOW_OUTPUT ∧ s1.sTenthsCount = 0 := by
  obtain ⟨s0, h0, s, hr⟩ : ∃ s0, InitWWVB zeroState = .ok s0 ∧
      ∃ s, run true s0 [Event.tick, Event.subTick, Event.byte 36] = .ok s :=
    ⟨_, rfl, _, rfl⟩
  obtain ⟨hc, -, s1, h1, c1, -, -, -, -, -, -, c4, c5⟩ :=
    ((tick_cursor_invariant zeroState (List.length_replicate 128 0)).2 s0 h0).2.2.2
      true _ s hr
  exact ⟨s0, s, s1, h0, hr, h1, hc, c1, c4, c5⟩

set_option maxRecDepth 100000 in
/-- C23 from the zero-initialised storage: the sentence of 2023-12-23 19:25:03
followed by a carriage-return leads to a dormant state, and its byte index is
0. -/
theorem wake_with_empty_line_witness :
    ∃ s0 s, InitWWVB zeroState = .ok s0 ∧
      run true s0 ((bytes
        "$GNRMC,192503.00,A,4420.87057,N,07111.35174,W,0.049,,231223,,,A,V*09\r").map
          Event.byte) = .ok s ∧
      s.sTimeToNextGPSUpdate = 1703359800 ∧ s.sNMEAStrIdx = 0 := by
  obtain ⟨s0, h0, s, hr, hd⟩ : ∃ s0, InitWWVB zeroState = .ok s0 ∧
      ∃ s, run true s0 ((bytes
        "$GNRMC,192503.00,A,4420.87057,N,07111.35174,W,0.049,,231223,,,A,V*09\r").map
          Event.byte) = .ok s ∧ s.sTimeToNextGPSUpdate = 1703359800 :=
    ⟨_, rfl, _, rfl, rfl⟩
  have hidx := (((wake_with_empty_line zeroState (List.length_replicate 128 0)).2 s0 h0).2.2
    true _ s hr).1 (by rw [hd]; decide)
  exact ⟨s0, s, h0, hr, hd, hidx⟩

/-! ## The cursor and the clock -/

/-- C24.  For a state whose frame holds symbols only: if before a per-second
tick the bit cursor equals the clock counter modulo 60 and the counter is below
`2^32 - 1`, the tick returns and afterwards the cursor again equals the clock
counter modulo 60; when the new counter is a multiple of 60 the frame is the
one `LoadTimeCodeStruct` builds for the new counter and the cursor is 0, and
otherwise the frame is unchanged.  When the cursor is 59 and the new counter is
not a multiple of 60 the cursor stays at 59 and the frame is unchanged. -/
theorem tick_alignment (s : WWVBState) (hsym : ∀ i, i < 60 → s.sWWVBTimeCode.slot i ≤ 2) :
    (s.sTimeCodeBitCount = s.sTime % 60 → s.sTime < 4294967295 →
      ∃ s1, HAL_RTCEx_RTCEventCallback s = .ok s1 ∧ s1.sTime = s.sTime + 1 ∧
        s1.sTimeCodeBitCount = s1.sTime % 60 ∧
        (s1.sTime % 60 = 0 →
          LoadTimeCodeStruct s1.sTime s.sWWVBTimeCode = some s1.sWWVBTimeCode ∧
          s1.sTimeCodeBitCount = 0) ∧
        (¬ s1.sTime % 60 = 0 → s1.sWWVBTimeCode = s.sWWVBTimeCode)) ∧
    (s.sTimeCodeBitCount = 59 → ¬ (s.sTime + 1) % 4294967296 % 60 = 0 →
      ∃ s1, HAL_RTCEx_RTCEventCallback s = .ok s1 ∧ s1.sTime = (s.sTime + 1) % 4294967296 ∧
        s1.sTimeCodeBitCount = 59 ∧ s1.sWWVBTimeCode = s.sWWVBTimeCode) := by
  constructor
  · intro hal hlt
    have hc : s.sTimeCodeBitCount ≤ 59 := by omega
    obtain ⟨s1, h1, t1, -, -, -, lo, hi, -⟩ := tick_spec s hc hsym
    have ht : s1.sTime = s.sTime + 1 := by
      rw [t1]
      exact Nat.mod_eq_of_lt (by omega)
    rw [Nat.mod_eq_of_lt (show s.sTime + 1 < 4294967296 by omega)] at hi
    refine ⟨s1, h1, ht, ?_, ?_, ?_⟩
    · rw [ht]
      by_cases h59 : s.sTimeCodeBitCount < 59
      · rw [(lo h59).1]
        omega
      · have e59 : s.sTimeCodeBitCount = 59 := by omega
        have hm : (s.sTime + 1) % 60 = 0 := by omega
        rw [((hi e59).1 hm).2, hm]
    · intro hm
      rw [ht] at hm ⊢
      have e59 : s.sTimeCodeBitCount = 59 := by omega
      exact (hi e59).1 hm
    · intro hm
      rw [ht] at hm
      by_cases h59 : s.sTimeCodeBitCount < 59
      · exact (lo h59).2.1
      · have e59 : s.sTimeCodeBitCount = 59 := by omega
        exact ((hi e59).2 hm).1
  · intro e59 hm
    obtain ⟨s1, h1, t1, -, -, -, -, hi, -⟩ := tick_spec s (by omega) hsym
    exact ⟨s1, h1, t1, ((hi e59).2 hm).2, ((hi e59).2 hm).1⟩

set_option maxRecDepth 100000 in
/-- C24 at 19:25:59 with the cursor at 59 (the tick builds the frame of
19:26:00 and resets the cursor) and at 19:25:03 with the cursor at 59 (the
cursor stays). -/
theorem tick_alignment_witness :
    (∃ s1, HAL_RTCEx_RTCEventCallback
        { zeroState with sTime := 1703359559, sTimeCodeBitCount := 59 } = .ok s1 ∧
      s1.sTime = 1703359560 ∧ s1.sTimeCodeBitCount = 0 ∧
      LoadTimeCodeStruct 1703359560 zeroTimeCode = some s1.sWWVBTimeCode) ∧
    (∃ s1, HAL_RTCEx_RTCEventCallback
        { zeroState with sTime := 1703359503, sTimeCodeBitCount := 59 } = .ok s1 ∧
      s1.sTimeCodeBitCount = 59 ∧ s1.sWWVBTimeCode = zeroTimeCode) := by
  constructor
  · obtain ⟨s1, h1, t1, -, hm, -⟩ := (tick_alignment
      { zeroState with sTime := 1703359559, sTimeCodeBitCount := 59 } (by decide)).1
      (by decide) (by decide)
    have t2 : s1.sTime = 1703359560 := t1
    rw [t2] at hm
    exact ⟨s1, h1, t2, (hm (by decide)).2, (hm (by decide)).1⟩
  · obtain ⟨s1, h1, -, c, f⟩ := (tick_alignment
      { zeroState with sTime := 1703359503, sTimeCodeBitCount := 59 } (by decide)).2
      rfl (by decide)
    exact ⟨s1, h1, c, f⟩


/-! ## The time of day in the frame -/

end UnixTimeWWVB
